import Mathlib

/-! # Bakery concurrency simulation: shallow embedding and verified properties

The development embeds two families of the C sources.

* `Final.c` / `tested.c`: the polling gate of `red_customer` and
  `blue_customer` (one pass of the `while (1)` body under `mutex`).
* `src_ds.c`: the `BakeryState` global, its helper functions and the three
  mutex-protected sections of `customer_behavior`, turned into a step machine
  over a pool of customer threads.

C `int` values are modelled as `Int`: every counter of the program moves by one
per critical section and is bounded by the number of customer threads, so no
wrap-around is involved.  A C array is a `List` of the declared length; an
array write outside the declared bounds is undefined behaviour and makes the
enclosing section return `none`.
-/

namespace Bakery

/-! ## Final.c / tested.c -/

/-- Shared counters `red_inside` and `blue_inside` of `Final.c` and `tested.c`. -/
structure Gate where
  red_inside : Int
  blue_inside : Int
deriving DecidableEq

/-- One pass through the body of the `while (1)` loop of `red_customer`
(`Final.c` lines 20-37, `tested.c` lines 23-43), executed under `mutex`.
The Boolean tells whether the pass ended in `break` (the customer is let in). -/
def red_customer_attempt (g : Gate) : Gate × Bool :=
  if g.red_inside < g.blue_inside then
    ({ g with red_inside := g.red_inside + 1 }, true)
  else if g.red_inside = 0 ∧ g.blue_inside = 0 then
    ({ g with red_inside := g.red_inside + 1 }, true)
  else
    (g, false)

/-- One pass through the body of the `while (1)` loop of `blue_customer`
(`Final.c` lines 56-75, `tested.c` lines 66-86), executed under `mutex`. -/
def blue_customer_attempt (g : Gate) : Gate × Bool :=
  if g.blue_inside < g.red_inside then
    ({ g with blue_inside := g.blue_inside + 1 }, true)
  else if g.red_inside = 0 ∧ g.blue_inside = 0 then
    ({ g with blue_inside := g.blue_inside + 1 }, true)
  else
    (g, false)

/-! ## src_ds.c : data model -/

/-- Constant `MAX_TABLES` of `src_ds.c`. -/
def MAX_TABLES : Nat := 10

/-- Constant `MAX_CUSTOMERS` of `src_ds.c`. -/
def MAX_CUSTOMERS : Nat := 100

/-- The enumeration `CustomerColor`. -/
inductive CustomerColor where
  | RED
  | BLUE
deriving DecidableEq

/-- The record `Customer`. -/
structure Customer where
  id : Nat
  color : CustomerColor
  eating_time : Nat
  has_table : Bool
deriving DecidableEq

/-- The record `BakeryState`.  A `Customer*` stored in a queue is the handle
(thread index) of that customer, `none` being `NULL`.  The semaphores `red_sem`
and `blue_sem` are their counter values.  `bakery_mutex` is what makes each
section below atomic; `tables_sem` and `balance_cond` are initialised and
destroyed but never waited on or signalled, so they carry no state here. -/
structure BakeryState where
  customers_inside : Int
  red_count : Int
  blue_count : Int
  free_tables : Int
  tables : List Bool
  red_queue : List (Option Nat)
  red_queue_front : Int
  red_queue_rear : Int
  red_queue_size : Int
  blue_queue : List (Option Nat)
  blue_queue_front : Int
  blue_queue_rear : Int
  blue_queue_size : Int
  red_sem : Nat
  blue_sem : Nat
deriving DecidableEq

/-- The global `bakery` as the C runtime zero-initialises it before `main`. -/
def bakery_zero : BakeryState :=
  { customers_inside := 0, red_count := 0, blue_count := 0, free_tables := 0,
    tables := List.replicate MAX_TABLES false,
    red_queue := List.replicate MAX_CUSTOMERS none,
    red_queue_front := 0, red_queue_rear := 0, red_queue_size := 0,
    blue_queue := List.replicate MAX_CUSTOMERS none,
    blue_queue_front := 0, blue_queue_rear := 0, blue_queue_size := 0,
    red_sem := 0, blue_sem := 0 }

/-- The function `init_bakery` applied to the global `b`.  It has return type
`void` and no error path: every field is assigned unconditionally. -/
def init_bakery_on (b : BakeryState) (total_tables : Int) : BakeryState :=
  { b with
    customers_inside := 0
    red_count := 0
    blue_count := 0
    free_tables := total_tables
    tables := (List.range MAX_TABLES).foldl (fun t i => t.set i false) b.tables
    red_queue_front := 0
    red_queue_rear := -1
    red_queue_size := 0
    blue_queue_front := 0
    blue_queue_rear := -1
    blue_queue_size := 0
    red_sem := 0
    blue_sem := 0 }

/-- The call `init_bakery(total_tables)` at program start. -/
def init_bakery (total_tables : Int) : BakeryState :=
  init_bakery_on bakery_zero total_tables

/-- The loop of `find_free_table` with `fuel` iterations left, at index `i`. -/
def find_free_table_from (tables : List Bool) : Nat → Nat → Int
  | 0, _ => -1
  | fuel + 1, i =>
    if tables.getD i false = false then (i : Int)
    else find_free_table_from tables fuel (i + 1)

/-- The function `find_free_table`: first index below `MAX_TABLES` whose slot is
not occupied, `-1` if there is none. -/
def find_free_table (b : BakeryState) : Int :=
  find_free_table_from b.tables MAX_TABLES 0

/-- The function `enqueue_customer`; `ptr` is the `Customer*`, `color` is
`customer->color`.  The C remainder `%` truncates, hence `Int.tmod`. -/
def enqueue_customer (b : BakeryState) (ptr : Nat) (color : CustomerColor) : BakeryState :=
  if color = CustomerColor.RED then
    let rear := Int.tmod (b.red_queue_rear + 1) MAX_CUSTOMERS
    { b with
      red_queue_rear := rear
      red_queue := b.red_queue.set rear.toNat (some ptr)
      red_queue_size := b.red_queue_size + 1 }
  else
    let rear := Int.tmod (b.blue_queue_rear + 1) MAX_CUSTOMERS
    { b with
      blue_queue_rear := rear
      blue_queue := b.blue_queue.set rear.toNat (some ptr)
      blue_queue_size := b.blue_queue_size + 1 }

/-- The function `dequeue_customer`: the returned pointer (`none` is `NULL`)
and the bakery afterwards. -/
def dequeue_customer (b : BakeryState) (color : CustomerColor) : Option Nat × BakeryState :=
  if color = CustomerColor.RED ∧ b.red_queue_size > 0 then
    (b.red_queue.getD b.red_queue_front.toNat none,
     { b with
       red_queue_front := Int.tmod (b.red_queue_front + 1) MAX_CUSTOMERS
       red_queue_size := b.red_queue_size - 1 })
  else if color = CustomerColor.BLUE ∧ b.blue_queue_size > 0 then
    (b.blue_queue.getD b.blue_queue_front.toNat none,
     { b with
       blue_queue_front := Int.tmod (b.blue_queue_front + 1) MAX_CUSTOMERS
       blue_queue_size := b.blue_queue_size - 1 })
  else
    (none, b)

/-- The function `can_enter`. -/
def can_enter (b : BakeryState) (color : CustomerColor) : Bool :=
  if b.customers_inside = 0 then true
  else if color = CustomerColor.RED then decide (b.red_count < b.blue_count)
  else decide (b.blue_count < b.red_count)

/-- The function `try_balance_entry`.  Every path through the body of its
`while (bakery.free_tables > 0)` ends in `break`, so the loop is a
conditional; `sem_post` adds one to the semaphore counter. -/
def try_balance_entry (b : BakeryState) : BakeryState :=
  if b.free_tables > 0 then
    if b.red_count < b.blue_count ∧ b.red_queue_size > 0 then
      { b with red_sem := b.red_sem + 1 }
    else if b.blue_count < b.red_count ∧ b.blue_queue_size > 0 then
      { b with blue_sem := b.blue_sem + 1 }
    else if b.red_count = b.blue_count then
      if b.red_queue_size > 0 then
        { b with red_sem := b.red_sem + 1 }
      else if b.blue_queue_size > 0 then
        { b with blue_sem := b.blue_sem + 1 }
      else b
    else b
  else b

/-! ## src_ds.c : the customer threads as a step machine -/

/-- Control point of a thread running `customer_behavior`:
`start` before the first `pthread_mutex_lock` (line 211), `blocked` inside
`sem_wait` (lines 242-246), `woken` between `sem_wait` and the second lock
(line 249), `eating` between the entry sections and the lock of line 279,
`done` after the function is left. -/
inductive Pc where
  | start
  | blocked
  | woken
  | eating
  | done
deriving DecidableEq

/-- A thread of `customer_behavior`: its `Customer`, the local `table_id` and
the control point. -/
structure Thread where
  customer : Customer
  table_id : Int
  pc : Pc
deriving DecidableEq

/-- The whole program state: the global `bakery` and the customer threads. -/
structure System where
  bakery : BakeryState
  threads : List Thread
deriving DecidableEq

/-- The colour-count increment `if (customer->color == RED) red_count++ else blue_count++`. -/
def count_incr (b : BakeryState) (color : CustomerColor) : BakeryState :=
  if color = CustomerColor.RED then { b with red_count := b.red_count + 1 }
  else { b with blue_count := b.blue_count + 1 }

/-- The colour-count decrement of the departure section. -/
def count_decr (b : BakeryState) (color : CustomerColor) : BakeryState :=
  if color = CustomerColor.RED then { b with red_count := b.red_count - 1 }
  else { b with blue_count := b.blue_count - 1 }

/-- The statements shared by both entry branches (lines 216-226 and 254-264):
count increment, `customers_inside++`, `free_tables--`,
`table_id = find_free_table()`, `tables[table_id] = true`,
`customer->has_table = true`.  The array write is defined only for an index
inside `tables`. -/
def take_table (b : BakeryState) (th : Thread) : Option (BakeryState × Thread) :=
  let b1 := count_incr b th.customer.color
  let b2 := { b1 with customers_inside := b1.customers_inside + 1 }
  let b3 := { b2 with free_tables := b2.free_tables - 1 }
  let table_id := find_free_table b3
  if 0 ≤ table_id ∧ table_id < MAX_TABLES then
    some ({ b3 with tables := b3.tables.set table_id.toNat true },
          { th with customer := { th.customer with has_table := true },
                    table_id := table_id, pc := Pc.eating })
  else none

/-- Control point reached after an entry section (line 275): the departure
section runs only if `customer->has_table`. -/
def after_entry (th : Thread) : Pc :=
  if th.customer.has_table then Pc.eating else Pc.done

/-- First critical section of `customer_behavior` (lines 211-239): direct entry
when `free_tables > 0 && can_enter(color)`, otherwise `enqueue_customer`. -/
def arrive_section (b : BakeryState) (ptr : Nat) (th : Thread) : Option (BakeryState × Thread) :=
  if b.free_tables > 0 ∧ can_enter b th.customer.color = true then
    take_table b th
  else
    some (enqueue_customer b ptr th.customer.color, { th with pc := Pc.blocked })

/-- The `sem_wait` of lines 242-246 on the semaphore of the colour of the customer:
enabled only when the counter is positive. -/
def sem_wait_color (b : BakeryState) (color : CustomerColor) : Option BakeryState :=
  if color = CustomerColor.RED then
    if 0 < b.red_sem then some { b with red_sem := b.red_sem - 1 } else none
  else
    if 0 < b.blue_sem then some { b with blue_sem := b.blue_sem - 1 } else none

/-- Second critical section (lines 249-271), run by a woken customer: entry if
`free_tables > 0`, otherwise nothing is changed. -/
def woken_section (b : BakeryState) (th : Thread) : Option (BakeryState × Thread) :=
  if b.free_tables > 0 then
    take_table b th
  else
    some (b, { th with pc := after_entry th })

/-- Third critical section (lines 279-299): departure followed by
`try_balance_entry`.  The write `tables[table_id] = false` is defined only for
an index inside `tables`. -/
def depart_section (b : BakeryState) (th : Thread) : Option (BakeryState × Thread) :=
  let b1 := count_decr b th.customer.color
  let b2 := { b1 with customers_inside := b1.customers_inside - 1 }
  let b3 := { b2 with free_tables := b2.free_tables + 1 }
  if 0 ≤ th.table_id ∧ th.table_id < MAX_TABLES then
    let b4 := { b3 with tables := b3.tables.set th.table_id.toNat false }
    some (try_balance_entry b4, { th with pc := Pc.done })
  else none

/-- The atomic steps of the machine; the argument is the thread index. -/
inductive Action where
  | arrive (i : Nat)
  | wake (i : Nat)
  | enter (i : Nat)
  | depart (i : Nat)
deriving DecidableEq

/-- Write back the result of a section run by thread `i`. -/
def commit (s : System) (i : Nat) (r : Option (BakeryState × Thread)) : Option System :=
  match r with
  | none => none
  | some (b, th) => some { bakery := b, threads := s.threads.set i th }

/-- One atomic step.  `none` when the thread does not exist, is not at the
control point of the action, is blocked in `sem_wait`, or when the section
performs an out-of-bounds array write. -/
def step (s : System) : Action → Option System
  | Action.arrive i =>
    match s.threads[i]? with
    | none => none
    | some th =>
      if th.pc = Pc.start then commit s i (arrive_section s.bakery i th) else none
  | Action.wake i =>
    match s.threads[i]? with
    | none => none
    | some th =>
      if th.pc = Pc.blocked then
        commit s i ((sem_wait_color s.bakery th.customer.color).map
          (fun b => (b, { th with pc := Pc.woken })))
      else none
  | Action.enter i =>
    match s.threads[i]? with
    | none => none
    | some th =>
      if th.pc = Pc.woken then commit s i (woken_section s.bakery th) else none
  | Action.depart i =>
    match s.threads[i]? with
    | none => none
    | some th =>
      if th.pc = Pc.eating then commit s i (depart_section s.bakery th) else none

/-- Run a schedule (a list of atomic steps) from `s`. -/
def run (s : System) : List Action → Option System
  | [] => some s
  | a :: rest =>
    match step s a with
    | none => none
    | some s1 => run s1 rest

/-- The customer allocated by `main` for loop index `i` (lines 316-320), with
the colour left free; `eating_time` only sets the length of a `sleep`. -/
def new_customer (i : Nat) (color : CustomerColor) : Customer :=
  { id := i + 1, color := color, eating_time := 1, has_table := false }

/-- Threads created for the given colours, each at the top of
`customer_behavior` with `table_id = -1`. -/
def spawn_from (i : Nat) : List CustomerColor → List Thread
  | [] => []
  | c :: cs => { customer := new_customer i c, table_id := -1, pc := Pc.start } :: spawn_from (i + 1) cs

/-- Program state after `init_bakery(total_tables)` with one thread per colour
of `colors`, none of which has run yet. -/
def initial (total_tables : Int) (colors : List CustomerColor) : System :=
  { bakery := init_bakery total_tables, threads := spawn_from 0 colors }

/-- States reachable from `init_bakery(total_tables)` by atomic steps. -/
def Reachable (total_tables : Int) (colors : List CustomerColor) (s : System) : Prop :=
  ∃ schedule : List Action, run (initial total_tables colors) schedule = some s

/-! ## Predicates used to state the properties -/

/-- Count of colour `c` in the bakery record. -/
def color_count (b : BakeryState) : CustomerColor → Int
  | CustomerColor.RED => b.red_count
  | CustomerColor.BLUE => b.blue_count

/-- The other colour. -/
def other_color : CustomerColor → CustomerColor
  | CustomerColor.RED => CustomerColor.BLUE
  | CustomerColor.BLUE => CustomerColor.RED

/-- A seated customer: `has_table` is set and the departure section has not run. -/
def seated (th : Thread) : Prop :=
  th.customer.has_table = true ∧ th.pc ≠ Pc.done

/-- Test used for counting: the thread is at the `eating` control point and its
customer wears colour `c`. -/
def eating_in (c : CustomerColor) (th : Thread) : Bool :=
  decide (th.pc = Pc.eating) && decide (th.customer.color = c)

/-- Inductive invariant of the step machine started with `total_tables` tables. -/
structure Inv (total_tables : Int) (s : System) : Prop where
  len : s.bakery.tables.length = MAX_TABLES
  inside : s.bakery.customers_inside = s.bakery.red_count + s.bakery.blue_count
  red : s.bakery.red_count = (s.threads.countP (eating_in CustomerColor.RED) : Int)
  blue : s.bakery.blue_count = (s.threads.countP (eating_in CustomerColor.BLUE) : Int)
  free : s.bakery.free_tables + s.bakery.customers_inside = total_tables
  nonneg : 0 ≤ total_tables → 0 ≤ s.bakery.free_tables
  occ : (s.bakery.tables.count true : Int) = s.bakery.customers_inside
  fresh : ∀ (i : Nat) (th : Thread), s.threads[i]? = some th → th.pc ≠ Pc.eating → th.pc ≠ Pc.done →
    th.customer.has_table = false
  seat : ∀ (i : Nat) (th : Thread), s.threads[i]? = some th → th.pc = Pc.eating →
    th.customer.has_table = true ∧ 0 ≤ th.table_id ∧
      s.bakery.tables[th.table_id.toNat]? = some true
  excl : ∀ (i j : Nat) (thi thj : Thread), s.threads[i]? = some thi → s.threads[j]? = some thj →
    thi.pc = Pc.eating → thj.pc = Pc.eating → thi.table_id = thj.table_id → i = j
  held : ∀ k : Nat, s.bakery.tables[k]? = some true →
    ∃ (i : Nat) (th : Thread), s.threads[i]? = some th ∧ th.pc = Pc.eating ∧ th.table_id = (k : Int)

/-! ## The waiting queues of src_ds.c against a FIFO list -/

/-- A call on the queue of one colour: `enqueue_customer` with the given
customer pointer, or `dequeue_customer`. -/
inductive QueueOp where
  | enqueue (ptr : Nat)
  | dequeue
deriving DecidableEq

/-- Run a sequence of queue calls of colour `c` on the bakery record; the list
holds the value returned by each `dequeue_customer`, in call order. -/
def run_queue_ops (c : CustomerColor) : BakeryState → List QueueOp → BakeryState × List (Option Nat)
  | b, [] => (b, [])
  | b, QueueOp.enqueue ptr :: ops => run_queue_ops c (enqueue_customer b ptr c) ops
  | b, QueueOp.dequeue :: ops =>
    ((run_queue_ops c (dequeue_customer b c).2 ops).1,
     (dequeue_customer b c).1 :: (run_queue_ops c (dequeue_customer b c).2 ops).2)

/-- Specification of a FIFO queue, following the words of the specification:
`waiting` lists the customers still queued, earliest arrival first; a dequeue
releases the longest-waiting one, or nobody when none is queued. -/
def fifo_spec : List Nat → List QueueOp → List Nat × List (Option Nat)
  | waiting, [] => (waiting, [])
  | waiting, QueueOp.enqueue ptr :: ops => fifo_spec (waiting ++ [ptr]) ops
  | waiting, QueueOp.dequeue :: ops =>
    ((fifo_spec waiting.tail ops).1, waiting.head? :: (fifo_spec waiting.tail ops).2)

/-- The number of queued customers never exceeds `MAX_CUSTOMERS` along `ops`. -/
def within_capacity : List Nat → List QueueOp → Bool
  | waiting, [] => decide (waiting.length ≤ MAX_CUSTOMERS)
  | waiting, QueueOp.enqueue ptr :: ops =>
    decide (waiting.length + 1 ≤ MAX_CUSTOMERS) && within_capacity (waiting ++ [ptr]) ops
  | waiting, QueueOp.dequeue :: ops => within_capacity waiting.tail ops

/-- The array of the queue of colour `c`. -/
def queue_of (b : BakeryState) : CustomerColor → List (Option Nat)
  | CustomerColor.RED => b.red_queue
  | CustomerColor.BLUE => b.blue_queue

/-- The front index of the queue of colour `c`. -/
def queue_front_of (b : BakeryState) : CustomerColor → Int
  | CustomerColor.RED => b.red_queue_front
  | CustomerColor.BLUE => b.blue_queue_front

/-- The rear index of the queue of colour `c`. -/
def queue_rear_of (b : BakeryState) : CustomerColor → Int
  | CustomerColor.RED => b.red_queue_rear
  | CustomerColor.BLUE => b.blue_queue_rear

/-- The size field of the queue of colour `c`. -/
def queue_size_of (b : BakeryState) : CustomerColor → Int
  | CustomerColor.RED => b.red_queue_size
  | CustomerColor.BLUE => b.blue_queue_size

/-- The circular buffer of colour `c` represents the list `waiting`: indices in
range, `rear + 1 ≡ front + size (mod MAX_CUSTOMERS)`, the size field is the
length, and the customers sit in arrival order from `front` onwards. -/
def QueueRep (c : CustomerColor) (b : BakeryState) (waiting : List Nat) : Prop :=
  ∃ f r : Nat,
    queue_front_of b c = (f : Int) ∧ f < MAX_CUSTOMERS ∧
    queue_rear_of b c + 1 = (r : Int) ∧ r ≤ MAX_CUSTOMERS ∧
    r % MAX_CUSTOMERS = (f + waiting.length) % MAX_CUSTOMERS ∧
    queue_size_of b c = (waiting.length : Int) ∧ waiting.length ≤ MAX_CUSTOMERS ∧
    (queue_of b c).length = MAX_CUSTOMERS ∧
    ∀ j : Nat, j < waiting.length →
      (queue_of b c)[(f + j) % MAX_CUSTOMERS]? = some (waiting[j]?)

/-! ## src_ds.c : the loop of try_balance_entry, iteration by iteration -/

/-- One pass through the body of the `while` loop of `try_balance_entry`
(lines 175-198): the bakery afterwards and whether the pass ended in `break`. -/
def try_balance_entry_body (b : BakeryState) : BakeryState × Bool :=
  if b.red_count < b.blue_count ∧ b.red_queue_size > 0 then
    ({ b with red_sem := b.red_sem + 1 }, true)
  else if b.blue_count < b.red_count ∧ b.blue_queue_size > 0 then
    ({ b with blue_sem := b.blue_sem + 1 }, true)
  else if b.red_count = b.blue_count then
    if b.red_queue_size > 0 then
      ({ b with red_sem := b.red_sem + 1 }, true)
    else if b.blue_queue_size > 0 then
      ({ b with blue_sem := b.blue_sem + 1 }, true)
    else (b, true)
  else (b, true)

/-- The `while (bakery.free_tables > 0)` loop of `try_balance_entry` run with
`fuel` as a bound on the number of passes: the bakery afterwards and the
number of passes through the body that were executed. -/
def try_balance_entry_loop : Nat → BakeryState → BakeryState × Nat
  | 0, b => (b, 0)
  | fuel + 1, b =>
    if b.free_tables > 0 then
      if (try_balance_entry_body b).2 = true then ((try_balance_entry_body b).1, 1)
      else
        ((try_balance_entry_loop fuel (try_balance_entry_body b).1).1,
         (try_balance_entry_loop fuel (try_balance_entry_body b).1).2 + 1)
    else (b, 0)

/-- The semaphore counter of colour `c`. -/
def sem_of (b : BakeryState) : CustomerColor → Nat
  | CustomerColor.RED => b.red_sem
  | CustomerColor.BLUE => b.blue_sem

/-- The call `try_balance_entry()` on `b` posts the semaphore of colour `c`. -/
def posts (b : BakeryState) (c : CustomerColor) : Prop :=
  sem_of (try_balance_entry b) c = sem_of b c + 1

/-! ## src_GUI01.c -/

namespace GUI01

/-- Constant `NUM_TABLES` of `src_GUI01.c`. -/
def NUM_TABLES : Nat := 5

/-- Constant `MAX_QUEUE_SIZE` of `src_GUI01.c`. -/
def MAX_QUEUE_SIZE : Nat := 20

/-- The record `Customer` of `src_GUI01.c`, without its two GTK widget
pointers. -/
structure Customer where
  id : Int
  color : CustomerColor
  in_bakery : Bool
  at_table : Bool
  table_num : Int
deriving DecidableEq

/-- The record `Queue`: a circular buffer of customer ids. -/
structure Queue where
  customer_ids : List Int
  front : Int
  rear : Int
  size : Int
deriving DecidableEq

/-- The initialiser `{.front = 0, .rear = -1, .size = 0}` of `red_queue` and
`blue_queue`; the array is zero-initialised. -/
def empty_queue : Queue :=
  { customer_ids := List.replicate MAX_QUEUE_SIZE 0, front := 0, rear := -1, size := 0 }

/-- The function `enqueue` (lines 84-92). -/
def enqueue (queue : Queue) (customer_id : Int) : Queue :=
  if queue.size < (MAX_QUEUE_SIZE : Int) then
    let rear := Int.tmod (queue.rear + 1) MAX_QUEUE_SIZE
    { queue with
      rear := rear
      customer_ids := queue.customer_ids.set rear.toNat customer_id
      size := queue.size + 1 }
  else queue

/-- The function `dequeue` (lines 94-104): the returned id and the queue
afterwards. -/
def dequeue (queue : Queue) : Int × Queue :=
  if queue.size > 0 then
    (queue.customer_ids.getD queue.front.toNat 0,
     { queue with
       front := Int.tmod (queue.front + 1) MAX_QUEUE_SIZE
       size := queue.size - 1 })
  else (-1, queue)

/-- Control point of a thread running `customer_thread`: `start` before the
`enqueue` of lines 324-328, `arrived` before the lock of line 334, `blocked`
inside the `sem_wait` of line 346 or 363, `woken` before the lock of line 348
or 365, `admitted` before `sem_wait(&tables_sem)` (line 373), `permitted`
before the lock of line 376, `staying` before the lock of line 409, `leaving`
before `sem_post(&tables_sem)` (line 435), `done` afterwards. -/
inductive Pc where
  | start
  | arrived
  | blocked
  | woken
  | admitted
  | permitted
  | staying
  | leaving
  | done
deriving DecidableEq

/-- A thread of `customer_thread` together with the `customers[]` record it
was started on. -/
structure Thread where
  customer : Customer
  pc : Pc
deriving DecidableEq

/-- The shared variables of `src_GUI01.c` and the customer threads.  The
semaphores are their counter values.  `threads` lists the `customers[]` records
that have a thread, each record serving one thread; the remaining slots of
`customers[]` keep `at_table = false` and never influence the table scan.
Runs in which `create_customer` starts two threads on one record are outside
this machine; `Slots.Program` below models them. -/
structure State where
  red_count : Int
  blue_count : Int
  tables_used : Int
  red_sem : Nat
  blue_sem : Nat
  tables_sem : Nat
  red_queue : Queue
  blue_queue : Queue
  threads : List Thread
deriving DecidableEq

/-- Lines 323-328: the customer appends its id to the queue of its colour. -/
def enqueue_section (s : State) (i : Nat) (th : Thread) : State :=
  if th.customer.color = CustomerColor.RED then
    { s with red_queue := enqueue s.red_queue th.customer.id
             threads := s.threads.set i { th with pc := Pc.arrived } }
  else
    { s with blue_queue := enqueue s.blue_queue th.customer.id
             threads := s.threads.set i { th with pc := Pc.arrived } }

/-- Lines 334-344 and 353-361, under `bakery_mutex`: direct entry when the own
count is not above the other count, otherwise the thread goes on to `sem_wait`. -/
def arrive_section (s : State) (i : Nat) (th : Thread) : State :=
  if th.customer.color = CustomerColor.RED then
    if s.red_count ≤ s.blue_count then
      { s with red_count := s.red_count + 1
               red_queue := (dequeue s.red_queue).2
               threads := s.threads.set i
                 { customer := { th.customer with in_bakery := true }, pc := Pc.admitted } }
    else
      { s with threads := s.threads.set i { th with pc := Pc.blocked } }
  else
    if s.blue_count ≤ s.red_count then
      { s with blue_count := s.blue_count + 1
               blue_queue := (dequeue s.blue_queue).2
               threads := s.threads.set i
                 { customer := { th.customer with in_bakery := true }, pc := Pc.admitted } }
    else
      { s with threads := s.threads.set i { th with pc := Pc.blocked } }

/-- Lines 346 and 363: `sem_wait` on the semaphore of the own colour, enabled
only when the counter is positive. -/
def wake_section (s : State) (i : Nat) (th : Thread) : Option State :=
  if th.customer.color = CustomerColor.RED then
    if 0 < s.red_sem then
      some { s with red_sem := s.red_sem - 1
                    threads := s.threads.set i { th with pc := Pc.woken } }
    else none
  else
    if 0 < s.blue_sem then
      some { s with blue_sem := s.blue_sem - 1
                    threads := s.threads.set i { th with pc := Pc.woken } }
    else none

/-- Lines 348-351 and 365-368, under `bakery_mutex`: the woken customer adds
itself to the count of its colour. -/
def woken_section (s : State) (i : Nat) (th : Thread) : State :=
  if th.customer.color = CustomerColor.RED then
    { s with red_count := s.red_count + 1
             threads := s.threads.set i
               { customer := { th.customer with in_bakery := true }, pc := Pc.admitted } }
  else
    { s with blue_count := s.blue_count + 1
             threads := s.threads.set i
               { customer := { th.customer with in_bakery := true }, pc := Pc.admitted } }

/-- Line 373: `sem_wait(&tables_sem)`. -/
def permit_section (s : State) (i : Nat) (th : Thread) : Option State :=
  if 0 < s.tables_sem then
    some { s with tables_sem := s.tables_sem - 1
                  threads := s.threads.set i { th with pc := Pc.permitted } }
  else none

/-- Inner loop of lines 381-386: some customer sits at table `i`. -/
def table_occupied (s : State) (i : Nat) : Bool :=
  s.threads.any (fun t => t.customer.at_table && decide (t.customer.table_num = (i : Int)))

/-- Outer loop of lines 377-392: the first table below `NUM_TABLES` that is
not occupied, `-1` if there is none. -/
def find_table (s : State) : Int :=
  match (List.range NUM_TABLES).find? (fun i => !table_occupied s i) with
  | some i => (i : Int)
  | none => -1

/-- Lines 376-402, under `bakery_mutex`: take the table found by the scan. -/
def seat_section (s : State) (i : Nat) (th : Thread) : State :=
  let table_num := find_table s
  if table_num ≠ -1 then
    { s with tables_used := s.tables_used + 1
             threads := s.threads.set i
               { customer := { th.customer with at_table := true, table_num := table_num },
                 pc := Pc.staying } }
  else
    { s with threads := s.threads.set i { th with pc := Pc.staying } }

/-- Lines 411-414: release of the table by a customer that has one. -/
def leave_table (s : State) (c : Customer) : State × Customer :=
  if c.at_table then
    ({ s with tables_used := s.tables_used - 1 }, { c with at_table := false })
  else (s, c)

/-- Lines 416-428: count decrement and signal to the other colour. -/
def leave_count (s : State) (color : CustomerColor) : State :=
  if color = CustomerColor.RED then
    let s1 := { s with red_count := s.red_count - 1 }
    if s1.blue_queue.size > 0 then { s1 with blue_sem := s1.blue_sem + 1 } else s1
  else
    let s1 := { s with blue_count := s.blue_count - 1 }
    if s1.red_queue.size > 0 then { s1 with red_sem := s1.red_sem + 1 } else s1

/-- Lines 409-432, under `bakery_mutex`: the departure. -/
def depart_section (s : State) (i : Nat) (th : Thread) : State :=
  let s1 := (leave_table s th.customer).1
  let c1 := (leave_table s th.customer).2
  let s2 := leave_count s1 c1.color
  { s2 with threads := s2.threads.set i
              { customer := { c1 with in_bakery := false }, pc := Pc.leaving } }

/-- Line 435: `sem_post(&tables_sem)`. -/
def release_section (s : State) (i : Nat) (th : Thread) : State :=
  { s with tables_sem := s.tables_sem + 1
           threads := s.threads.set i { th with pc := Pc.done } }

/-- The atomic steps of `customer_thread`; the argument is the thread index. -/
inductive Action where
  | enqueue (i : Nat)
  | arrive (i : Nat)
  | wake (i : Nat)
  | enter (i : Nat)
  | permit (i : Nat)
  | seat (i : Nat)
  | depart (i : Nat)
  | release (i : Nat)
deriving DecidableEq

/-- The thread an action belongs to and the control point it starts from. -/
def Action.source : Action → Nat × Pc
  | Action.enqueue i => (i, Pc.start)
  | Action.arrive i => (i, Pc.arrived)
  | Action.wake i => (i, Pc.blocked)
  | Action.enter i => (i, Pc.woken)
  | Action.permit i => (i, Pc.admitted)
  | Action.seat i => (i, Pc.permitted)
  | Action.depart i => (i, Pc.staying)
  | Action.release i => (i, Pc.leaving)

/-- The section an action runs. -/
def Action.effect (s : State) (th : Thread) : Action → Option State
  | Action.enqueue i => some (enqueue_section s i th)
  | Action.arrive i => some (arrive_section s i th)
  | Action.wake i => wake_section s i th
  | Action.enter i => some (woken_section s i th)
  | Action.permit i => permit_section s i th
  | Action.seat i => some (seat_section s i th)
  | Action.depart i => some (depart_section s i th)
  | Action.release i => some (release_section s i th)

/-- One atomic step: `none` when the thread does not exist, is not at the
control point of the action, or is blocked in a `sem_wait`. -/
def step (s : State) (a : Action) : Option State :=
  match s.threads[a.source.1]? with
  | none => none
  | some th => if th.pc = a.source.2 then a.effect s th else none

/-- Run a schedule from `s`. -/
def run (s : State) : List Action → Option State
  | [] => some s
  | a :: rest =>
    match step s a with
    | none => none
    | some s1 => run s1 rest

/-- Customer records for the given colours as `init_bakery` (lines 116-123) and
`create_customer` (lines 194-196) leave them, `i` being the array index: every
thread is started on a record of its own. -/
def spawn_from (i : Nat) : List CustomerColor → List Thread
  | [] => []
  | c :: cs =>
    { customer := { id := (i : Int), color := c, in_bakery := false, at_table := false,
                    table_num := -1 },
      pc := Pc.start } :: spawn_from (i + 1) cs

/-- Program state after `init_bakery()` with one thread per colour of `colors`,
none of which has run yet. -/
def initial (colors : List CustomerColor) : State :=
  { red_count := 0, blue_count := 0, tables_used := 0,
    red_sem := 0, blue_sem := 0, tables_sem := NUM_TABLES,
    red_queue := empty_queue, blue_queue := empty_queue,
    threads := spawn_from 0 colors }

/-- States reachable from the initial state by atomic steps. -/
def Reachable (colors : List CustomerColor) (s : State) : Prop :=
  ∃ schedule : List Action, run (initial colors) schedule = some s

/-- The ids stored in a queue, oldest first. -/
def queue_ids (queue : Queue) : List Int :=
  (List.range queue.size.toNat).map
    (fun j => queue.customer_ids.getD ((queue.front.toNat + j) % MAX_QUEUE_SIZE) 0)

end GUI01

/-! ## src_GUI2.c -/

namespace GUI2

/-- The counters `red_count` and `blue_count` of `src_GUI2.c`. -/
structure Counts where
  red_count : Int
  blue_count : Int
deriving DecidableEq

/-- First locked section of `customer_thread` in `src_GUI2.c` (lines 173-180):
the count of the customer colour is incremented, whatever the counts are. -/
def customer_thread_arrive (s : Counts) (color : CustomerColor) : Counts :=
  if color = CustomerColor.RED then { s with red_count := s.red_count + 1 }
  else { s with blue_count := s.blue_count + 1 }

end GUI2

/-! ## src0.c / src1.c -/

namespace Src0

/-- Constant `TABLES` of `src0.c` (`N` in `src1.c`). -/
def TABLES : Nat := 3

/-- Control point of a thread running `customer` (`f` in `src1.c`): the next
statement it executes.  With the line numbers of `src0.c`: `gate_wait` the
`sem_wait` of line 25 or 29, `gate_incr` the increment of line 26 or 30,
`gate_post` the `sem_post` of line 27 or 31, `table_wait` line 35,
`table_post` line 42, `lock` line 46, `decr` line 47, `unlock` line 48,
`release` line 51, `done` the return. -/
inductive Pc where
  | gate_wait
  | gate_incr
  | gate_post
  | table_wait
  | table_post
  | lock
  | decr
  | unlock
  | release
  | done
deriving DecidableEq

/-- A customer thread: its colour (`is_red` in `src0.c`, `!c` in `src1.c`) and
its control point. -/
structure Thread where
  is_red : Bool
  pc : Pc
deriving DecidableEq

/-- The shared variables: the semaphore counters `red_light`, `blue_light`,
`available_tables` (`r`, `b`, `t` in `src1.c`), the owner of the mutex `lock`
(`m`) if it is held, the counters `reds` and `blues` (`x`, `y`), and the
threads. -/
structure State where
  red_light : Nat
  blue_light : Nat
  available_tables : Nat
  lock : Option Nat
  reds : Int
  blues : Int
  threads : List Thread
deriving DecidableEq

/-- Move thread `i` to control point `pc`. -/
def goto (s : State) (i : Nat) (th : Thread) (pc : Pc) : State :=
  { s with threads := s.threads.set i { th with pc := pc } }

/-- Thread `i` executes its next statement.  `none` when the thread does not
exist, has returned, or is blocked in `sem_wait` or `pthread_mutex_lock`. -/
def step (s : State) (i : Nat) : Option State :=
  match s.threads[i]? with
  | none => none
  | some th =>
    match th.pc with
    | Pc.gate_wait =>
      if th.is_red then
        if 0 < s.blue_light then
          some (goto { s with blue_light := s.blue_light - 1 } i th Pc.gate_incr)
        else none
      else
        if 0 < s.red_light then
          some (goto { s with red_light := s.red_light - 1 } i th Pc.gate_incr)
        else none
    | Pc.gate_incr =>
      if th.is_red then some (goto { s with reds := s.reds + 1 } i th Pc.gate_post)
      else some (goto { s with blues := s.blues + 1 } i th Pc.gate_post)
    | Pc.gate_post =>
      if th.is_red then some (goto { s with red_light := s.red_light + 1 } i th Pc.table_wait)
      else some (goto { s with blue_light := s.blue_light + 1 } i th Pc.table_wait)
    | Pc.table_wait =>
      if 0 < s.available_tables then
        some (goto { s with available_tables := s.available_tables - 1 } i th Pc.table_post)
      else none
    | Pc.table_post =>
      some (goto { s with available_tables := s.available_tables + 1 } i th Pc.lock)
    | Pc.lock =>
      if s.lock = none then some (goto { s with lock := some i } i th Pc.decr) else none
    | Pc.decr =>
      if th.is_red then some (goto { s with reds := s.reds - 1 } i th Pc.unlock)
      else some (goto { s with blues := s.blues - 1 } i th Pc.unlock)
    | Pc.unlock => some (goto { s with lock := none } i th Pc.release)
    | Pc.release =>
      if th.is_red then some (goto { s with blue_light := s.blue_light + 1 } i th Pc.done)
      else some (goto { s with red_light := s.red_light + 1 } i th Pc.done)
    | Pc.done => none

/-- Run a schedule (the indices of the threads that move, in order). -/
def run (s : State) : List Nat → Option State
  | [] => some s
  | i :: rest =>
    match step s i with
    | none => none
    | some s1 => run s1 rest

/-- The state set up by `main`: both colour semaphores at `0`, `tables` table
permits, the mutex free, both counters zero, one thread per entry of `colors`
at the top of `customer`. -/
def initial (tables : Nat) (colors : List Bool) : State :=
  { red_light := 0, blue_light := 0, available_tables := tables, lock := none,
    reds := 0, blues := 0,
    threads := colors.map (fun c => { is_red := c, pc := Pc.gate_wait }) }

/-- The customers of `src0.c`: ids `0..9`, `is_red = id % 2`. -/
def src0_colors : List Bool :=
  (List.range 10).map (fun id => decide (id % 2 ≠ 0))

/-- The customers of `src1.c`: ids `0..5`, `c = i % 2` meaning BLUE. -/
def src1_colors : List Bool :=
  (List.range 6).map (fun i => decide (i % 2 = 0))

end Src0

/-! ## src_ds.c : counting the calls of enqueue_customer along a run -/

/-- The step `a` taken in state `s` runs `enqueue_customer` for a customer of
colour `c`: it is the first section of a thread of that colour and the test
`free_tables > 0 && can_enter(color)` of line 214 fails. -/
def enqueues_now (c : CustomerColor) (s : System) : Action → Bool
  | Action.arrive i =>
    match s.threads[i]? with
    | none => false
    | some th =>
      decide (th.pc = Pc.start) && decide (th.customer.color = c) &&
        !(decide (s.bakery.free_tables > 0) && can_enter s.bakery th.customer.color)
  | _ => false

/-- Number of customers of colour `c` enqueued along the schedule run from `s`. -/
def enqueue_calls (c : CustomerColor) : System → List Action → Nat
  | _, [] => 0
  | s, a :: rest =>
    match step s a with
    | none => 0
    | some s1 => (if enqueues_now c s a then 1 else 0) + enqueue_calls c s1 rest

namespace GUI01

/-! ## src_GUI01.c : the bounded queue against a bounded FIFO list -/

/-- A call on one queue: `enqueue` with the given id, or `dequeue`. -/
inductive QueueCall where
  | enqueue (customer_id : Int)
  | dequeue
deriving DecidableEq

/-- Run a sequence of calls on a queue; the list holds the value returned by
each `dequeue`, in call order. -/
def run_calls : Queue → List QueueCall → Queue × List Int
  | q, [] => (q, [])
  | q, QueueCall.enqueue customer_id :: calls => run_calls (enqueue q customer_id) calls
  | q, QueueCall.dequeue :: calls =>
    ((run_calls (dequeue q).2 calls).1, (dequeue q).1 :: (run_calls (dequeue q).2 calls).2)

/-- Specification of the bounded FIFO queue: `stored` lists the ids still
stored, oldest first; an enqueue on `MAX_QUEUE_SIZE` stored ids drops the id; a
dequeue returns the oldest stored id, or `-1` when nothing is stored. -/
def bounded_fifo_spec : List Int → List QueueCall → List Int × List Int
  | stored, [] => (stored, [])
  | stored, QueueCall.enqueue customer_id :: calls =>
    if stored.length < MAX_QUEUE_SIZE then bounded_fifo_spec (stored ++ [customer_id]) calls
    else bounded_fifo_spec stored calls
  | stored, QueueCall.dequeue :: calls =>
    ((bounded_fifo_spec stored.tail calls).1,
     stored.headD (-1) :: (bounded_fifo_spec stored.tail calls).2)

/-- The index invariant of the queue: `0 ≤ size ≤ MAX_QUEUE_SIZE`,
`0 ≤ front < MAX_QUEUE_SIZE`, and `rear = (front + size - 1) mod MAX_QUEUE_SIZE`
whenever `size > 0`. -/
def QueueInv (q : Queue) : Prop :=
  0 ≤ q.size ∧ q.size ≤ (MAX_QUEUE_SIZE : Int) ∧
  0 ≤ q.front ∧ q.front < (MAX_QUEUE_SIZE : Int) ∧
  (q.size > 0 → q.rear = (q.front + q.size - 1) % (MAX_QUEUE_SIZE : Int))

/-- The circular buffer `q` represents the list `stored`. -/
def StoredRep (q : Queue) (stored : List Int) : Prop :=
  ∃ f r : Nat,
    q.front = (f : Int) ∧ f < MAX_QUEUE_SIZE ∧
    q.rear + 1 = (r : Int) ∧ r ≤ MAX_QUEUE_SIZE ∧
    r % MAX_QUEUE_SIZE = (f + stored.length) % MAX_QUEUE_SIZE ∧
    (r = 0 → stored.length = 0) ∧
    q.size = (stored.length : Int) ∧ stored.length ≤ MAX_QUEUE_SIZE ∧
    q.customer_ids.length = MAX_QUEUE_SIZE ∧
    ∀ j : Nat, j < stored.length →
      q.customer_ids[(f + j) % MAX_QUEUE_SIZE]? = stored[j]?

end GUI01

/-! ## Final.c / tested.c : the customer threads as a step machine -/

namespace Final

/-- Control point of a thread running `red_customer` or `blue_customer`:
`polling` inside the `while (1)` loop, `admitted` before
`sem_wait(&table_sem)`, `eating` between `sem_wait` and the lock of the
departure, `leaving` before `sem_post(&table_sem)`, `done` afterwards. -/
inductive Pc where
  | polling
  | admitted
  | eating
  | leaving
  | done
deriving DecidableEq

/-- A customer thread: `red_customer` for `RED`, `blue_customer` for `BLUE`. -/
structure Thread where
  color : CustomerColor
  pc : Pc
deriving DecidableEq

/-- The shared variables: `red_inside` and `blue_inside` (in `gate`), the
counter of `table_sem`, the counters `red_served` and `blue_served` (they
exist in `tested.c` only and are never read by the threads), and the threads. -/
structure State where
  gate : Gate
  table_sem : Nat
  red_served : Int
  blue_served : Int
  threads : List Thread
deriving DecidableEq

/-- One pass of the polling loop of the customer of colour `c`. -/
def attempt (g : Gate) : CustomerColor → Gate × Bool
  | CustomerColor.RED => red_customer_attempt g
  | CustomerColor.BLUE => blue_customer_attempt g

/-- The locked departure section (`Final.c` lines 44-46 and 82-84, `tested.c`
lines 52-55 and 95-98). -/
def depart_section (s : State) (c : CustomerColor) : State :=
  match c with
  | CustomerColor.RED =>
    { s with gate := { s.gate with red_inside := s.gate.red_inside - 1 }
             red_served := s.red_served + 1 }
  | CustomerColor.BLUE =>
    { s with gate := { s.gate with blue_inside := s.gate.blue_inside - 1 }
             blue_served := s.blue_served + 1 }

/-- The atomic steps; the argument is the thread index. -/
inductive Action where
  | attempt (i : Nat)
  | take (i : Nat)
  | depart (i : Nat)
  | release (i : Nat)
deriving DecidableEq

/-- One atomic step: a pass of the polling loop, `sem_wait(&table_sem)`, the
locked departure, `sem_post(&table_sem)`.  `none` when the thread does not
exist, is not at the control point of the action, or is blocked in `sem_wait`. -/
def step (s : State) : Action → Option State
  | Action.attempt i =>
    match s.threads[i]? with
    | none => none
    | some th =>
      if th.pc = Pc.polling then
        some { s with gate := (attempt s.gate th.color).1
                      threads := s.threads.set i
                        { th with pc := if (attempt s.gate th.color).2 then Pc.admitted
                                        else Pc.polling } }
      else none
  | Action.take i =>
    match s.threads[i]? with
    | none => none
    | some th =>
      if th.pc = Pc.admitted ∧ 0 < s.table_sem then
        some { s with table_sem := s.table_sem - 1
                      threads := s.threads.set i { th with pc := Pc.eating } }
      else none
  | Action.depart i =>
    match s.threads[i]? with
    | none => none
    | some th =>
      if th.pc = Pc.eating then
        some { depart_section s th.color with
                 threads := s.threads.set i { th with pc := Pc.leaving } }
      else none
  | Action.release i =>
    match s.threads[i]? with
    | none => none
    | some th =>
      if th.pc = Pc.leaving then
        some { s with table_sem := s.table_sem + 1
                      threads := s.threads.set i { th with pc := Pc.done } }
      else none

/-- Run a schedule from `s`. -/
def run (s : State) : List Action → Option State
  | [] => some s
  | a :: rest =>
    match step s a with
    | none => none
    | some s1 => run s1 rest

/-- The state set up by `main`: both counters zero, `tables` permits on
`table_sem`, one polling thread per entry of `colors`. -/
def initial (tables : Nat) (colors : List CustomerColor) : State :=
  { gate := { red_inside := 0, blue_inside := 0 }, table_sem := tables,
    red_served := 0, blue_served := 0,
    threads := colors.map (fun c => { color := c, pc := Pc.polling }) }

/-- States reachable from the set-up of `main` by atomic steps. -/
def Reachable (tables : Nat) (colors : List CustomerColor) (s : State) : Prop :=
  ∃ schedule : List Action, run (initial tables colors) schedule = some s

/-- A progress step is enabled in `s`: some step is defined and moves its
thread to another control point (a successful admission, a customer obtaining
a table, a departure or the release of the table permit). -/
def Progress (s : State) : Prop :=
  ∃ (a : Action) (s1 : State), step s a = some s1 ∧ s1.threads ≠ s.threads

/-- The thread holds a place inside (admitted, not yet departed) and wears `c`. -/
def inside_in (c : CustomerColor) (th : Thread) : Bool :=
  (decide (th.pc = Pc.admitted) || decide (th.pc = Pc.eating)) && decide (th.color = c)

/-- The thread holds a table permit. -/
def holds_permit (th : Thread) : Bool :=
  decide (th.pc = Pc.eating) || decide (th.pc = Pc.leaving)

/-- Inductive invariant of the step machine started with `tables` permits. -/
structure Inv (tables : Nat) (s : State) : Prop where
  red : s.gate.red_inside = (s.threads.countP (inside_in CustomerColor.RED) : Int)
  blue : s.gate.blue_inside = (s.threads.countP (inside_in CustomerColor.BLUE) : Int)
  red_le : s.gate.red_inside ≤ 1
  blue_le : s.gate.blue_inside ≤ 1
  permits : s.table_sem + s.threads.countP holds_permit = tables

end Final

/-! ## tested.c : get_positive_integer -/

namespace Tested

/-- The characters `fgets` stores when it may still store `room` characters:
it stops after a newline (code 10) or when the room or the input is used up.
Characters are their codes; the result is the stored piece and the input left. -/
def fgets_take : Nat → List Nat → List Nat × List Nat
  | 0, rest => ([], rest)
  | _ + 1, [] => ([], [])
  | room + 1, c :: rest =>
    if c = 10 then ([c], rest)
    else (c :: (fgets_take room rest).1, (fgets_take room rest).2)

/-- The C library function `fgets(buffer, size, stdin)`: `none` (the null
pointer) at end of input, otherwise at most `size - 1` characters. -/
def fgets (size : Nat) (stdin : List Nat) : Option (List Nat × List Nat) :=
  match stdin with
  | [] => none
  | _ :: _ => some (fgets_take (size - 1) stdin)

/-- The `while (1)` loop of `get_positive_integer` (lines 109-125) with `fuel`
passes allowed and `atoi` as the conversion of the C library: the returned
value, the number of times `Please enter a positive integer.` was printed, and
the input left.  `none` only when the fuel runs out. -/
def get_positive_integer_loop (atoi : List Nat → Int) :
    Nat → List Nat → Option (Int × Nat × List Nat)
  | 0, _ => none
  | fuel + 1, stdin =>
    match fgets 100 stdin with
    | none => some (1, 0, stdin)
    | some (input, rest) =>
      if atoi input > 0 then some (atoi input, 0, rest)
      else
        match get_positive_integer_loop atoi fuel rest with
        | none => none
        | some (value, complaints, left) => some (value, complaints + 1, left)

/-- The function `get_positive_integer`: every pass either returns or consumes
at least one character, so `stdin.length + 1` passes are enough. -/
def get_positive_integer (atoi : List Nat → Int) (stdin : List Nat) :
    Option (Int × Nat × List Nat) :=
  get_positive_integer_loop atoi (stdin.length + 1) stdin

/-- The input stream made of the given lines, each followed by a newline. -/
def stream_of_lines : List (List Nat) → List Nat
  | [] => []
  | line :: lines => line ++ 10 :: stream_of_lines lines

/-- Specification following the words of the claim: the value of the first
line whose value is positive, together with the number of earlier lines (all
of value `≤ 0`), or `1` when there is no such line.  A line is handed to `atoi`
with its newline, as `fgets` stores it. -/
def first_positive_line (atoi : List Nat → Int) : List (List Nat) → Int × Nat
  | [] => (1, 0)
  | line :: lines =>
    if atoi (line ++ [10]) > 0 then (atoi (line ++ [10]), 0)
    else ((first_positive_line atoi lines).1, (first_positive_line atoi lines).2 + 1)

/-- White space as `isspace` sees it in the C locale. -/
def is_space (c : Nat) : Bool :=
  c = 32 || (9 ≤ c && c ≤ 13)

/-- Value of the leading decimal digits (codes 48-57), continuing from `acc`. -/
def digits_value : Int → List Nat → Int
  | acc, [] => acc
  | acc, c :: rest =>
    if 48 ≤ c ∧ c ≤ 57 then digits_value (acc * 10 + ((c : Int) - 48)) rest else acc

/-- The C library function `atoi` on values that fit an `int`: leading white
space, an optional sign (`-` is code 45, `+` is code 43), decimal digits. -/
def atoi_c (input : List Nat) : Int :=
  match input.dropWhile is_space with
  | [] => 0
  | c :: rest =>
    if c = 45 then - digits_value 0 rest
    else if c = 43 then digits_value 0 rest
    else digits_value 0 (c :: rest)

/-- The table count `TABLES` that `main` passes to `sem_init` (lines 134 and
147): the result of the first `get_positive_integer` call. -/
def main_TABLES (atoi : List Nat → Int) (stdin : List Nat) : Option Int :=
  (get_positive_integer atoi stdin).map (fun r => r.1)

end Tested

/-! ## src_GUI01.c : the array customers[] as create_customer hands it out -/

namespace GUI01

namespace Slots

/-- Constant `MAX_CUSTOMERS` of `src_GUI01.c`. -/
def MAX_CUSTOMERS : Nat := 30

/-- An element of `customers[]`: the record, and whether its pointer
`customer_widget` is non-null. -/
structure Slot where
  customer : Customer
  has_widget : Bool
deriving DecidableEq

/-- A callback queued with `gdk_threads_add_idle`, to be run later by the GTK
main thread; `slot` is the index of the record it was queued for. -/
inductive Idle where
  | create_customer_widget_idle (slot : Nat)
  | move_customer_to_bakery_idle (slot : Nat)
  | remove_customer_from_bakery_idle (slot : Nat)
deriving DecidableEq

/-- A thread running `customer_thread`: `slot` is the index of the record its
argument points to (`&customers[id]`, line 199), `color` its local variable
`color`, unset until line 321 has run, and `pc` its control point. -/
structure Worker where
  slot : Nat
  color : Option CustomerColor
  pc : Pc
deriving DecidableEq

/-- The shared variables of `src_GUI01.c` with the whole array `customers[]`,
the threads started so far and the idle callbacks not yet run. -/
structure Program where
  red_count : Int
  blue_count : Int
  tables_used : Int
  red_sem : Nat
  blue_sem : Nat
  tables_sem : Nat
  red_queue : Queue
  blue_queue : Queue
  customers : List Slot
  workers : List Worker
  pending : List Idle
deriving DecidableEq

/-- The state `init_bakery` (lines 107-124) and the global initialisers leave:
`color` is zero-initialised, which is `RED`. -/
def init_bakery : Program :=
  { red_count := 0, blue_count := 0, tables_used := 0,
    red_sem := 0, blue_sem := 0, tables_sem := NUM_TABLES,
    red_queue := empty_queue, blue_queue := empty_queue,
    customers := (List.range MAX_CUSTOMERS).map (fun i =>
      { customer := { id := (i : Int), color := CustomerColor.RED, in_bakery := false,
                      at_table := false, table_num := -1 },
        has_widget := false }),
    workers := [],
    pending := [] }

/-- The test of line 187 on `customers[i]`. -/
def slot_free (p : Program) (i : Nat) : Bool :=
  match p.customers[i]? with
  | some sl => !sl.customer.in_bakery && !sl.has_widget
  | none => false

/-- The function `create_customer` (lines 181-205), under `bakery_mutex`: the
first index passing the test of line 187 is prepared and a thread is started
on that record; nothing happens when no index passes. -/
def create_customer (p : Program) (color : CustomerColor) : Program :=
  match (List.range MAX_CUSTOMERS).find? (slot_free p) with
  | none => p
  | some id =>
    match p.customers[id]? with
    | none => p
    | some sl =>
      { p with
        customers := p.customers.set id
          { sl with customer :=
              { sl.customer with color := color, in_bakery := false, at_table := false } }
        workers := p.workers ++ [{ slot := id, color := none, pc := Pc.start }] }

/-- Store the record `c` at index `slot`, leaving the widget pointer alone. -/
def store (p : Program) (slot : Nat) (sl : Slot) (c : Customer) : Program :=
  { p with customers := p.customers.set slot { sl with customer := c } }

/-- Lines 321-331: the thread reads `customer->color` into `color`, appends
`customer->id` to the queue of that colour and queues the widget callback. -/
def begin_section (p : Program) (w : Nat) (wk : Worker) (sl : Slot) : Program :=
  let color := sl.customer.color
  let p1 :=
    if color = CustomerColor.RED then
      { p with red_queue := enqueue p.red_queue sl.customer.id }
    else
      { p with blue_queue := enqueue p.blue_queue sl.customer.id }
  { p1 with
    pending := p1.pending ++ [Idle.create_customer_widget_idle wk.slot]
    workers := p1.workers.set w { wk with color := some color, pc := Pc.arrived } }

/-- Lines 334-344 and 353-361, under `bakery_mutex`, `color` being the local
variable: direct entry when the own count is not above the other count,
otherwise the thread goes on to `sem_wait`. -/
def arrive_section (p : Program) (w : Nat) (wk : Worker) (sl : Slot)
    (color : CustomerColor) : Program :=
  if color = CustomerColor.RED then
    if p.red_count ≤ p.blue_count then
      let p1 := store p wk.slot sl { sl.customer with in_bakery := true }
      { p1 with red_count := p1.red_count + 1
                red_queue := (dequeue p1.red_queue).2
                workers := p1.workers.set w { wk with pc := Pc.admitted } }
    else
      { p with workers := p.workers.set w { wk with pc := Pc.blocked } }
  else
    if p.blue_count ≤ p.red_count then
      let p1 := store p wk.slot sl { sl.customer with in_bakery := true }
      { p1 with blue_count := p1.blue_count + 1
                blue_queue := (dequeue p1.blue_queue).2
                workers := p1.workers.set w { wk with pc := Pc.admitted } }
    else
      { p with workers := p.workers.set w { wk with pc := Pc.blocked } }

/-- Lines 346 and 363: `sem_wait` on the semaphore of the local `color`,
enabled only when the counter is positive. -/
def wake_section (p : Program) (w : Nat) (wk : Worker) (color : CustomerColor) :
    Option Program :=
  if color = CustomerColor.RED then
    if 0 < p.red_sem then
      some { p with red_sem := p.red_sem - 1
                    workers := p.workers.set w { wk with pc := Pc.woken } }
    else none
  else
    if 0 < p.blue_sem then
      some { p with blue_sem := p.blue_sem - 1
                    workers := p.workers.set w { wk with pc := Pc.woken } }
    else none

/-- Lines 348-351 and 365-368, under `bakery_mutex`: the woken customer adds
itself to the count of its local `color`. -/
def woken_section (p : Program) (w : Nat) (wk : Worker) (sl : Slot)
    (color : CustomerColor) : Program :=
  let p1 := store p wk.slot sl { sl.customer with in_bakery := true }
  if color = CustomerColor.RED then
    { p1 with red_count := p1.red_count + 1
              workers := p1.workers.set w { wk with pc := Pc.admitted } }
  else
    { p1 with blue_count := p1.blue_count + 1
              workers := p1.workers.set w { wk with pc := Pc.admitted } }

/-- Line 373: `sem_wait(&tables_sem)`. -/
def permit_section (p : Program) (w : Nat) (wk : Worker) : Option Program :=
  if 0 < p.tables_sem then
    some { p with tables_sem := p.tables_sem - 1
                  workers := p.workers.set w { wk with pc := Pc.permitted } }
  else none

/-- Inner loop of lines 381-386 over `customers[]`: some record sits at table
`i`. -/
def table_occupied (p : Program) (i : Nat) : Bool :=
  p.customers.any (fun sl =>
    sl.customer.at_table && decide (sl.customer.table_num = (i : Int)))

/-- Outer loop of lines 377-392: the first table below `NUM_TABLES` that is
not occupied, `-1` if there is none. -/
def find_table (p : Program) : Int :=
  match (List.range NUM_TABLES).find? (fun i => !table_occupied p i) with
  | some i => (i : Int)
  | none => -1

/-- Lines 376-402, under `bakery_mutex`: the record takes the table found by
the scan, `tables_used` goes up and the move callback is queued. -/
def seat_section (p : Program) (w : Nat) (wk : Worker) (sl : Slot) : Program :=
  let table_num := find_table p
  if table_num ≠ -1 then
    let p1 := store p wk.slot sl { sl.customer with at_table := true, table_num := table_num }
    { p1 with tables_used := p1.tables_used + 1
              pending := p1.pending ++ [Idle.move_customer_to_bakery_idle wk.slot]
              workers := p1.workers.set w { wk with pc := Pc.staying } }
  else
    { p with workers := p.workers.set w { wk with pc := Pc.staying } }

/-- Lines 416-428: count decrement and signal to the other colour, decided by
`customer->color` as the record holds it at the departure. -/
def leave_count (p : Program) (color : CustomerColor) : Program :=
  if color = CustomerColor.RED then
    let p1 := { p with red_count := p.red_count - 1 }
    if p1.blue_queue.size > 0 then { p1 with blue_sem := p1.blue_sem + 1 } else p1
  else
    let p1 := { p with blue_count := p.blue_count - 1 }
    if p1.red_queue.size > 0 then { p1 with red_sem := p1.red_sem + 1 } else p1

/-- Lines 409-432, under `bakery_mutex`: the departure. -/
def depart_section (p : Program) (w : Nat) (wk : Worker) (sl : Slot) : Program :=
  let p1 := if sl.customer.at_table then { p with tables_used := p.tables_used - 1 } else p
  let c1 := if sl.customer.at_table then { sl.customer with at_table := false } else sl.customer
  let p2 := leave_count p1 c1.color
  let p3 := store p2 wk.slot sl { c1 with in_bakery := false }
  { p3 with pending := p3.pending ++ [Idle.remove_customer_from_bakery_idle wk.slot]
            workers := p3.workers.set w { wk with pc := Pc.leaving } }

/-- Line 435: `sem_post(&tables_sem)`. -/
def release_section (p : Program) (w : Nat) (wk : Worker) : Program :=
  { p with tables_sem := p.tables_sem + 1
           workers := p.workers.set w { wk with pc := Pc.done } }

/-- The record index a callback works on and the value of
`customer_widget != NULL` it leaves: `create_customer_widget_idle` (lines
215-238) assigns a new label, `move_customer_to_bakery_idle` (lines 258-290)
creates one if there is none, `remove_customer_from_bakery_idle`
(lines 299-316) destroys it and stores `NULL`. -/
def Idle.effect : Idle → Nat × Bool
  | Idle.create_customer_widget_idle slot => (slot, true)
  | Idle.move_customer_to_bakery_idle slot => (slot, true)
  | Idle.remove_customer_from_bakery_idle slot => (slot, false)

/-- The GTK main thread runs the oldest queued callback. -/
def run_idle (p : Program) : Option Program :=
  match p.pending with
  | [] => none
  | call :: rest =>
    match p.customers[call.effect.1]? with
    | none => none
    | some sl =>
      some { p with pending := rest
                    customers := p.customers.set call.effect.1
                      { sl with has_widget := call.effect.2 } }

/-- The atomic steps: a call of `create_customer` by the GTK main thread (timer
or button), the GTK main thread running a queued callback, and the steps of
`customer_thread`, whose argument is the thread index. -/
inductive Action where
  | create (color : CustomerColor)
  | idle
  | start (w : Nat)
  | arrive (w : Nat)
  | wake (w : Nat)
  | enter (w : Nat)
  | permit (w : Nat)
  | seat (w : Nat)
  | depart (w : Nat)
  | release (w : Nat)
deriving DecidableEq

/-- A step of thread `w` from the control point `pc`: `none` when the thread
does not exist or is elsewhere; `f` receives the thread and the record its
argument points to. -/
def at_pc (p : Program) (w : Nat) (pc : Pc) (f : Worker → Slot → Option Program) :
    Option Program :=
  match p.workers[w]? with
  | none => none
  | some wk =>
    if wk.pc = pc then
      match p.customers[wk.slot]? with
      | none => none
      | some sl => f wk sl
    else none

/-- One atomic step: `none` when it is not enabled. -/
def step (p : Program) : Action → Option Program
  | Action.create color => some (create_customer p color)
  | Action.idle => run_idle p
  | Action.start w => at_pc p w Pc.start (fun wk sl => some (begin_section p w wk sl))
  | Action.arrive w =>
    at_pc p w Pc.arrived (fun wk sl => wk.color.map (arrive_section p w wk sl))
  | Action.wake w =>
    at_pc p w Pc.blocked (fun wk _ => wk.color.bind (wake_section p w wk))
  | Action.enter w =>
    at_pc p w Pc.woken (fun wk sl => wk.color.map (woken_section p w wk sl))
  | Action.permit w => at_pc p w Pc.admitted (fun wk _ => permit_section p w wk)
  | Action.seat w => at_pc p w Pc.permitted (fun wk sl => some (seat_section p w wk sl))
  | Action.depart w => at_pc p w Pc.staying (fun wk sl => some (depart_section p w wk sl))
  | Action.release w => at_pc p w Pc.leaving (fun wk _ => some (release_section p w wk))

/-- Run a schedule from `p`. -/
def run (p : Program) : List Action → Option Program
  | [] => some p
  | a :: rest =>
    match step p a with
    | none => none
    | some p1 => run p1 rest

/-- Number of records of `customers[]` with `at_table` set. -/
def at_tables (p : Program) : Nat :=
  p.customers.countP (fun sl => sl.customer.at_table)

end Slots

end GUI01

/-! # Theorems -/

open CustomerColor Action

/-! ## List and arithmetic lemmas -/

theorem countP_set_int {α : Type} (p : α → Bool) (l : List α) (i : Nat) (a x : α)
    (h : l[i]? = some x) :
    ((l.set i a).countP p : Int)
      = (l.countP p : Int) - (if p x then 1 else 0) + (if p a then 1 else 0) := by
  induction l generalizing i with
  | nil => simp at h
  | cons y ys ih =>
    cases i with
    | zero =>
      simp at h
      subst h
      simp only [List.set_cons_zero, List.countP_cons]
      split_ifs <;> push_cast <;> omega
    | succ n =>
      simp at h
      have := ih n h
      simp only [List.set_cons_succ, List.countP_cons]
      push_cast
      omega

theorem count_true_set_int (l : List Bool) (i : Nat) (a x : Bool) (h : l[i]? = some x) :
    ((l.set i a).count true : Int)
      = (l.count true : Int) - (if x then 1 else 0) + (if a then 1 else 0) := by
  have := countP_set_int (fun b => b == true) l i a x h
  simpa [List.count] using this

theorem prefix_true_le_count (l : List Bool) (k : Nat)
    (h : ∀ j, j < k → l.getD j false = true) : k ≤ l.count true := by
  induction l generalizing k with
  | nil =>
    cases k with
    | zero => simp
    | succ n => simpa using h 0 (Nat.succ_pos n)
  | cons x xs ih =>
    cases k with
    | zero => simp
    | succ n =>
      have hx : x = true := by simpa using h 0 (Nat.succ_pos n)
      have hn : n ≤ xs.count true := by
        apply ih
        intro j hj
        simpa using h (j + 1) (Nat.succ_lt_succ hj)
      subst hx
      simp
      omega

theorem find_free_table_from_spec (tables : List Bool) (fuel i : Nat) :
    (find_free_table_from tables fuel i = -1 ∧
        ∀ j, i ≤ j → j < i + fuel → tables.getD j false = true) ∨
    (∃ k : Nat, find_free_table_from tables fuel i = (k : Int) ∧ i ≤ k ∧ k < i + fuel ∧
        tables.getD k false = false ∧ ∀ j, i ≤ j → j < k → tables.getD j false = true) := by
  induction fuel generalizing i with
  | zero =>
    left
    refine ⟨rfl, ?_⟩
    intro j h1 h2
    omega
  | succ n ih =>
    unfold find_free_table_from
    by_cases hi : tables.getD i false = false
    · right
      refine ⟨i, by rw [if_pos hi], le_refl _, by omega, hi, ?_⟩
      intro j h1 h2
      omega
    · have hi' : tables.getD i false = true := by simpa using hi
      rw [if_neg hi]
      rcases ih (i + 1) with ⟨h1, h2⟩ | ⟨k, h1, h2, h3, h4, h5⟩
      · left
        refine ⟨h1, ?_⟩
        intro j hj1 hj2
        by_cases hji : j = i
        · subst hji; exact hi'
        · exact h2 j (by omega) (by omega)
      · right
        refine ⟨k, h1, by omega, by omega, h4, ?_⟩
        intro j hj1 hj2
        by_cases hji : j = i
        · subst hji; exact hi'
        · exact h5 j (by omega) hj2

/-! ## Effect of the critical sections on the bakery record -/

theorem threads_set_lookup (l : List Thread) (i j : Nat) (th th' x : Thread)
    (hi : l[i]? = some th) (hj : (l.set i th')[j]? = some x) :
    (j = i ∧ x = th') ∨ (j ≠ i ∧ l[j]? = some x) := by
  have hlen : i < l.length := by
    rcases List.getElem?_eq_some_iff.mp hi with ⟨h, _⟩
    exact h
  rw [List.getElem?_set] at hj
  by_cases hij : i = j
  · subst hij
    simp [hlen] at hj
    exact Or.inl ⟨rfl, hj.symm⟩
  · rw [if_neg hij] at hj
    exact Or.inr ⟨fun h => hij h.symm, hj⟩

theorem take_table_effect {b b' : BakeryState} {th th' : Thread}
    (h : take_table b th = some (b', th')) :
    ∃ k : Nat, find_free_table b = (k : Int) ∧ k < MAX_TABLES ∧
      b.tables.getD k false = false ∧ (∀ j, j < k → b.tables.getD j false = true) ∧
      b'.tables = b.tables.set k true ∧
      b'.customers_inside = b.customers_inside + 1 ∧
      b'.free_tables = b.free_tables - 1 ∧
      b'.red_count = b.red_count + (if th.customer.color = CustomerColor.RED then 1 else 0) ∧
      b'.blue_count = b.blue_count + (if th.customer.color = CustomerColor.RED then 0 else 1) ∧
      th'.pc = Pc.eating ∧ th'.table_id = (k : Int) ∧ th'.customer.has_table = true ∧
      th'.customer.color = th.customer.color := by
  have htab : ∀ b1 : BakeryState, b1.tables = b.tables →
      find_free_table b1 = find_free_table b := by
    intro b1 hb1
    unfold find_free_table
    rw [hb1]
  unfold take_table at h
  simp only [] at h
  rw [htab _ (by unfold count_incr; split <;> rfl)] at h
  rcases find_free_table_from_spec b.tables MAX_TABLES 0 with ⟨h1, _⟩ | ⟨k, h1, _, h3, h4, h5⟩
  · have hf : find_free_table b = -1 := h1
    rw [hf] at h
    simp at h
  · have hf : find_free_table b = (k : Int) := h1
    rw [hf] at h
    have hk : (0 : Int) ≤ (k : Int) ∧ (k : Int) < (MAX_TABLES : Int) := by
      constructor
      · exact Int.natCast_nonneg k
      · exact_mod_cast (by omega : k < MAX_TABLES)
    rw [if_pos hk] at h
    simp only [Option.some.injEq, Prod.mk.injEq] at h
    obtain ⟨hb, ht⟩ := h
    subst hb ht
    refine ⟨k, hf, by omega, h4, fun j hj => h5 j (Nat.zero_le j) hj, ?_⟩
    unfold count_incr
    split <;> simp_all

theorem getD_false_of_lookup (l : List Bool) (k : Nat) (h : l[k]? = some true) :
    l.getD k false = true := by
  simp [List.getD_eq_getElem?_getD, h]

theorem lookup_of_getD_false (l : List Bool) (k : Nat) (hk : k < l.length)
    (h : l.getD k false = false) : l[k]? = some false := by
  rw [List.getD_eq_getElem?_getD, List.getElem?_eq_getElem hk] at h
  rw [List.getElem?_eq_getElem hk]
  simpa using h

theorem inv_take {T : Int} {s : System} {i : Nat} {th th' : Thread} {b' : BakeryState}
    (hinv : Inv T s) (hth : s.threads[i]? = some th) (hpc : th.pc ≠ Pc.eating)
    (hfree : s.bakery.free_tables > 0) (h : take_table s.bakery th = some (b', th')) :
    Inv T { bakery := b', threads := s.threads.set i th' } := by
  obtain ⟨k, _, hk, hkf, _, htab, hin, hfr, hred, hblue, hpc', htid, hhas, hcol⟩ :=
    take_table_effect h
  have hklen : k < s.bakery.tables.length := by rw [hinv.len]; exact hk
  have hkfalse : s.bakery.tables[k]? = some false := lookup_of_getD_false _ _ hklen hkf
  have hold : ∀ c, eating_in c th = false := by
    intro c; simp [eating_in, hpc]
  have hnew : ∀ c, eating_in c th' = decide (th.customer.color = c) := by
    intro c; simp [eating_in, hpc', hcol]
  constructor
  · show b'.tables.length = MAX_TABLES
    rw [htab, List.length_set, hinv.len]
  · show b'.customers_inside = b'.red_count + b'.blue_count
    rw [hin, hred, hblue, hinv.inside]
    split <;> omega
  · show b'.red_count = _
    rw [countP_set_int _ _ _ _ _ hth, hold, hnew, hred, hinv.red]
    cases th.customer.color <;> simp
  · show b'.blue_count = _
    rw [countP_set_int _ _ _ _ _ hth, hold, hnew, hblue, hinv.blue]
    cases th.customer.color <;> simp
  · show b'.free_tables + b'.customers_inside = T
    rw [hfr, hin]
    have := hinv.free
    omega
  · intro _
    show 0 ≤ b'.free_tables
    rw [hfr]
    omega
  · show ((b'.tables.count true : Nat) : Int) = b'.customers_inside
    rw [htab, count_true_set_int _ _ _ _ hkfalse, hin, hinv.occ]
    simp
  · intro j x hj hx1 hx2
    rcases threads_set_lookup _ _ _ _ _ _ hth hj with ⟨_, hx⟩ | ⟨_, hx⟩
    · subst hx; exact absurd hpc' hx1
    · exact hinv.fresh j x hx hx1 hx2
  · intro j x hj hx1
    show _ ∧ _ ∧ b'.tables[x.table_id.toNat]? = some true
    rcases threads_set_lookup _ _ _ _ _ _ hth hj with ⟨_, hx⟩ | ⟨_, hx⟩
    · subst hx
      refine ⟨hhas, by rw [htid]; exact Int.natCast_nonneg k, ?_⟩
      rw [htab, htid, Int.toNat_natCast, List.getElem?_set]
      simp [hklen]
    · obtain ⟨h1, h2, h3⟩ := hinv.seat j x hx hx1
      refine ⟨h1, h2, ?_⟩
      rw [htab, List.getElem?_set]
      split
      · simp [hklen]
      · exact h3
  · intro j1 j2 x1 x2 hj1 hj2 hx1 hx2 heq
    show j1 = j2
    rcases threads_set_lookup _ _ _ _ _ _ hth hj1 with ⟨e1, hy1⟩ | ⟨e1, hy1⟩ <;>
      rcases threads_set_lookup _ _ _ _ _ _ hth hj2 with ⟨e2, hy2⟩ | ⟨e2, hy2⟩
    · rw [e1, e2]
    · exfalso
      subst hy1
      obtain ⟨_, h2, h3⟩ := hinv.seat j2 x2 hy2 hx2
      rw [← heq, htid, Int.toNat_natCast, hkfalse] at h3
      simp at h3
    · exfalso
      subst hy2
      obtain ⟨_, h2, h3⟩ := hinv.seat j1 x1 hy1 hx1
      rw [heq, htid, Int.toNat_natCast, hkfalse] at h3
      simp at h3
    · exact hinv.excl j1 j2 x1 x2 hy1 hy2 hx1 hx2 heq
  · intro m hm
    show ∃ (j : Nat) (x : Thread), (s.threads.set i th')[j]? = some x ∧ _
    have hm' : b'.tables[m]? = some true := hm
    rw [htab, List.getElem?_set] at hm'
    have hilen : i < s.threads.length := (List.getElem?_eq_some_iff.mp hth).1
    by_cases hkm : k = m
    · subst hkm
      refine ⟨i, th', ?_, hpc', htid⟩
      rw [List.getElem?_set]
      simp [hilen]
    · rw [if_neg hkm] at hm'
      obtain ⟨j, x, hx, hx1, hx2⟩ := hinv.held m hm'
      have hji : i ≠ j := by
        intro e
        subst e
        rw [hth] at hx
        injection hx with hx
        subst hx
        exact hpc hx1
      refine ⟨j, x, ?_, hx1, hx2⟩
      rw [List.getElem?_set, if_neg hji]
      exact hx

/-- Fields of the bakery record other than the queues and the semaphores agree. -/
theorem try_balance_entry_core (b : BakeryState) :
    (try_balance_entry b).tables = b.tables ∧
    (try_balance_entry b).customers_inside = b.customers_inside ∧
    (try_balance_entry b).free_tables = b.free_tables ∧
    (try_balance_entry b).red_count = b.red_count ∧
    (try_balance_entry b).blue_count = b.blue_count := by
  unfold try_balance_entry
  split_ifs <;> simp

theorem depart_section_effect {b b' : BakeryState} {th th' : Thread}
    (h : depart_section b th = some (b', th')) :
    0 ≤ th.table_id ∧ th.table_id < (MAX_TABLES : Int) ∧
      b'.tables = b.tables.set th.table_id.toNat false ∧
      b'.customers_inside = b.customers_inside - 1 ∧
      b'.free_tables = b.free_tables + 1 ∧
      b'.red_count = b.red_count - (if th.customer.color = CustomerColor.RED then 1 else 0) ∧
      b'.blue_count = b.blue_count - (if th.customer.color = CustomerColor.RED then 0 else 1) ∧
      th'.pc = Pc.done := by
  unfold depart_section at h
  simp only [] at h
  split at h
  · rename_i hr
    simp only [Option.some.injEq, Prod.mk.injEq] at h
    obtain ⟨hb, ht⟩ := h
    subst hb ht
    refine ⟨hr.1, hr.2, ?_⟩
    simp only [(try_balance_entry_core _).1, (try_balance_entry_core _).2.1,
      (try_balance_entry_core _).2.2.1, (try_balance_entry_core _).2.2.2.1,
      (try_balance_entry_core _).2.2.2.2]
    unfold count_decr
    split <;> simp_all
  · simp at h

theorem inv_depart {T : Int} {s : System} {i : Nat} {th th' : Thread} {b' : BakeryState}
    (hinv : Inv T s) (hth : s.threads[i]? = some th) (hpc : th.pc = Pc.eating)
    (h : depart_section s.bakery th = some (b', th')) :
    Inv T { bakery := b', threads := s.threads.set i th' } := by
  obtain ⟨ht0, _, htab, hin, hfr, hred, hblue, hpc'⟩ := depart_section_effect h
  obtain ⟨_, _, hocc⟩ := hinv.seat i th hth hpc
  have hold : ∀ c, eating_in c th = decide (th.customer.color = c) := by
    intro c; simp [eating_in, hpc]
  have hnew : ∀ c, eating_in c th' = false := by
    intro c; simp [eating_in, hpc']
  constructor
  · show b'.tables.length = MAX_TABLES
    rw [htab, List.length_set, hinv.len]
  · show b'.customers_inside = b'.red_count + b'.blue_count
    rw [hin, hred, hblue, hinv.inside]
    split <;> omega
  · show b'.red_count = _
    rw [countP_set_int _ _ _ _ _ hth, hold, hnew, hred, hinv.red]
    cases th.customer.color <;> simp
  · show b'.blue_count = _
    rw [countP_set_int _ _ _ _ _ hth, hold, hnew, hblue, hinv.blue]
    cases th.customer.color <;> simp
  · show b'.free_tables + b'.customers_inside = T
    rw [hfr, hin]
    have := hinv.free
    omega
  · intro hT
    show 0 ≤ b'.free_tables
    rw [hfr]
    have := hinv.nonneg hT
    omega
  · show ((b'.tables.count true : Nat) : Int) = b'.customers_inside
    rw [htab, count_true_set_int _ _ _ _ hocc, hin, hinv.occ]
    simp
  · intro j x hj hx1 hx2
    rcases threads_set_lookup _ _ _ _ _ _ hth hj with ⟨_, hx⟩ | ⟨_, hx⟩
    · subst hx; exact absurd hpc' hx2
    · exact hinv.fresh j x hx hx1 hx2
  · intro j x hj hx1
    show _ ∧ _ ∧ b'.tables[x.table_id.toNat]? = some true
    rcases threads_set_lookup _ _ _ _ _ _ hth hj with ⟨_, hx⟩ | ⟨hne, hx⟩
    · subst hx
      rw [hpc'] at hx1
      cases hx1
    · obtain ⟨h1, h2, h3⟩ := hinv.seat j x hx hx1
      refine ⟨h1, h2, ?_⟩
      have hdiff : th.table_id ≠ x.table_id := by
        intro e
        exact hne (hinv.excl j i x th hx hth hx1 hpc e.symm)
      have hnat : th.table_id.toNat ≠ x.table_id.toNat := by
        intro e
        apply hdiff
        omega
      rw [htab, List.getElem?_set, if_neg hnat]
      exact h3
  · intro j1 j2 x1 x2 hj1 hj2 hx1 hx2 heq
    show j1 = j2
    rcases threads_set_lookup _ _ _ _ _ _ hth hj1 with ⟨e1, hy1⟩ | ⟨e1, hy1⟩
    · subst hy1
      rw [hpc'] at hx1
      cases hx1
    · rcases threads_set_lookup _ _ _ _ _ _ hth hj2 with ⟨e2, hy2⟩ | ⟨e2, hy2⟩
      · subst hy2
        rw [hpc'] at hx2
        cases hx2
      · exact hinv.excl j1 j2 x1 x2 hy1 hy2 hx1 hx2 heq
  · intro m hm
    show ∃ (j : Nat) (x : Thread), (s.threads.set i th')[j]? = some x ∧ _
    have hm' : b'.tables[m]? = some true := hm
    rw [htab, List.getElem?_set] at hm'
    by_cases hkm : th.table_id.toNat = m
    · rw [if_pos hkm] at hm'
      split at hm' <;> simp at hm'
    · rw [if_neg hkm] at hm'
      obtain ⟨j, x, hx, hx1, hx2⟩ := hinv.held m hm'
      have hji : i ≠ j := by
        intro e
        subst e
        rw [hth] at hx
        injection hx with hx
        subst hx
        apply hkm
        omega
      refine ⟨j, x, ?_, hx1, hx2⟩
      rw [List.getElem?_set, if_neg hji]
      exact hx

/-- A step that touches only queues, semaphores and the control point of a
thread that is neither seated before nor after keeps the invariant. -/
theorem inv_neutral {T : Int} {s : System} {i : Nat} {th th' : Thread} {b' : BakeryState}
    (hinv : Inv T s) (hth : s.threads[i]? = some th) (hpc : th.pc ≠ Pc.eating)
    (hpc' : th'.pc ≠ Pc.eating) (hcust : th'.pc ≠ Pc.done → th'.customer.has_table = false)
    (htab : b'.tables = s.bakery.tables)
    (hin : b'.customers_inside = s.bakery.customers_inside)
    (hfr : b'.free_tables = s.bakery.free_tables)
    (hred : b'.red_count = s.bakery.red_count)
    (hblue : b'.blue_count = s.bakery.blue_count) :
    Inv T { bakery := b', threads := s.threads.set i th' } := by
  have hold : ∀ c, eating_in c th = false := by
    intro c; simp [eating_in, hpc]
  have hnew : ∀ c, eating_in c th' = false := by
    intro c; simp [eating_in, hpc']
  constructor
  · show b'.tables.length = MAX_TABLES
    rw [htab, hinv.len]
  · show b'.customers_inside = b'.red_count + b'.blue_count
    rw [hin, hred, hblue, hinv.inside]
  · show b'.red_count = _
    rw [countP_set_int _ _ _ _ _ hth, hold, hnew, hred, hinv.red]
    simp
  · show b'.blue_count = _
    rw [countP_set_int _ _ _ _ _ hth, hold, hnew, hblue, hinv.blue]
    simp
  · show b'.free_tables + b'.customers_inside = T
    rw [hfr, hin]
    exact hinv.free
  · intro hT
    show 0 ≤ b'.free_tables
    rw [hfr]
    exact hinv.nonneg hT
  · show ((b'.tables.count true : Nat) : Int) = b'.customers_inside
    rw [htab, hin]
    exact hinv.occ
  · intro j x hj hx1 hx2
    rcases threads_set_lookup _ _ _ _ _ _ hth hj with ⟨_, hx⟩ | ⟨_, hx⟩
    · subst hx; exact hcust hx2
    · exact hinv.fresh j x hx hx1 hx2
  · intro j x hj hx1
    show _ ∧ _ ∧ b'.tables[x.table_id.toNat]? = some true
    rw [htab]
    rcases threads_set_lookup _ _ _ _ _ _ hth hj with ⟨_, hx⟩ | ⟨_, hx⟩
    · subst hx; exact absurd hx1 hpc'
    · exact hinv.seat j x hx hx1
  · intro j1 j2 x1 x2 hj1 hj2 hx1 hx2 heq
    show j1 = j2
    rcases threads_set_lookup _ _ _ _ _ _ hth hj1 with ⟨e1, hy1⟩ | ⟨e1, hy1⟩
    · subst hy1; exact absurd hx1 hpc'
    · rcases threads_set_lookup _ _ _ _ _ _ hth hj2 with ⟨e2, hy2⟩ | ⟨e2, hy2⟩
      · subst hy2; exact absurd hx2 hpc'
      · exact hinv.excl j1 j2 x1 x2 hy1 hy2 hx1 hx2 heq
  · intro m hm
    show ∃ (j : Nat) (x : Thread), (s.threads.set i th')[j]? = some x ∧ _
    have hm' : b'.tables[m]? = some true := hm
    rw [htab] at hm'
    obtain ⟨j, x, hx, hx1, hx2⟩ := hinv.held m hm'
    have hji : i ≠ j := by
      intro e
      subst e
      rw [hth] at hx
      injection hx with hx
      subst hx
      exact hpc hx1
    refine ⟨j, x, ?_, hx1, hx2⟩
    rw [List.getElem?_set, if_neg hji]
    exact hx

theorem enqueue_customer_core (b : BakeryState) (ptr : Nat) (c : CustomerColor) :
    (enqueue_customer b ptr c).tables = b.tables ∧
    (enqueue_customer b ptr c).customers_inside = b.customers_inside ∧
    (enqueue_customer b ptr c).free_tables = b.free_tables ∧
    (enqueue_customer b ptr c).red_count = b.red_count ∧
    (enqueue_customer b ptr c).blue_count = b.blue_count := by
  unfold enqueue_customer
  split <;> simp

theorem sem_wait_color_core {b b' : BakeryState} {c : CustomerColor}
    (h : sem_wait_color b c = some b') :
    b'.tables = b.tables ∧ b'.customers_inside = b.customers_inside ∧
    b'.free_tables = b.free_tables ∧ b'.red_count = b.red_count ∧
    b'.blue_count = b.blue_count := by
  unfold sem_wait_color at h
  split_ifs at h <;> simp at h <;> subst h <;> simp

theorem commit_some {s s' : System} {i : Nat} {r : Option (BakeryState × Thread)}
    (h : commit s i r = some s') :
    ∃ b' th', r = some (b', th') ∧ s' = { bakery := b', threads := s.threads.set i th' } := by
  unfold commit at h
  split at h
  · simp at h
  · rename_i b th
    simp at h
    exact ⟨b, th, rfl, h.symm⟩

theorem step_inv {T : Int} {s s' : System} {a : Action}
    (hinv : Inv T s) (h : step s a = some s') : Inv T s' := by
  cases a with
  | arrive i =>
    simp only [step] at h
    split at h
    · simp at h
    · rename_i th hth
      split at h
      · rename_i hpc
        obtain ⟨b', th', hr, hs⟩ := commit_some h
        subst hs
        have hne : th.pc ≠ Pc.eating := by rw [hpc]; decide
        unfold arrive_section at hr
        split at hr
        · rename_i hg
          exact inv_take hinv hth hne hg.1 hr
        · simp only [Option.some.injEq, Prod.mk.injEq] at hr
          obtain ⟨hb, ht⟩ := hr
          subst hb ht
          obtain ⟨e1, e2, e3, e4, e5⟩ := enqueue_customer_core s.bakery i th.customer.color
          refine inv_neutral hinv hth hne (by simp) ?_ e1 e2 e3 e4 e5
          intro _
          exact hinv.fresh i th hth hne (by rw [hpc]; decide)
      · simp at h
  | wake i =>
    simp only [step] at h
    split at h
    · simp at h
    · rename_i th hth
      split at h
      · rename_i hpc
        obtain ⟨b', th', hr, hs⟩ := commit_some h
        subst hs
        have hne : th.pc ≠ Pc.eating := by rw [hpc]; decide
        cases hsem : sem_wait_color s.bakery th.customer.color with
        | none => rw [hsem] at hr; simp at hr
        | some b1 =>
          rw [hsem] at hr
          simp only [Option.map_some', Option.some.injEq, Prod.mk.injEq] at hr
          obtain ⟨hb, ht⟩ := hr
          subst hb ht
          obtain ⟨e1, e2, e3, e4, e5⟩ := sem_wait_color_core hsem
          refine inv_neutral hinv hth hne (by simp) ?_ e1 e2 e3 e4 e5
          intro _
          exact hinv.fresh i th hth hne (by rw [hpc]; decide)
      · simp at h
  | enter i =>
    simp only [step] at h
    split at h
    · simp at h
    · rename_i th hth
      split at h
      · rename_i hpc
        obtain ⟨b', th', hr, hs⟩ := commit_some h
        subst hs
        have hne : th.pc ≠ Pc.eating := by rw [hpc]; decide
        have hfresh : th.customer.has_table = false :=
          hinv.fresh i th hth hne (by rw [hpc]; decide)
        unfold woken_section at hr
        split at hr
        · rename_i hg
          exact inv_take hinv hth hne hg hr
        · simp only [Option.some.injEq, Prod.mk.injEq] at hr
          obtain ⟨hb, ht⟩ := hr
          subst hb ht
          refine inv_neutral hinv hth hne ?_ ?_ rfl rfl rfl rfl rfl
          · simp [after_entry, hfresh]
          · intro _
            exact hfresh
      · simp at h
  | depart i =>
    simp only [step] at h
    split at h
    · simp at h
    · rename_i th hth
      split at h
      · rename_i hpc
        obtain ⟨b', th', hr, hs⟩ := commit_some h
        subst hs
        exact inv_depart hinv hth hpc hr
      · simp at h

theorem run_inv {T : Int} {s s' : System} {schedule : List Action}
    (hinv : Inv T s) (h : run s schedule = some s') : Inv T s' := by
  induction schedule generalizing s with
  | nil =>
    simp only [run, Option.some.injEq] at h
    subst h
    exact hinv
  | cons a rest ih =>
    simp only [run] at h
    split at h
    · simp at h
    · rename_i s1 hs1
      exact ih (step_inv hinv hs1) h

theorem spawn_from_pc (i : Nat) (colors : List CustomerColor) (j : Nat) (th : Thread)
    (h : (spawn_from i colors)[j]? = some th) :
    th.pc = Pc.start ∧ th.customer.has_table = false := by
  induction colors generalizing i j with
  | nil => simp [spawn_from] at h
  | cons c cs ih =>
    cases j with
    | zero =>
      simp [spawn_from] at h
      subst h
      simp [new_customer]
    | succ n =>
      simp [spawn_from] at h
      exact ih (i + 1) n h

theorem spawn_from_countP (c : CustomerColor) (i : Nat) (colors : List CustomerColor) :
    (spawn_from i colors).countP (eating_in c) = 0 := by
  induction colors generalizing i with
  | nil => simp [spawn_from]
  | cons x xs ih => simp [spawn_from, eating_in, ih]

theorem init_bakery_tables (T : Int) :
    (init_bakery T).tables = List.replicate MAX_TABLES false := by
  rfl

theorem initial_inv (T : Int) (colors : List CustomerColor) : Inv T (initial T colors) := by
  constructor
  · show (init_bakery T).tables.length = MAX_TABLES
    rw [init_bakery_tables]; simp
  · rfl
  · show (0 : Int) = _
    rw [show (initial T colors).threads = spawn_from 0 colors from rfl, spawn_from_countP]
    rfl
  · show (0 : Int) = _
    rw [show (initial T colors).threads = spawn_from 0 colors from rfl, spawn_from_countP]
    rfl
  · show T + 0 = T
    omega
  · intro h
    exact h
  · show (((init_bakery T).tables.count true : Nat) : Int) = 0
    rw [init_bakery_tables]
    decide
  · intro j th hj _ _
    exact (spawn_from_pc 0 colors j th hj).2
  · intro j th hj hpc
    have := (spawn_from_pc 0 colors j th hj).1
    rw [this] at hpc
    cases hpc
  · intro j1 j2 x1 x2 hj1 _ hx1 _ _
    have := (spawn_from_pc 0 colors j1 x1 hj1).1
    rw [this] at hx1
    cases hx1
  · intro k hk
    exfalso
    have hk' : (init_bakery T).tables[k]? = some true := hk
    rw [init_bakery_tables] at hk'
    rw [List.getElem?_replicate] at hk'
    split at hk' <;> simp at hk'

theorem reachable_inv {T : Int} {colors : List CustomerColor} {s : System}
    (h : Reachable T colors s) : Inv T s := by
  obtain ⟨schedule, hs⟩ := h
  exact run_inv (initial_inv T colors) hs

/-! ## Admission rule of the polling variants -/

/-- C1: one mutex-protected admission attempt of `Final.c` / `tested.c` lets a
red customer in, adding exactly one to `red_inside` and leaving `blue_inside`
alone, if and only if `red_inside < blue_inside` or both counters are zero;
otherwise the state is unchanged and the customer is not let in.  The blue
attempt obeys the same rule with the colours swapped. -/
theorem gate_attempt_rule (g : Gate) :
    ((red_customer_attempt g).2 = true ↔
        (g.red_inside < g.blue_inside ∨ (g.red_inside = 0 ∧ g.blue_inside = 0))) ∧
    ((red_customer_attempt g).2 = true →
        (red_customer_attempt g).1 =
          { red_inside := g.red_inside + 1, blue_inside := g.blue_inside }) ∧
    ((red_customer_attempt g).2 = false → (red_customer_attempt g).1 = g) ∧
    ((blue_customer_attempt g).2 = true ↔
        (g.blue_inside < g.red_inside ∨ (g.red_inside = 0 ∧ g.blue_inside = 0))) ∧
    ((blue_customer_attempt g).2 = true →
        (blue_customer_attempt g).1 =
          { red_inside := g.red_inside, blue_inside := g.blue_inside + 1 }) ∧
    ((blue_customer_attempt g).2 = false → (blue_customer_attempt g).1 = g) := by
  unfold red_customer_attempt blue_customer_attempt
  refine ⟨?_, ?_, ?_, ?_, ?_, ?_⟩ <;> split_ifs <;> simp_all

/-! ## Properties of the `src_ds.c` step machine -/

theorem countP_nonneg_int {α : Type} (p : α → Bool) (l : List α) :
    (0 : Int) ≤ (l.countP p : Int) :=
  Int.natCast_nonneg _

/-- C2: in every state reachable from `init_bakery`, `can_enter(C)` is true
exactly when both colour counts are zero or the count of `C` is strictly below
the count of the other colour; the test `customers_inside == 0` of the code
coincides with both counts being zero. -/
theorem can_enter_rule (T : Int) (colors : List CustomerColor) (s : System)
    (h : Reachable T colors s) (c : CustomerColor) :
    (s.bakery.customers_inside = 0 ↔ (s.bakery.red_count = 0 ∧ s.bakery.blue_count = 0)) ∧
    (can_enter s.bakery c = true ↔
      ((s.bakery.red_count = 0 ∧ s.bakery.blue_count = 0) ∨
        color_count s.bakery c < color_count s.bakery (other_color c))) := by
  have hinv := reachable_inv h
  have hr : 0 ≤ s.bakery.red_count := by rw [hinv.red]; exact countP_nonneg_int _ _
  have hb : 0 ≤ s.bakery.blue_count := by rw [hinv.blue]; exact countP_nonneg_int _ _
  have hin := hinv.inside
  have hz : s.bakery.customers_inside = 0 ↔
      (s.bakery.red_count = 0 ∧ s.bakery.blue_count = 0) := by
    constructor
    · intro h0; constructor <;> omega
    · rintro ⟨h1, h2⟩; omega
  refine ⟨hz, ?_⟩
  unfold can_enter
  cases c <;> simp only [color_count, other_color]
  · by_cases h0 : s.bakery.customers_inside = 0
    · simp [h0, hz.mp h0]
    · have : ¬ (s.bakery.red_count = 0 ∧ s.bakery.blue_count = 0) := fun hh => h0 (hz.mpr hh)
      simp [h0, this]
  · by_cases h0 : s.bakery.customers_inside = 0
    · simp [h0, hz.mp h0]
    · have : ¬ (s.bakery.red_count = 0 ∧ s.bakery.blue_count = 0) := fun hh => h0 (hz.mpr hh)
      simp [h0, this]

/-- C3: started from `init_bakery(T)` with `1 ≤ T`, every reachable state has
`red_count ≥ 0`, `blue_count ≥ 0` and `0 ≤ free_tables ≤ T`. -/
theorem counts_within_bounds (T : Int) (hT : 1 ≤ T) (colors : List CustomerColor)
    (s : System) (h : Reachable T colors s) :
    0 ≤ s.bakery.red_count ∧ 0 ≤ s.bakery.blue_count ∧
      0 ≤ s.bakery.free_tables ∧ s.bakery.free_tables ≤ T := by
  have hinv := reachable_inv h
  have hr : 0 ≤ s.bakery.red_count := by rw [hinv.red]; exact countP_nonneg_int _ _
  have hb : 0 ≤ s.bakery.blue_count := by rw [hinv.blue]; exact countP_nonneg_int _ _
  have hin := hinv.inside
  have hfree := hinv.free
  have hnn := hinv.nonneg (by omega)
  refine ⟨hr, hb, hnn, ?_⟩
  omega

theorem seated_iff_eating {T : Int} {s : System} (hinv : Inv T s) (i : Nat) (th : Thread)
    (hth : s.threads[i]? = some th) : seated th ↔ th.pc = Pc.eating := by
  constructor
  · rintro ⟨h1, h2⟩
    by_contra hne
    have := hinv.fresh i th hth hne h2
    rw [this] at h1
    cases h1
  · intro hpc
    refine ⟨(hinv.seat i th hth hpc).1, ?_⟩
    rw [hpc]
    decide

/-- C5: in every reachable state no two seated customers hold the same
`table_id`, and `tables[k]` is true exactly for the table ids held by seated
customers. -/
theorem table_exclusivity (T : Int) (colors : List CustomerColor) (s : System)
    (h : Reachable T colors s) :
    (∀ (i j : Nat) (thi thj : Thread), s.threads[i]? = some thi → s.threads[j]? = some thj →
        seated thi → seated thj → thi.table_id = thj.table_id → i = j) ∧
    (∀ k : Nat, k < MAX_TABLES →
        (s.bakery.tables[k]? = some true ↔
          ∃ (i : Nat) (th : Thread),
            s.threads[i]? = some th ∧ seated th ∧ th.table_id = (k : Int))) := by
  have hinv := reachable_inv h
  constructor
  · intro i j thi thj hi hj si sj heq
    exact hinv.excl i j thi thj hi hj ((seated_iff_eating hinv i thi hi).mp si)
      ((seated_iff_eating hinv j thj hj).mp sj) heq
  · intro k _
    constructor
    · intro hk
      obtain ⟨i, th, hth, hpc, htid⟩ := hinv.held k hk
      exact ⟨i, th, hth, (seated_iff_eating hinv i th hth).mpr hpc, htid⟩
    · rintro ⟨i, th, hth, hs, htid⟩
      have hpc := (seated_iff_eating hinv i th hth).mp hs
      obtain ⟨_, _, h3⟩ := hinv.seat i th hth hpc
      rw [htid, Int.toNat_natCast] at h3
      exact h3

/-- C6: with `T ≤ MAX_TABLES`, in every reachable state with `free_tables > 0`
the scan of `find_free_table` does not return `-1`: it returns an index `k` with
`0 ≤ k < T` whose slot is free before the assignment, so the entry statements
are defined, give the customer table `k` and mark exactly that slot; both entry
branches of `customer_behavior` run these statements under that guard. -/
theorem entry_finds_table (T : Int) (hT : T ≤ (MAX_TABLES : Int)) (colors : List CustomerColor)
    (s : System) (h : Reachable T colors s) (hfree : s.bakery.free_tables > 0)
    (ptr : Nat) (th : Thread) :
    ∃ k : Nat, find_free_table s.bakery = (k : Int) ∧ (k : Int) < T ∧
      s.bakery.tables[k]? = some false ∧
      (∃ (b' : BakeryState) (th' : Thread), take_table s.bakery th = some (b', th') ∧
        th'.table_id = (k : Int) ∧ th'.customer.has_table = true ∧
        b'.tables = s.bakery.tables.set k true) ∧
      (can_enter s.bakery th.customer.color = true →
        arrive_section s.bakery ptr th = take_table s.bakery th) ∧
      woken_section s.bakery th = take_table s.bakery th := by
  have hinv := reachable_inv h
  have hocc := hinv.occ
  have hfr := hinv.free
  have hlen := hinv.len
  have hcnt : ((s.bakery.tables.count true : Nat) : Int) < T := by omega
  have hcnt10 : s.bakery.tables.count true < MAX_TABLES := by
    have : ((s.bakery.tables.count true : Nat) : Int) < (MAX_TABLES : Int) := by omega
    exact_mod_cast this
  rcases find_free_table_from_spec s.bakery.tables MAX_TABLES 0 with
    ⟨_, h2⟩ | ⟨k, h1, _, h3, h4, h5⟩
  · exfalso
    have := prefix_true_le_count s.bakery.tables MAX_TABLES
      (fun j hj => h2 j (Nat.zero_le j) (by omega))
    omega
  · have hkc : k ≤ s.bakery.tables.count true :=
      prefix_true_le_count s.bakery.tables k (fun j hj => h5 j (Nat.zero_le j) hj)
    have hk10 : k < MAX_TABLES := by omega
    have hf : find_free_table s.bakery = (k : Int) := h1
    have hkT : (k : Int) < T := by
      have : ((k : Nat) : Int) ≤ ((s.bakery.tables.count true : Nat) : Int) := by
        exact_mod_cast hkc
      omega
    have hkfalse : s.bakery.tables[k]? = some false :=
      lookup_of_getD_false _ _ (by rw [hlen]; exact hk10) h4
    refine ⟨k, hf, hkT, hkfalse, ?_, ?_, ?_⟩
    · cases htt : take_table s.bakery th with
      | none =>
        exfalso
        unfold take_table at htt
        simp only [] at htt
        have htab : ∀ b1 : BakeryState, b1.tables = s.bakery.tables →
            find_free_table b1 = find_free_table s.bakery := by
          intro b1 hb1
          unfold find_free_table
          rw [hb1]
        rw [htab _ (by unfold count_incr; split <;> rfl), hf] at htt
        have hk : (0 : Int) ≤ (k : Int) ∧ (k : Int) < (MAX_TABLES : Int) :=
          ⟨Int.natCast_nonneg k, by exact_mod_cast hk10⟩
        rw [if_pos hk] at htt
        simp at htt
      | some r =>
        obtain ⟨b', th'⟩ := r
        obtain ⟨k', e1, _, _, _, e5, _, _, _, _, _, e11, e12, _⟩ := take_table_effect htt
        have hkk : k' = k := by
          rw [hf] at e1
          exact_mod_cast e1.symm
        subst hkk
        exact ⟨b', th', rfl, e11, e12, e5⟩
    · intro hc
      unfold arrive_section
      rw [if_pos ⟨hfree, hc⟩]
    · unfold woken_section
      rw [if_pos hfree]

/-- C4 (violated by the code): with three tables, customers RED#1, BLUE#1, RED#2,
RED#3, BLUE#2 (threads 0..4) and the schedule below, the machine reaches a
state with `red_count = 2`, `blue_count = 0`, one free table, and BLUE#2 still
blocked in the blue queue with `blue_sem = 0`. -/
theorem balance_violation :
    ∃ s : System, Reachable 3 [RED, BLUE, RED, RED, BLUE] s ∧
      s.bakery.red_count = 2 ∧ s.bakery.blue_count = 0 ∧
      |s.bakery.red_count - s.bakery.blue_count| > 1 ∧
      s.bakery.free_tables = 1 ∧ s.bakery.blue_queue_size = 1 ∧
      s.bakery.blue_sem = 0 ∧ s.threads[4]?.map (fun th => th.pc) = some Pc.blocked ∧
      s.threads[4]?.map (fun th => th.customer.color) = some BLUE := by
  refine ⟨_, ⟨[arrive 0, arrive 1, arrive 2, arrive 3, arrive 4, depart 0, depart 1,
    wake 2, wake 3, enter 2, enter 3], rfl⟩, ?_⟩
  decide

/-- C7 (Scenario A): for `2 ≤ T ≤ MAX_TABLES`, with RED#1, BLUE#1, RED#2 as
threads 0, 1, 2 arriving in that order, RED#1 and BLUE#1 enter directly and
RED#2 is enqueued without being admitted; the departure of BLUE#1 posts no
semaphore and leaves RED#2 blocked with `red_count = 1`, `blue_count = 0`;
the departure of RED#1 leaves both counts at zero and posts `red_sem` exactly once;
RED#2 then passes `sem_wait` and is admitted. -/
theorem scenario_A (T : Int) (h2 : 2 ≤ T) (h10 : T ≤ (MAX_TABLES : Int)) :
    ∃ s1 s2 s3 s4 s5 s6 : System,
      step (initial T [RED, BLUE, RED]) (arrive 0) = some s1 ∧
      s1.threads.map (fun th => th.pc) = [Pc.eating, Pc.start, Pc.start] ∧
      s1.bakery.red_count = 1 ∧ s1.bakery.blue_count = 0 ∧
      step s1 (arrive 1) = some s2 ∧
      s2.threads.map (fun th => th.pc) = [Pc.eating, Pc.eating, Pc.start] ∧
      s2.bakery.red_count = 1 ∧ s2.bakery.blue_count = 1 ∧
      step s2 (arrive 2) = some s3 ∧
      s3.threads.map (fun th => th.pc) = [Pc.eating, Pc.eating, Pc.blocked] ∧
      s3.bakery.red_count = 1 ∧ s3.bakery.blue_count = 1 ∧
      s3.bakery.red_queue_size = 1 ∧ s3.bakery.red_queue.getD 0 none = some 2 ∧
      step s3 (depart 1) = some s4 ∧
      s4.threads.map (fun th => th.pc) = [Pc.eating, Pc.done, Pc.blocked] ∧
      s4.bakery.red_count = 1 ∧ s4.bakery.blue_count = 0 ∧
      s4.bakery.red_sem = 0 ∧ s4.bakery.blue_sem = 0 ∧
      step s4 (wake 2) = none ∧
      step s4 (depart 0) = some s5 ∧
      s5.bakery.red_count = 0 ∧ s5.bakery.blue_count = 0 ∧
      s5.bakery.red_sem = 1 ∧ s5.bakery.blue_sem = 0 ∧
      run s5 [wake 2, enter 2] = some s6 ∧
      s6.threads.map (fun th => th.pc) = [Pc.done, Pc.done, Pc.eating] ∧
      s6.threads.map (fun th => th.customer.has_table) = [true, true, true] ∧
      s6.bakery.red_count = 1 ∧ s6.bakery.blue_count = 0 ∧
      s6.bakery.red_sem = 0 ∧ s6.bakery.blue_sem = 0 := by
  have hT : T ≤ 10 := h10
  interval_cases T <;>
    exact ⟨_, _, _, _, _, _, rfl, by decide, by decide, by decide, rfl, by decide, by decide,
      by decide, rfl, by decide, by decide, by decide, by decide, by decide, rfl, by decide,
      by decide, by decide, by decide, by decide, by decide, rfl, by decide, by decide,
      by decide, by decide, rfl, by decide, by decide, by decide, by decide, by decide,
      by decide⟩

/-- Witness of `scenario_A` at the table count `2` of the specification. -/
theorem scenario_A_witness :
    (2 : Int) ≤ 2 ∧ (2 : Int) ≤ (MAX_TABLES : Int) ∧
    ∃ s1 s2 s3 s4 s5 s6 : System,
      step (initial 2 [CustomerColor.RED, CustomerColor.BLUE, CustomerColor.RED])
        (Action.arrive 0) = some s1 ∧
      s1.threads.map (fun th => th.pc) = [Pc.eating, Pc.start, Pc.start] ∧
      s1.bakery.red_count = 1 ∧ s1.bakery.blue_count = 0 ∧
      step s1 (Action.arrive 1) = some s2 ∧
      s2.threads.map (fun th => th.pc) = [Pc.eating, Pc.eating, Pc.start] ∧
      s2.bakery.red_count = 1 ∧ s2.bakery.blue_count = 1 ∧
      step s2 (Action.arrive 2) = some s3 ∧
      s3.threads.map (fun th => th.pc) = [Pc.eating, Pc.eating, Pc.blocked] ∧
      s3.bakery.red_count = 1 ∧ s3.bakery.blue_count = 1 ∧
      s3.bakery.red_queue_size = 1 ∧ s3.bakery.red_queue.getD 0 none = some 2 ∧
      step s3 (Action.depart 1) = some s4 ∧
      s4.threads.map (fun th => th.pc) = [Pc.eating, Pc.done, Pc.blocked] ∧
      s4.bakery.red_count = 1 ∧ s4.bakery.blue_count = 0 ∧
      s4.bakery.red_sem = 0 ∧ s4.bakery.blue_sem = 0 ∧
      step s4 (Action.wake 2) = none ∧
      step s4 (Action.depart 0) = some s5 ∧
      s5.bakery.red_count = 0 ∧ s5.bakery.blue_count = 0 ∧
      s5.bakery.red_sem = 1 ∧ s5.bakery.blue_sem = 0 ∧
      run s5 [Action.wake 2, Action.enter 2] = some s6 ∧
      s6.threads.map (fun th => th.pc) = [Pc.done, Pc.done, Pc.eating] ∧
      s6.threads.map (fun th => th.customer.has_table) = [true, true, true] ∧
      s6.bakery.red_count = 1 ∧ s6.bakery.blue_count = 0 ∧
      s6.bakery.red_sem = 0 ∧ s6.bakery.blue_sem = 0 :=
  ⟨by decide, by decide, scenario_A 2 (by decide) (by decide)⟩

/-- C8 as stated fails: on `init_bakery(1)`, after RED#1 and then BLUE#1 have
arrived, BLUE#1 is not admitted (`blue_count = 0`, not `1`); it sits in the
blue queue, blocked in `sem_wait`. -/
theorem scenario_B_blue_not_admitted :
    ∃ s : System, run (initial 1 [RED, BLUE]) [arrive 0, arrive 1] = some s ∧
      s.bakery.red_count = 1 ∧ s.bakery.blue_count = 0 ∧ s.bakery.blue_count ≠ 1 ∧
      s.bakery.blue_queue_size = 1 ∧
      s.threads.map (fun th => th.pc) = [Pc.eating, Pc.blocked] :=
  ⟨_, rfl, by decide, by decide, by decide, by decide, by decide⟩

/-- C8 (Scenario B) as the code behaves: on `init_bakery(1)`, after RED#1 and
then BLUE#1 arrive, only RED#1 is admitted (`red_count = 1`, `blue_count = 0`);
RED#1 sits at table 0 and BLUE#1, finding `free_tables = 0`, is enqueued in the
blue queue and blocks on `blue_sem`; the departure of RED#1 posts `blue_sem`, after
which BLUE#1 is woken, admitted (`blue_count = 1`) and receives table 0. -/
theorem scenario_B :
    ∃ s2 s3 s5 : System,
      run (initial 1 [RED, BLUE]) [arrive 0, arrive 1] = some s2 ∧
      s2.bakery.red_count = 1 ∧ s2.bakery.blue_count = 0 ∧ s2.bakery.free_tables = 0 ∧
      s2.threads.map (fun th => (th.pc, th.table_id)) = [(Pc.eating, 0), (Pc.blocked, -1)] ∧
      s2.bakery.blue_queue_size = 1 ∧ s2.bakery.blue_queue.getD 0 none = some 1 ∧
      step s2 (wake 1) = none ∧
      step s2 (depart 0) = some s3 ∧
      s3.bakery.red_count = 0 ∧ s3.bakery.blue_count = 0 ∧ s3.bakery.free_tables = 1 ∧
      s3.bakery.blue_sem = 1 ∧ s3.bakery.red_sem = 0 ∧
      run s3 [wake 1, enter 1] = some s5 ∧
      s5.bakery.red_count = 0 ∧ s5.bakery.blue_count = 1 ∧ s5.bakery.free_tables = 0 ∧
      s5.threads.map (fun th => (th.pc, th.table_id, th.customer.has_table))
        = [(Pc.done, 0, true), (Pc.eating, 0, true)] :=
  ⟨_, _, _, rfl, by decide, by decide, by decide, by decide, by decide, by decide, by decide,
    rfl, by decide, by decide, by decide, by decide, by decide, rfl, by decide, by decide,
    by decide, by decide⟩

/-- C9 as stated fails: `init_bakery(0)` is not rejected; it yields a bakery
with `free_tables = 0` on which an arriving customer runs its first section and
is left blocked in its queue. -/
theorem init_bakery_zero_not_rejected :
    (init_bakery 0).free_tables = 0 ∧
    ∃ s : System, step (initial 0 [RED]) (arrive 0) = some s ∧
      s.bakery.free_tables = 0 ∧ s.bakery.red_queue_size = 1 ∧
      s.threads.map (fun th => th.pc) = [Pc.blocked] ∧ step s (wake 0) = none :=
  ⟨rfl, _, rfl, by decide, by decide, by decide, by decide⟩

/-- C9 as the code behaves: `init_bakery` validates nothing; for every `T`,
positive or not, it produces the bakery with `free_tables = T`, zero counts,
no occupied table, empty queues and semaphores at zero. -/
theorem init_bakery_total (T : Int) :
    (init_bakery T).free_tables = T ∧
    (init_bakery T).customers_inside = 0 ∧
    (init_bakery T).red_count = 0 ∧ (init_bakery T).blue_count = 0 ∧
    (init_bakery T).tables = List.replicate MAX_TABLES false ∧
    (init_bakery T).red_queue_front = 0 ∧ (init_bakery T).red_queue_rear = -1 ∧
    (init_bakery T).red_queue_size = 0 ∧
    (init_bakery T).blue_queue_front = 0 ∧ (init_bakery T).blue_queue_rear = -1 ∧
    (init_bakery T).blue_queue_size = 0 ∧
    (init_bakery T).red_sem = 0 ∧ (init_bakery T).blue_sem = 0 :=
  ⟨rfl, rfl, rfl, rfl, rfl, rfl, rfl, rfl, rfl, rfl, rfl, rfl, rfl⟩

/-! ## FIFO behaviour of the waiting queues -/

theorem tmod_cast_succ (r : Nat) :
    Int.tmod (r : Int) (MAX_CUSTOMERS : Int) = ((r % MAX_CUSTOMERS : Nat) : Int) := by
  rw [Int.tmod_eq_emod (Int.natCast_nonneg r) (Int.natCast_nonneg _)]
  exact (Int.natCast_mod r MAX_CUSTOMERS).symm

theorem init_bakery_on_rep (b0 : BakeryState) (T : Int) (c : CustomerColor)
    (hlen : (queue_of b0 c).length = MAX_CUSTOMERS) :
    QueueRep c (init_bakery_on b0 T) [] := by
  refine ⟨0, 0, ?_, by decide, ?_, by decide, by decide, ?_, by decide, ?_, ?_⟩
  · cases c <;> rfl
  · cases c <;> rfl
  · cases c <;> rfl
  · cases c <;> exact hlen
  · intro j hj
    simp at hj

theorem enqueue_customer_rep (c : CustomerColor) (b : BakeryState) (waiting : List Nat)
    (ptr : Nat) (hrep : QueueRep c b waiting) (hcap : waiting.length + 1 ≤ MAX_CUSTOMERS) :
    QueueRep c (enqueue_customer b ptr c) (waiting ++ [ptr]) := by
  obtain ⟨f, r, hf, hf100, hr, hr100, hmod, hsize, hlen, hqlen, helts⟩ := hrep
  have hrear : queue_rear_of (enqueue_customer b ptr c) c = ((r % MAX_CUSTOMERS : Nat) : Int) := by
    cases c <;> simp only [queue_rear_of] at hr ⊢ <;>
      simp only [enqueue_customer, if_true, reduceCtorEq, if_false] <;>
      rw [hr, tmod_cast_succ]
  have hqueue : queue_of (enqueue_customer b ptr c) c
      = (queue_of b c).set (r % MAX_CUSTOMERS) (some ptr) := by
    cases c <;> simp only [queue_rear_of, queue_of] at hr ⊢ <;>
      simp only [enqueue_customer, if_true, reduceCtorEq, if_false] <;>
      rw [hr, tmod_cast_succ, Int.toNat_natCast]
  have hfront : queue_front_of (enqueue_customer b ptr c) c = queue_front_of b c := by
    cases c <;> simp [queue_front_of, enqueue_customer]
  have hsz : queue_size_of (enqueue_customer b ptr c) c = queue_size_of b c + 1 := by
    cases c <;> simp [queue_size_of, enqueue_customer]
  have hM : MAX_CUSTOMERS = 100 := rfl
  have hf100' : f < 100 := hf100
  have hr100' : r ≤ 100 := hr100
  have hmod' : r % 100 = (f + waiting.length) % 100 := hmod
  have hcap' : waiting.length + 1 ≤ 100 := hcap
  refine ⟨f, r % MAX_CUSTOMERS + 1, ?_, hf100, ?_, ?_, ?_, ?_, ?_, ?_, ?_⟩
  · rw [hfront, hf]
  · rw [hrear]; push_cast; rfl
  · rw [hM]; omega
  · rw [List.length_append, List.length_singleton, hM]
    omega
  · rw [hsz, hsize, List.length_append, List.length_singleton]; push_cast; rfl
  · rw [List.length_append, List.length_singleton]; exact hcap
  · rw [hqueue, List.length_set, hqlen]
  · intro j hj
    rw [List.length_append, List.length_singleton] at hj
    rw [hqueue, List.getElem?_set]
    by_cases hjl : j = waiting.length
    · subst hjl
      have hidx : r % MAX_CUSTOMERS = (f + waiting.length) % MAX_CUSTOMERS := hmod
      rw [if_pos hidx]
      have : r % MAX_CUSTOMERS < (queue_of b c).length := by
        rw [hqlen, hM]; omega
      rw [if_pos this]
      simp
    · have hjlt : j < waiting.length := by omega
      have hidx : ¬ r % MAX_CUSTOMERS = (f + j) % MAX_CUSTOMERS := by
        rw [hM]; omega
      rw [if_neg hidx, helts j hjlt, List.getElem?_append_left hjlt]

theorem dequeue_customer_rep (c : CustomerColor) (b : BakeryState) (waiting : List Nat)
    (hrep : QueueRep c b waiting) :
    (dequeue_customer b c).1 = waiting.head? ∧
      QueueRep c (dequeue_customer b c).2 waiting.tail := by
  obtain ⟨f, r, hf, hf100, hr, hr100, hmod, hsize, hlen, hqlen, helts⟩ := hrep
  have hM : MAX_CUSTOMERS = 100 := rfl
  have hf100' : f < 100 := hf100
  have hr100' : r ≤ 100 := hr100
  cases waiting with
  | nil =>
    have h0 : queue_size_of b c = 0 := by simpa using hsize
    have hd : dequeue_customer b c = (none, b) := by
      cases c <;> simp only [queue_size_of] at h0 <;> simp [dequeue_customer, h0]
    rw [hd]
    exact ⟨rfl, f, r, hf, hf100, hr, hr100, hmod, hsize, hlen, hqlen, helts⟩
  | cons x rest =>
    have hpos : queue_size_of b c > 0 := by
      rw [hsize]; simp only [List.length_cons]; push_cast; omega
    have h0 := helts 0 (by simp)
    have hf0 : (f + 0) % MAX_CUSTOMERS = f := by rw [hM]; omega
    rw [hf0] at h0
    simp only [List.getElem?_cons_zero] at h0
    have hres : (dequeue_customer b c).1 = some x := by
      cases c <;> simp only [queue_size_of, queue_front_of, queue_of] at hpos hf h0 <;>
        simp [dequeue_customer, hpos, hf, List.getD_eq_getElem?_getD, h0]
    have hfront : queue_front_of (dequeue_customer b c).2 c
        = (((f + 1) % MAX_CUSTOMERS : Nat) : Int) := by
      have e : (f : Int) + 1 = ((f + 1 : Nat) : Int) := by push_cast; rfl
      cases c <;> simp only [queue_size_of, queue_front_of] at hpos hf ⊢ <;>
        simp only [dequeue_customer, hpos, and_self, if_true, reduceCtorEq, false_and,
          if_false, true_and] <;>
        rw [hf, e, tmod_cast_succ]
    have hrear : queue_rear_of (dequeue_customer b c).2 c = queue_rear_of b c := by
      cases c <;> simp only [queue_size_of] at hpos <;>
        simp [dequeue_customer, hpos, queue_rear_of]
    have hqueue : queue_of (dequeue_customer b c).2 c = queue_of b c := by
      cases c <;> simp only [queue_size_of] at hpos <;>
        simp [dequeue_customer, hpos, queue_of]
    have hsz : queue_size_of (dequeue_customer b c).2 c = queue_size_of b c - 1 := by
      cases c <;> simp only [queue_size_of] at hpos <;>
        simp [dequeue_customer, hpos, queue_size_of]
    simp only [List.length_cons] at hmod hsize hlen
    have hmod' : r % 100 = (f + (rest.length + 1)) % 100 := hmod
    have hlen' : rest.length + 1 ≤ 100 := hlen
    refine ⟨by rw [hres]; rfl, (f + 1) % MAX_CUSTOMERS, r, hfront, ?_, ?_, hr100, ?_, ?_, ?_, ?_, ?_⟩
    · rw [hM]; omega
    · rw [hrear, hr]
    · simp only [List.tail_cons]
      rw [hM]; omega
    · simp only [List.tail_cons]
      rw [hsz, hsize]; push_cast; omega
    · simp only [List.tail_cons]; rw [hM]; omega
    · rw [hqueue, hqlen]
    · intro j hj
      simp only [List.tail_cons] at hj ⊢
      have := helts (j + 1) (by simp only [List.length_cons]; omega)
      simp only [List.getElem?_cons_succ] at this
      rw [hqueue, ← this]
      congr 1
      rw [hM]; omega

theorem run_queue_ops_refines (c : CustomerColor) (ops : List QueueOp) (b : BakeryState)
    (waiting : List Nat) (hrep : QueueRep c b waiting)
    (hcap : within_capacity waiting ops = true) :
    (run_queue_ops c b ops).2 = (fifo_spec waiting ops).2 ∧
      QueueRep c (run_queue_ops c b ops).1 (fifo_spec waiting ops).1 := by
  induction ops generalizing b waiting with
  | nil => exact ⟨rfl, hrep⟩
  | cons op rest ih =>
    cases op with
    | enqueue ptr =>
      simp only [within_capacity, Bool.and_eq_true, decide_eq_true_eq] at hcap
      simp only [run_queue_ops, fifo_spec]
      exact ih _ _ (enqueue_customer_rep c b waiting ptr hrep hcap.1) hcap.2
    | dequeue =>
      simp only [within_capacity] at hcap
      obtain ⟨h1, h2⟩ := dequeue_customer_rep c b waiting hrep
      obtain ⟨h3, h4⟩ := ih _ _ h2 hcap
      simp only [run_queue_ops, fifo_spec]
      exact ⟨by rw [h1, h3], h4⟩

/-- C10: the waiting queue of each colour is FIFO.  Starting from the queue
state set by `init_bakery` (on any bakery record whose queue array has its
declared length), for every sequence of `enqueue_customer` / `dequeue_customer`
calls of one colour that never has more than `MAX_CUSTOMERS` customers queued,
every `dequeue_customer` returns what the FIFO specification returns (the
customer enqueued earliest among those still queued, `NULL` when none is), and
the size field of that colour equals the number of customers still queued. -/
theorem queue_is_fifo (b0 : BakeryState) (T : Int) (c : CustomerColor) (ops : List QueueOp)
    (hlen : (queue_of b0 c).length = MAX_CUSTOMERS)
    (hcap : within_capacity [] ops = true) :
    (run_queue_ops c (init_bakery_on b0 T) ops).2 = (fifo_spec [] ops).2 ∧
      queue_size_of (run_queue_ops c (init_bakery_on b0 T) ops).1 c
        = ((fifo_spec [] ops).1.length : Int) := by
  obtain ⟨h1, h2⟩ :=
    run_queue_ops_refines c ops (init_bakery_on b0 T) [] (init_bakery_on_rep b0 T c hlen) hcap
  refine ⟨h1, ?_⟩
  obtain ⟨_, _, _, _, _, _, _, hsize, _, _, _⟩ := h2
  exact hsize

/-- Witness of `queue_is_fifo`: two red customers enqueued, three dequeues. -/
theorem queue_is_fifo_witness :
    (queue_of bakery_zero CustomerColor.RED).length = MAX_CUSTOMERS ∧
    within_capacity [] [QueueOp.enqueue 5, QueueOp.enqueue 7, QueueOp.dequeue,
      QueueOp.dequeue, QueueOp.dequeue] = true ∧
    (run_queue_ops CustomerColor.RED (init_bakery_on bakery_zero 5)
        [QueueOp.enqueue 5, QueueOp.enqueue 7, QueueOp.dequeue, QueueOp.dequeue,
          QueueOp.dequeue]).2
      = (fifo_spec [] [QueueOp.enqueue 5, QueueOp.enqueue 7, QueueOp.dequeue,
          QueueOp.dequeue, QueueOp.dequeue]).2 ∧
    queue_size_of (run_queue_ops CustomerColor.RED (init_bakery_on bakery_zero 5)
        [QueueOp.enqueue 5, QueueOp.enqueue 7, QueueOp.dequeue, QueueOp.dequeue,
          QueueOp.dequeue]).1 CustomerColor.RED
      = ((fifo_spec [] [QueueOp.enqueue 5, QueueOp.enqueue 7, QueueOp.dequeue,
          QueueOp.dequeue, QueueOp.dequeue]).1.length : Int) :=
  ⟨by decide, by decide,
    queue_is_fifo bakery_zero 5 CustomerColor.RED _ (by decide) (by decide)⟩

/-- Witness of `can_enter_rule`: the state after RED#1 entered, asked for BLUE. -/
theorem can_enter_rule_witness :
    ∃ s : System, run (initial 2 [RED, BLUE]) [arrive 0] = some s ∧
      Reachable 2 [RED, BLUE] s ∧
      (s.bakery.customers_inside = 0 ↔
        (s.bakery.red_count = 0 ∧ s.bakery.blue_count = 0)) ∧
      (can_enter s.bakery BLUE = true ↔
        ((s.bakery.red_count = 0 ∧ s.bakery.blue_count = 0) ∨
          color_count s.bakery BLUE < color_count s.bakery (other_color BLUE))) :=
  ⟨_, rfl, ⟨[arrive 0], rfl⟩, can_enter_rule 2 [RED, BLUE] _ ⟨[arrive 0], rfl⟩ BLUE⟩

/-- Witness of `counts_within_bounds`: two tables, RED#1 and BLUE#1 seated. -/
theorem counts_within_bounds_witness :
    (1 : Int) ≤ 2 ∧
    ∃ s : System, Reachable 2 [RED, BLUE, RED] s ∧
      run (initial 2 [RED, BLUE, RED]) [arrive 0, arrive 1] = some s ∧
      0 ≤ s.bakery.red_count ∧ 0 ≤ s.bakery.blue_count ∧
      0 ≤ s.bakery.free_tables ∧ s.bakery.free_tables ≤ 2 :=
  ⟨by decide, _, ⟨[arrive 0, arrive 1], rfl⟩, rfl,
    counts_within_bounds 2 (by decide) [RED, BLUE, RED] _ ⟨[arrive 0, arrive 1], rfl⟩⟩

/-- Witness of `table_exclusivity`: two tables, RED#1 and BLUE#1 seated. -/
theorem table_exclusivity_witness :
    ∃ s : System, Reachable 2 [RED, BLUE, RED] s ∧
      run (initial 2 [RED, BLUE, RED]) [arrive 0, arrive 1] = some s ∧
      (∀ (i j : Nat) (thi thj : Thread),
        s.threads[i]? = some thi → s.threads[j]? = some thj →
        seated thi → seated thj → thi.table_id = thj.table_id → i = j) ∧
      (∀ k : Nat, k < MAX_TABLES →
        (s.bakery.tables[k]? = some true ↔
          ∃ (i : Nat) (th : Thread),
            s.threads[i]? = some th ∧ seated th ∧ th.table_id = (k : Int))) :=
  ⟨_, ⟨[arrive 0, arrive 1], rfl⟩, rfl,
    table_exclusivity 2 [RED, BLUE, RED] _ ⟨[arrive 0, arrive 1], rfl⟩⟩

/-- Witness of `entry_finds_table`: three tables, RED#1 seated, BLUE#1 (thread 1)
about to enter. -/
theorem entry_finds_table_witness :
    (3 : Int) ≤ (MAX_TABLES : Int) ∧
    ∃ (s : System) (th : Thread), Reachable 3 [RED, BLUE] s ∧
      run (initial 3 [RED, BLUE]) [arrive 0] = some s ∧ s.threads[1]? = some th ∧
      s.bakery.free_tables > 0 ∧
      ∃ k : Nat, find_free_table s.bakery = (k : Int) ∧ (k : Int) < 3 ∧
        s.bakery.tables[k]? = some false ∧
        (∃ (b' : BakeryState) (th' : Thread), take_table s.bakery th = some (b', th') ∧
          th'.table_id = (k : Int) ∧ th'.customer.has_table = true ∧
          b'.tables = s.bakery.tables.set k true) ∧
        (can_enter s.bakery th.customer.color = true →
          arrive_section s.bakery 1 th = take_table s.bakery th) ∧
        woken_section s.bakery th = take_table s.bakery th :=
  ⟨by decide, _, _, ⟨[arrive 0], rfl⟩, rfl, rfl, by decide,
    entry_finds_table 3 (by decide) [RED, BLUE] _ ⟨[arrive 0], rfl⟩ (by decide) 1 _⟩


/-! ## Release, departure and re-evaluation in `src_ds.c` -/

theorem take_table_defined {T : Int} (hT : T ≤ (MAX_TABLES : Int)) {s : System}
    (hinv : Inv T s) (hfree : s.bakery.free_tables > 0) (th : Thread) :
    ∃ (b' : BakeryState) (th' : Thread), take_table s.bakery th = some (b', th') := by
  have hocc := hinv.occ
  have hfr := hinv.free
  have hcnt10 : s.bakery.tables.count true < MAX_TABLES := by
    have : ((s.bakery.tables.count true : Nat) : Int) < (MAX_TABLES : Int) := by omega
    exact_mod_cast this
  rcases find_free_table_from_spec s.bakery.tables MAX_TABLES 0 with
    ⟨_, h2⟩ | ⟨k, h1, _, h3, _, _⟩
  · exfalso
    have := prefix_true_le_count s.bakery.tables MAX_TABLES
      (fun j hj => h2 j (Nat.zero_le j) (by omega))
    omega
  · have hf : find_free_table s.bakery = (k : Int) := h1
    have hk10 : k < MAX_TABLES := by omega
    cases htt : take_table s.bakery th with
    | none =>
      exfalso
      unfold take_table at htt
      simp only [] at htt
      have htab : ∀ b1 : BakeryState, b1.tables = s.bakery.tables →
          find_free_table b1 = find_free_table s.bakery := by
        intro b1 hb1
        unfold find_free_table
        rw [hb1]
      rw [htab _ (by unfold count_incr; split <;> rfl), hf] at htt
      have hk : (0 : Int) ≤ (k : Int) ∧ (k : Int) < (MAX_TABLES : Int) :=
        ⟨Int.natCast_nonneg k, by exact_mod_cast hk10⟩
      rw [if_pos hk] at htt
      simp at htt
    | some r => exact ⟨r.1, r.2, rfl⟩

/-- C14 as stated fails: in Scenario A the departure of RED#1 releases RED#2
(`red_sem` goes from 0 to 1), yet after that step the red queue still has size
1 with RED#2 at its head, `red_count` is 0 and RED#2 is still blocked: the
releasing step neither dequeued nor counted the released customer. -/
theorem release_neither_dequeues_nor_counts :
    ∃ s4 s5 : System,
      run (initial 2 [RED, BLUE, RED]) [arrive 0, arrive 1, arrive 2, depart 1] = some s4 ∧
      step s4 (depart 0) = some s5 ∧
      s4.bakery.red_sem = 0 ∧ s5.bakery.red_sem = 1 ∧
      s4.bakery.red_queue_size = 1 ∧ s5.bakery.red_queue_size = 1 ∧
      s5.bakery.red_queue.getD s5.bakery.red_queue_front.toNat none = some 2 ∧
      s5.bakery.red_count = 0 ∧
      s5.threads.map (fun th => th.pc) = [Pc.done, Pc.done, Pc.blocked] :=
  ⟨_, _, rfl, rfl, by decide, by decide, by decide, by decide, by decide, by decide,
    by decide⟩

/-- C14 as the code behaves: `try_balance_entry` leaves both colour counts as
they are (it only posts a semaphore); the count of the released colour is
incremented by the woken customer itself, in its second critical section, which
in a reachable state with `free_tables > 0` (and `T ≤ MAX_TABLES`) is defined
and adds exactly one to the count of its colour and nothing to the other. -/
theorem woken_customer_counts_itself (T : Int) (hT : T ≤ (MAX_TABLES : Int))
    (colors : List CustomerColor) (s : System) (h : Reachable T colors s)
    (hfree : s.bakery.free_tables > 0) (th : Thread) :
    (∀ (b : BakeryState) (c : CustomerColor),
        color_count (try_balance_entry b) c = color_count b c) ∧
    ∃ (b' : BakeryState) (th' : Thread), woken_section s.bakery th = some (b', th') ∧
      color_count b' th.customer.color = color_count s.bakery th.customer.color + 1 ∧
      color_count b' (other_color th.customer.color)
        = color_count s.bakery (other_color th.customer.color) ∧
      th'.customer.has_table = true ∧ th'.pc = Pc.eating := by
  constructor
  · intro b c
    obtain ⟨_, _, _, e4, e5⟩ := try_balance_entry_core b
    cases c
    · exact e4
    · exact e5
  · obtain ⟨b', th', htt⟩ := take_table_defined hT (reachable_inv h) hfree th
    obtain ⟨_, _, _, _, _, _, _, _, hred, hblue, hpc, _, hhas, _⟩ := take_table_effect htt
    refine ⟨b', th', ?_, ?_, ?_, hhas, hpc⟩
    · unfold woken_section
      rw [if_pos hfree, htt]
    · cases hc : th.customer.color <;> simp only [color_count] <;> rw [hc] at hred hblue <;>
        simp_all
    · cases hc : th.customer.color <;> simp only [color_count, other_color] <;>
        rw [hc] at hred hblue <;> simp_all

/-- Witness of `woken_customer_counts_itself`: Scenario A with two tables, RED#2
(thread 2) woken after both departures. -/
theorem woken_customer_counts_itself_witness :
    (2 : Int) ≤ (MAX_TABLES : Int) ∧
    ∃ (s : System) (th : Thread), Reachable 2 [RED, BLUE, RED] s ∧
      run (initial 2 [RED, BLUE, RED])
        [arrive 0, arrive 1, arrive 2, depart 1, depart 0, wake 2] = some s ∧
      s.threads[2]? = some th ∧ s.bakery.free_tables > 0 ∧
      (∀ (b : BakeryState) (c : CustomerColor),
        color_count (try_balance_entry b) c = color_count b c) ∧
      ∃ (b' : BakeryState) (th' : Thread), woken_section s.bakery th = some (b', th') ∧
        color_count b' th.customer.color = color_count s.bakery th.customer.color + 1 ∧
        color_count b' (other_color th.customer.color)
          = color_count s.bakery (other_color th.customer.color) ∧
        th'.customer.has_table = true ∧ th'.pc = Pc.eating :=
  ⟨by decide, _, _, ⟨[arrive 0, arrive 1, arrive 2, depart 1, depart 0, wake 2], rfl⟩, rfl,
    rfl, by decide,
    woken_customer_counts_itself 2 (by decide) [RED, BLUE, RED] _
      ⟨[arrive 0, arrive 1, arrive 2, depart 1, depart 0, wake 2], rfl⟩ (by decide) _⟩

theorem try_balance_entry_queues (b : BakeryState) :
    (try_balance_entry b).red_queue = b.red_queue ∧
    (try_balance_entry b).red_queue_front = b.red_queue_front ∧
    (try_balance_entry b).red_queue_rear = b.red_queue_rear ∧
    (try_balance_entry b).red_queue_size = b.red_queue_size ∧
    (try_balance_entry b).blue_queue = b.blue_queue ∧
    (try_balance_entry b).blue_queue_front = b.blue_queue_front ∧
    (try_balance_entry b).blue_queue_rear = b.blue_queue_rear ∧
    (try_balance_entry b).blue_queue_size = b.blue_queue_size := by
  unfold try_balance_entry
  split_ifs <;> simp

/-- C16: the departure section of a seated customer of colour `C` at table `t`
is defined, takes one off `count[C]` and `customers_inside`, adds one to
`free_tables`, sets `tables[t]` to false, and leaves the count of the other
colour, every other `tables[]` entry and both waiting queues as they were; the
call of `try_balance_entry` changes none of these fields on any bakery. -/
theorem departure_frame (b : BakeryState) (th : Thread)
    (hlen : b.tables.length = MAX_TABLES) (h0 : 0 ≤ th.table_id)
    (h1 : th.table_id < (MAX_TABLES : Int)) :
    (∃ b' : BakeryState,
      depart_section b th = some (b', { th with pc := Pc.done }) ∧
      color_count b' th.customer.color = color_count b th.customer.color - 1 ∧
      color_count b' (other_color th.customer.color)
        = color_count b (other_color th.customer.color) ∧
      b'.customers_inside = b.customers_inside - 1 ∧
      b'.free_tables = b.free_tables + 1 ∧
      b'.tables[th.table_id.toNat]? = some false ∧
      (∀ k : Nat, k ≠ th.table_id.toNat → b'.tables[k]? = b.tables[k]?) ∧
      b'.red_queue = b.red_queue ∧ b'.red_queue_front = b.red_queue_front ∧
      b'.red_queue_rear = b.red_queue_rear ∧ b'.red_queue_size = b.red_queue_size ∧
      b'.blue_queue = b.blue_queue ∧ b'.blue_queue_front = b.blue_queue_front ∧
      b'.blue_queue_rear = b.blue_queue_rear ∧ b'.blue_queue_size = b.blue_queue_size) ∧
    (∀ b0 : BakeryState,
      (try_balance_entry b0).red_count = b0.red_count ∧
      (try_balance_entry b0).blue_count = b0.blue_count ∧
      (try_balance_entry b0).customers_inside = b0.customers_inside ∧
      (try_balance_entry b0).free_tables = b0.free_tables ∧
      (try_balance_entry b0).tables = b0.tables ∧
      (try_balance_entry b0).red_queue = b0.red_queue ∧
      (try_balance_entry b0).red_queue_front = b0.red_queue_front ∧
      (try_balance_entry b0).red_queue_rear = b0.red_queue_rear ∧
      (try_balance_entry b0).red_queue_size = b0.red_queue_size ∧
      (try_balance_entry b0).blue_queue = b0.blue_queue ∧
      (try_balance_entry b0).blue_queue_front = b0.blue_queue_front ∧
      (try_balance_entry b0).blue_queue_rear = b0.blue_queue_rear ∧
      (try_balance_entry b0).blue_queue_size = b0.blue_queue_size) := by
  constructor
  · have hdef : ∃ b' : BakeryState, depart_section b th = some (b', { th with pc := Pc.done }) := by
      unfold depart_section
      simp only []
      rw [if_pos ⟨h0, h1⟩]
      exact ⟨_, rfl⟩
    obtain ⟨b', hb'⟩ := hdef
    obtain ⟨_, _, htab, hin, hfr, hred, hblue, _⟩ := depart_section_effect hb'
    have hq : b'.red_queue = b.red_queue ∧ b'.red_queue_front = b.red_queue_front ∧
        b'.red_queue_rear = b.red_queue_rear ∧ b'.red_queue_size = b.red_queue_size ∧
        b'.blue_queue = b.blue_queue ∧ b'.blue_queue_front = b.blue_queue_front ∧
        b'.blue_queue_rear = b.blue_queue_rear ∧ b'.blue_queue_size = b.blue_queue_size := by
      unfold depart_section at hb'
      simp only [] at hb'
      rw [if_pos ⟨h0, h1⟩] at hb'
      simp only [Option.some.injEq, Prod.mk.injEq] at hb'
      obtain ⟨e, _⟩ := hb'
      subst e
      simp only [(try_balance_entry_queues _).1, (try_balance_entry_queues _).2.1,
        (try_balance_entry_queues _).2.2.1, (try_balance_entry_queues _).2.2.2.1,
        (try_balance_entry_queues _).2.2.2.2.1, (try_balance_entry_queues _).2.2.2.2.2.1,
        (try_balance_entry_queues _).2.2.2.2.2.2.1, (try_balance_entry_queues _).2.2.2.2.2.2.2]
      unfold count_decr
      split <;> simp
    have htlen : th.table_id.toNat < b.tables.length := by
      rw [hlen]
      omega
    refine ⟨b', hb', ?_, ?_, hin, hfr, ?_, ?_, hq⟩
    · cases hc : th.customer.color <;> simp only [color_count] <;> rw [hc] at hred hblue <;>
        simp_all
    · cases hc : th.customer.color <;> simp only [color_count, other_color] <;>
        rw [hc] at hred hblue <;> simp_all
    · rw [htab, List.getElem?_set]
      simp [htlen]
    · intro k hk
      rw [htab, List.getElem?_set, if_neg (fun e => hk e.symm)]
  · intro b0
    obtain ⟨e1, e2, e3, e4, e5⟩ := try_balance_entry_core b0
    obtain ⟨q1, q2, q3, q4, q5, q6, q7, q8⟩ := try_balance_entry_queues b0
    exact ⟨e4, e5, e2, e3, e1, q1, q2, q3, q4, q5, q6, q7, q8⟩

/-- Witness of `departure_frame`: RED#1 seated at table 0 of two, then leaving. -/
theorem departure_frame_witness :
    ∃ (s : System) (th : Thread),
      run (initial 2 [RED]) [arrive 0] = some s ∧ s.threads[0]? = some th ∧
      s.bakery.tables.length = MAX_TABLES ∧ 0 ≤ th.table_id ∧
      th.table_id < (MAX_TABLES : Int) ∧
      (∃ b' : BakeryState,
        depart_section s.bakery th = some (b', { th with pc := Pc.done }) ∧
        color_count b' th.customer.color = color_count s.bakery th.customer.color - 1 ∧
        color_count b' (other_color th.customer.color)
          = color_count s.bakery (other_color th.customer.color) ∧
        b'.customers_inside = s.bakery.customers_inside - 1 ∧
        b'.free_tables = s.bakery.free_tables + 1 ∧
        b'.tables[th.table_id.toNat]? = some false ∧
        (∀ k : Nat, k ≠ th.table_id.toNat → b'.tables[k]? = s.bakery.tables[k]?) ∧
        b'.red_queue = s.bakery.red_queue ∧ b'.red_queue_front = s.bakery.red_queue_front ∧
        b'.red_queue_rear = s.bakery.red_queue_rear ∧
        b'.red_queue_size = s.bakery.red_queue_size ∧
        b'.blue_queue = s.bakery.blue_queue ∧
        b'.blue_queue_front = s.bakery.blue_queue_front ∧
        b'.blue_queue_rear = s.bakery.blue_queue_rear ∧
        b'.blue_queue_size = s.bakery.blue_queue_size) ∧
      (∀ b0 : BakeryState,
        (try_balance_entry b0).red_count = b0.red_count ∧
        (try_balance_entry b0).blue_count = b0.blue_count ∧
        (try_balance_entry b0).customers_inside = b0.customers_inside ∧
        (try_balance_entry b0).free_tables = b0.free_tables ∧
        (try_balance_entry b0).tables = b0.tables ∧
        (try_balance_entry b0).red_queue = b0.red_queue ∧
        (try_balance_entry b0).red_queue_front = b0.red_queue_front ∧
        (try_balance_entry b0).red_queue_rear = b0.red_queue_rear ∧
        (try_balance_entry b0).red_queue_size = b0.red_queue_size ∧
        (try_balance_entry b0).blue_queue = b0.blue_queue ∧
        (try_balance_entry b0).blue_queue_front = b0.blue_queue_front ∧
        (try_balance_entry b0).blue_queue_rear = b0.blue_queue_rear ∧
        (try_balance_entry b0).blue_queue_size = b0.blue_queue_size) :=
  ⟨_, _, rfl, rfl, by decide, by decide, by decide,
    departure_frame _ _ (by decide) (by decide) (by decide)⟩

/-- C19: whatever the bakery and whatever bound `fuel + 1 ≥ 1` is put on the
loop, `try_balance_entry` makes one pass through the body of its `while` loop
when `free_tables > 0` and none otherwise, and ends in the state computed by
`try_balance_entry`; that state is the bakery unchanged, or the bakery with
one post on `red_sem` (then `free_tables > 0` and `red_queue_size > 0`), or
the bakery with one post on `blue_sem` (then `free_tables > 0` and
`blue_queue_size > 0`); with `free_tables ≤ 0` it is the bakery unchanged. -/
theorem try_balance_entry_single_pass (b : BakeryState) (fuel : Nat) :
    (try_balance_entry_loop (fuel + 1) b).1 = try_balance_entry b ∧
    (try_balance_entry_loop (fuel + 1) b).2 = (if b.free_tables > 0 then 1 else 0) ∧
    (try_balance_entry_loop (fuel + 1) b).2 ≤ 1 ∧
    (try_balance_entry b = b ∨
      (try_balance_entry b = { b with red_sem := b.red_sem + 1 } ∧
        b.free_tables > 0 ∧ b.red_queue_size > 0) ∨
      (try_balance_entry b = { b with blue_sem := b.blue_sem + 1 } ∧
        b.free_tables > 0 ∧ b.blue_queue_size > 0)) ∧
    (b.free_tables > 0 ∨ try_balance_entry b = b) := by
  have hbrk : (try_balance_entry_body b).2 = true := by
    unfold try_balance_entry_body
    split_ifs <;> rfl
  have hbody : b.free_tables > 0 → (try_balance_entry_body b).1 = try_balance_entry b := by
    intro hf
    unfold try_balance_entry_body try_balance_entry
    rw [if_pos hf]
    split_ifs <;> rfl
  by_cases hf : b.free_tables > 0
  · refine ⟨?_, ?_, ?_, ?_, Or.inl hf⟩
    · simp only [try_balance_entry_loop, if_pos hf, hbrk, if_true]
      exact hbody hf
    · simp only [try_balance_entry_loop, if_pos hf, hbrk, if_true]
    · simp only [try_balance_entry_loop, if_pos hf, hbrk, if_true]
      exact le_refl 1
    · unfold try_balance_entry
      rw [if_pos hf]
      split_ifs with h1 h2 h3 h4 h5
      · exact Or.inr (Or.inl ⟨rfl, hf, h1.2⟩)
      · exact Or.inr (Or.inr ⟨rfl, hf, h2.2⟩)
      · exact Or.inr (Or.inl ⟨rfl, hf, h4⟩)
      · exact Or.inr (Or.inr ⟨rfl, hf, h5⟩)
      · exact Or.inl rfl
      · exact Or.inl rfl
  · have hb : try_balance_entry b = b := by
      unfold try_balance_entry
      rw [if_neg hf]
    refine ⟨?_, ?_, ?_, Or.inl hb, Or.inr hb⟩
    · simp only [try_balance_entry_loop, if_neg hf]
      exact hb.symm
    · simp only [try_balance_entry_loop, if_neg hf]
    · simp only [try_balance_entry_loop, if_neg hf]
      exact Nat.zero_le 1

/-- C20 as stated fails: the reachable state with `red_count = blue_count = 1`,
one free table and RED#2 recorded in the red queue satisfies
`customers_inside = red_count + blue_count`; there `try_balance_entry` posts
`red_sem` although `can_enter(RED)` is false. -/
theorem tie_release_against_can_enter :
    ∃ s : System, Reachable 3 [RED, BLUE, RED, RED] s ∧
      s.bakery.red_count = 1 ∧ s.bakery.blue_count = 1 ∧ s.bakery.free_tables = 1 ∧
      s.bakery.customers_inside = s.bakery.red_count + s.bakery.blue_count ∧
      posts s.bakery RED ∧ can_enter s.bakery RED = false := by
  refine ⟨_, ⟨[arrive 0, arrive 1, arrive 2, depart 0, arrive 3, wake 2, enter 2, depart 3],
    rfl⟩, ?_⟩
  simp only [posts]
  decide

/-- C20 as the code behaves: on a bakery with
`customers_inside = red_count + blue_count`, if `try_balance_entry` posts the
semaphore of colour `C` then `can_enter(C)` is true in that state or the two
counts are equal (the tie branch, which lets either colour in). -/
theorem release_consistent_up_to_tie (b : BakeryState) (c : CustomerColor)
    (hin : b.customers_inside = b.red_count + b.blue_count) (hp : posts b c) :
    can_enter b c = true ∨ b.red_count = b.blue_count := by
  unfold posts at hp
  unfold try_balance_entry at hp
  unfold can_enter
  by_cases heq : b.red_count = b.blue_count
  · exact Or.inr heq
  · left
    cases c <;> simp only [sem_of] at hp <;> split_ifs at hp <;> simp_all

/-- Witness of `release_consistent_up_to_tie`: three tables, BLUE#1 inside and
RED#2 recorded in the red queue after RED#1 left. -/
theorem release_consistent_up_to_tie_witness :
    ∃ s : System,
      run (initial 3 [RED, BLUE, RED]) [arrive 0, arrive 1, arrive 2, depart 0] = some s ∧
      s.bakery.customers_inside = s.bakery.red_count + s.bakery.blue_count ∧
      posts s.bakery RED ∧
      (can_enter s.bakery RED = true ∨ s.bakery.red_count = s.bakery.blue_count) :=
  ⟨_, rfl, by decide, by simp only [posts]; decide,
    release_consistent_up_to_tie _ RED (by decide) (by simp only [posts]; decide)⟩

/-! ## The step machine of `src_GUI01.c` -/

namespace GUI01

/-- C11 as stated fails: in `src_GUI01.c` RED#2 is admitted directly in the
reachable state `red_count = blue_count = 1`, where neither
`red_count < blue_count` nor both counts are zero; in `src_GUI2.c` a red
customer is counted in the state `red_count = 1`, `blue_count = 0`. -/
theorem admission_outside_strict_rule :
    (∃ s s1 : State,
      run (initial [RED, BLUE, RED])
        [Action.enqueue 0, Action.arrive 0, Action.enqueue 1, Action.arrive 1,
          Action.enqueue 2] = some s ∧
      s.red_count = 1 ∧ s.blue_count = 1 ∧
      ¬ (s.red_count < s.blue_count ∨ (s.red_count = 0 ∧ s.blue_count = 0)) ∧
      step s (Action.arrive 2) = some s1 ∧ s1.red_count = 2 ∧
      s1.threads.map (fun th => th.customer.in_bakery) = [true, true, true]) ∧
    ¬ ((1 : Int) < 0 ∨ ((1 : Int) = 0 ∧ (0 : Int) = 0)) ∧
    GUI2.customer_thread_arrive { red_count := 1, blue_count := 0 } RED
      = { red_count := 2, blue_count := 0 } :=
  ⟨⟨_, _, rfl, by decide, by decide, by decide, rfl, by decide, by decide⟩, by decide,
    by decide⟩

/-- C11 as the code behaves: in `src_GUI01.c` the first locked section of
`customer_thread` increments `red_count` (by one) exactly when the customer is
red and `red_count ≤ blue_count`, and `blue_count` exactly when the customer is
blue and `blue_count ≤ red_count`; otherwise the counts are unchanged.  In
`src_GUI2.c` the count of the customer colour is incremented unconditionally. -/
theorem direct_admission_rule (s : State) (i : Nat) (th : Thread) (g : GUI2.Counts) :
    ((arrive_section s i th).red_count = s.red_count + 1 ↔
        (th.customer.color = RED ∧ s.red_count ≤ s.blue_count)) ∧
    ((arrive_section s i th).red_count = s.red_count ∨
        (arrive_section s i th).red_count = s.red_count + 1) ∧
    ((arrive_section s i th).blue_count = s.blue_count + 1 ↔
        (th.customer.color = BLUE ∧ s.blue_count ≤ s.red_count)) ∧
    ((arrive_section s i th).blue_count = s.blue_count ∨
        (arrive_section s i th).blue_count = s.blue_count + 1) ∧
    GUI2.customer_thread_arrive g RED
      = { red_count := g.red_count + 1, blue_count := g.blue_count } ∧
    GUI2.customer_thread_arrive g BLUE
      = { red_count := g.red_count, blue_count := g.blue_count + 1 } := by
  refine ⟨?_, ?_, ?_, ?_, rfl, rfl⟩ <;> unfold arrive_section <;>
    cases hc : th.customer.color <;> simp <;> split_ifs <;> simp_all

/-- C12 (violated by the code): with customers RED#0, BLUE#1, BLUE#2, BLUE#3,
RED#4, after RED#0, BLUE#1, BLUE#2 and RED#4 entered directly and BLUE#3 went to
wait, the departure of RED#0 posts `blue_sem`; the woken BLUE#3 then increments
`blue_count` in the state `red_count = 1`, `blue_count = 2`, where
`blue_count ≤ red_count` is false, and the counts become 1 and 3. -/
theorem woken_admission_breaks_balance :
    ∃ s s1 : State,
      run (initial [RED, BLUE, BLUE, BLUE, RED])
        [Action.enqueue 0, Action.arrive 0, Action.enqueue 1, Action.arrive 1,
          Action.enqueue 2, Action.arrive 2, Action.enqueue 3, Action.arrive 3,
          Action.enqueue 4, Action.arrive 4, Action.permit 0, Action.seat 0,
          Action.depart 0, Action.wake 3] = some s ∧
      s.red_count = 1 ∧ s.blue_count = 2 ∧ ¬ (s.blue_count ≤ s.red_count) ∧
      s.threads.map (fun th => th.pc)
        = [Pc.leaving, Pc.admitted, Pc.admitted, Pc.woken, Pc.admitted] ∧
      step s (Action.enter 3) = some s1 ∧
      s1.red_count = 1 ∧ s1.blue_count = 3 ∧ |s1.red_count - s1.blue_count| > 1 :=
  ⟨_, _, rfl, by decide, by decide, by decide, by decide, rfl, by decide, by decide,
    by decide⟩

/-- C13 (violated by the code): with customers RED#0, RED#1, BLUE#2, RED#3, when
RED#3 enters directly the red queue holds the ids 1 and 3; the `dequeue` of the
direct entry returns the front id 1, not the id 3 of the entering customer.
Afterwards RED#3 is inside with its id still in the queue, and RED#1 is blocked
waiting with its id no longer in the queue. -/
theorem direct_entry_dequeues_front :
    ∃ s s1 : State,
      run (initial [RED, RED, BLUE, RED])
        [Action.enqueue 0, Action.arrive 0, Action.enqueue 1, Action.arrive 1,
          Action.enqueue 2, Action.arrive 2, Action.enqueue 3] = some s ∧
      queue_ids s.red_queue = [1, 3] ∧ (dequeue s.red_queue).1 = 1 ∧
      step s (Action.arrive 3) = some s1 ∧
      queue_ids s1.red_queue = [3] ∧ queue_ids s1.blue_queue = [] ∧
      s1.threads.map (fun th => (th.customer.id, th.customer.in_bakery, th.pc))
        = [(0, true, Pc.admitted), (1, false, Pc.blocked), (2, true, Pc.admitted),
           (3, true, Pc.admitted)] :=
  ⟨_, _, rfl, by decide, by decide, rfl, by decide, by decide, by decide⟩

namespace Slots

/-- C17 (violated by the code): `create_customer` hands `customers[0]` to a
second thread while the thread already started on it has neither been admitted
nor had its widget created, so that the test of line 187 still passes.  With a
red and a blue customer created this way, both admitted and seated,
`tables_used` is 2 while one record has `at_table` set.  When the red customer
departs before the blue one is seated, the record ends with `at_table` set and
`in_bakery` clear, and the departure has decremented `blue_count`, leaving it
at 0 with the blue customer at its table.  When the widget callback runs
between the two calls of `create_customer`, the second thread gets
`customers[1]` and `tables_used` is the number of records with `at_table`
set. -/
theorem shared_record_breaks_table_invariant :
    ∃ p q r : Program,
      run init_bakery
        [Action.create RED, Action.start 0, Action.create BLUE, Action.start 1,
          Action.arrive 0, Action.arrive 1, Action.permit 0, Action.seat 0,
          Action.permit 1, Action.seat 1] = some p ∧
      p.workers = [{ slot := 0, color := some RED, pc := Pc.staying },
                   { slot := 0, color := some BLUE, pc := Pc.staying }] ∧
      p.tables_used = 2 ∧ at_tables p = 1 ∧
      run init_bakery
        [Action.create RED, Action.start 0, Action.create BLUE, Action.start 1,
          Action.arrive 0, Action.arrive 1, Action.permit 0, Action.seat 0,
          Action.depart 0, Action.permit 1, Action.seat 1] = some q ∧
      q.workers = [{ slot := 0, color := some RED, pc := Pc.leaving },
                   { slot := 0, color := some BLUE, pc := Pc.staying }] ∧
      q.customers[0]? = some
        { customer := { id := 0, color := BLUE, in_bakery := false, at_table := true,
                        table_num := 0 },
          has_widget := false } ∧
      q.red_count = 1 ∧ q.blue_count = 0 ∧
      run init_bakery
        [Action.create RED, Action.start 0, Action.idle, Action.create BLUE, Action.start 1,
          Action.arrive 0, Action.arrive 1, Action.permit 0, Action.seat 0,
          Action.permit 1, Action.seat 1] = some r ∧
      r.workers = [{ slot := 0, color := some RED, pc := Pc.staying },
                   { slot := 1, color := some BLUE, pc := Pc.staying }] ∧
      r.tables_used = 2 ∧ at_tables r = 2 :=
  ⟨_, _, _, rfl, by decide, by decide, by decide, rfl, by decide, by decide, by decide,
    by decide, rfl, by decide, by decide, by decide⟩

end Slots

end GUI01

namespace Src0

theorem initial_thread_at_gate (tables : Nat) (colors : List Bool) (i : Nat) (th : Thread)
    (h : (initial tables colors).threads[i]? = some th) : th.pc = Pc.gate_wait := by
  simp only [initial, List.getElem?_map] at h
  cases hc : colors[i]? with
  | none => rw [hc] at h; simp at h
  | some c =>
    rw [hc] at h
    simp only [Option.map_some', Option.some.injEq] at h
    subst h
    rfl

theorem initial_step_blocked (tables : Nat) (colors : List Bool) (i : Nat) :
    step (initial tables colors) i = none := by
  unfold step
  split
  · rfl
  · rename_i th hth
    have hpc := initial_thread_at_gate tables colors i th hth
    rw [hpc]
    simp [initial]

/-- C15 (violated by the code): from the state set up by `main` of `src0.c` and
`src1.c` (both colour semaphores at 0), whatever the number of tables and the
colours of the customers, no thread can execute a single statement: every
customer is blocked in its first `sem_wait`.  Only the empty schedule runs, and
the counters `reds` and `blues` stay at 0. -/
theorem startup_deadlock (tables : Nat) (colors : List Bool) (schedule : List Nat) :
    run (initial tables colors) schedule
      = (match schedule with
         | [] => some (initial tables colors)
         | _ :: _ => none) ∧
    (initial tables colors).reds = 0 ∧ (initial tables colors).blues = 0 ∧
    (initial TABLES src0_colors).threads.map (fun th => th.pc)
      = List.replicate 10 Pc.gate_wait ∧
    (initial TABLES src1_colors).threads.map (fun th => th.pc)
      = List.replicate 6 Pc.gate_wait := by
  refine ⟨?_, rfl, rfl, by decide, by decide⟩
  cases schedule with
  | nil => rfl
  | cons i rest =>
    simp only [run]
    rw [initial_step_blocked]

end Src0


/-! ## Tie-break, coupling of admission and seating, queue growth in `src_ds.c` -/

/-- C21: on a bakery with `free_tables > 0` and `red_count = blue_count` (queue
sizes being non-negative), `try_balance_entry` posts `red_sem` and not
`blue_sem` whenever `red_queue_size > 0`, whatever `blue_queue_size` is;
it posts `blue_sem` exactly when `red_queue_size = 0` and `blue_queue_size > 0`,
and then does not post `red_sem`; with both sizes zero it changes nothing. -/
theorem tie_break_prefers_red (b : BakeryState) (hfree : b.free_tables > 0)
    (heq : b.red_count = b.blue_count) (hq : 0 ≤ b.red_queue_size) :
    (b.red_queue_size > 0 →
      try_balance_entry b = { b with red_sem := b.red_sem + 1 } ∧
      (try_balance_entry b).blue_sem = b.blue_sem) ∧
    ((try_balance_entry b).blue_sem = b.blue_sem + 1 ↔
      (b.red_queue_size = 0 ∧ b.blue_queue_size > 0)) ∧
    ((try_balance_entry b).blue_sem = b.blue_sem + 1 →
      (try_balance_entry b).red_sem = b.red_sem) ∧
    (b.red_queue_size = 0 → b.blue_queue_size = 0 → try_balance_entry b = b) := by
  have h1 : ¬ (b.red_count < b.blue_count ∧ b.red_queue_size > 0) := by
    rintro ⟨h, _⟩; omega
  have h2 : ¬ (b.blue_count < b.red_count ∧ b.blue_queue_size > 0) := by
    rintro ⟨h, _⟩; omega
  unfold try_balance_entry
  rw [if_pos hfree, if_neg h1, if_neg h2, if_pos heq]
  refine ⟨?_, ?_, ?_, ?_⟩
  · intro hr
    rw [if_pos hr]
    exact ⟨rfl, rfl⟩
  · constructor
    · intro hp
      by_cases hr : b.red_queue_size > 0
      · rw [if_pos hr] at hp
        simp at hp
      · rw [if_neg hr] at hp
        by_cases hb : b.blue_queue_size > 0
        · exact ⟨by omega, hb⟩
        · rw [if_neg hb] at hp
          simp at hp
    · rintro ⟨hr, hb⟩
      have hr' : ¬ b.red_queue_size > 0 := by omega
      rw [if_neg hr', if_pos hb]
  · intro hp
    by_cases hr : b.red_queue_size > 0
    · rw [if_pos hr] at hp
      simp at hp
    · rw [if_neg hr]
      split <;> rfl
  · intro hr hb
    have hr' : ¬ b.red_queue_size > 0 := by omega
    have hb' : ¬ b.blue_queue_size > 0 := by omega
    rw [if_neg hr', if_neg hb']

/-- Witness of `tie_break_prefers_red`: Scenario A after both departures, where
RED#2 is recorded in the red queue and both counts are zero. -/
theorem tie_break_prefers_red_witness :
    ∃ s : System,
      run (initial 2 [RED, BLUE, RED]) [arrive 0, arrive 1, arrive 2, depart 1, depart 0]
        = some s ∧
      s.bakery.free_tables > 0 ∧ s.bakery.red_count = s.bakery.blue_count ∧
      0 ≤ s.bakery.red_queue_size ∧
      (s.bakery.red_queue_size > 0 →
        try_balance_entry s.bakery = { s.bakery with red_sem := s.bakery.red_sem + 1 } ∧
        (try_balance_entry s.bakery).blue_sem = s.bakery.blue_sem) ∧
      ((try_balance_entry s.bakery).blue_sem = s.bakery.blue_sem + 1 ↔
        (s.bakery.red_queue_size = 0 ∧ s.bakery.blue_queue_size > 0)) ∧
      ((try_balance_entry s.bakery).blue_sem = s.bakery.blue_sem + 1 →
        (try_balance_entry s.bakery).red_sem = s.bakery.red_sem) ∧
      (s.bakery.red_queue_size = 0 → s.bakery.blue_queue_size = 0 →
        try_balance_entry s.bakery = s.bakery) :=
  ⟨_, rfl, by decide, by decide, by decide,
    tie_break_prefers_red _ (by decide) (by decide) (by decide)⟩

/-- C24: in every reachable state `customers_inside = red_count + blue_count`,
`customers_inside + free_tables = T`, the number of true entries of `tables[]`
is `customers_inside`, each colour count is the number of seated customers of
that colour, and every seated customer has `has_table` set and sits at an
occupied table: no customer is counted without holding a table. -/
theorem admission_coupled_with_seating (T : Int) (colors : List CustomerColor) (s : System)
    (h : Reachable T colors s) :
    s.bakery.customers_inside = s.bakery.red_count + s.bakery.blue_count ∧
    s.bakery.customers_inside + s.bakery.free_tables = T ∧
    (s.bakery.tables.count true : Int) = s.bakery.customers_inside ∧
    s.bakery.red_count = (s.threads.countP (eating_in RED) : Int) ∧
    s.bakery.blue_count = (s.threads.countP (eating_in BLUE) : Int) ∧
    (∀ (i : Nat) (th : Thread), s.threads[i]? = some th → th.pc = Pc.eating →
      th.customer.has_table = true ∧ 0 ≤ th.table_id ∧
        s.bakery.tables[th.table_id.toNat]? = some true) := by
  have hinv := reachable_inv h
  have hfree := hinv.free
  exact ⟨hinv.inside, by omega, hinv.occ, hinv.red, hinv.blue, hinv.seat⟩

/-- Witness of `admission_coupled_with_seating`: three tables, RED#1 and BLUE#1
seated, RED#2 enqueued. -/
theorem admission_coupled_with_seating_witness :
    ∃ s : System, Reachable 3 [RED, BLUE, RED] s ∧
      run (initial 3 [RED, BLUE, RED]) [arrive 0, arrive 1, arrive 2] = some s ∧
      s.bakery.customers_inside = s.bakery.red_count + s.bakery.blue_count ∧
      s.bakery.customers_inside + s.bakery.free_tables = 3 ∧
      (s.bakery.tables.count true : Int) = s.bakery.customers_inside ∧
      s.bakery.red_count = (s.threads.countP (eating_in RED) : Int) ∧
      s.bakery.blue_count = (s.threads.countP (eating_in BLUE) : Int) ∧
      (∀ (i : Nat) (th : Thread), s.threads[i]? = some th → th.pc = Pc.eating →
        th.customer.has_table = true ∧ 0 ≤ th.table_id ∧
          s.bakery.tables[th.table_id.toNat]? = some true) :=
  ⟨_, ⟨[arrive 0, arrive 1, arrive 2], rfl⟩, rfl,
    admission_coupled_with_seating 3 [RED, BLUE, RED] _ ⟨[arrive 0, arrive 1, arrive 2], rfl⟩⟩

/-- C27: in a reachable state, a woken customer that finds `free_tables = 0`
runs its second section without changing any bakery field; its `has_table`
stays false, so it skips the departure section and has terminated: afterwards
none of its steps is enabled.  With one table and customers RED#1, RED#2,
BLUE#1 such a state is reachable: RED#2 is released by the departure of RED#1
and BLUE#1 takes the table before RED#2 resumes. -/
theorem woken_without_table (T : Int) (colors : List CustomerColor) (s : System)
    (h : Reachable T colors s) (i : Nat) (th : Thread) (hth : s.threads[i]? = some th)
    (hpc : th.pc = Pc.woken) (hfree : s.bakery.free_tables = 0) :
    (th.customer.has_table = false ∧
      ∃ s1 : System, step s (enter i) = some s1 ∧ s1.bakery = s.bakery ∧
        s1.threads = s.threads.set i { th with pc := Pc.done } ∧
        step s1 (arrive i) = none ∧ step s1 (wake i) = none ∧
        step s1 (enter i) = none ∧ step s1 (depart i) = none) ∧
    (∃ (s0 : System) (th0 : Thread), Reachable 1 [RED, RED, BLUE] s0 ∧
      s0.threads[1]? = some th0 ∧ th0.pc = Pc.woken ∧ s0.bakery.free_tables = 0) := by
  constructor
  · have hinv := reachable_inv h
    have hno : th.customer.has_table = false :=
      hinv.fresh i th hth (by rw [hpc]; decide) (by rw [hpc]; decide)
    have hilen : i < s.threads.length := (List.getElem?_eq_some_iff.mp hth).1
    have hnf : ¬ s.bakery.free_tables > 0 := by omega
    refine ⟨hno, { bakery := s.bakery, threads := s.threads.set i { th with pc := Pc.done } },
      ?_, rfl, rfl, ?_, ?_, ?_, ?_⟩
    · simp only [step, hth, hpc, if_true, woken_section, if_neg hnf, commit, after_entry, hno]
      simp
    all_goals
      simp only [step, List.getElem?_set, if_true, hilen]
      simp
  · exact ⟨_, _, ⟨[arrive 0, arrive 1, depart 0, arrive 2, wake 1], rfl⟩, rfl, by decide,
      by decide⟩

/-- Witness of `woken_without_table`: the state described in its last part. -/
theorem woken_without_table_witness :
    ∃ (s : System) (th : Thread), Reachable 1 [RED, RED, BLUE] s ∧
      s.threads[1]? = some th ∧ th.pc = Pc.woken ∧ s.bakery.free_tables = 0 ∧
      (th.customer.has_table = false ∧
        ∃ s1 : System, step s (enter 1) = some s1 ∧ s1.bakery = s.bakery ∧
          s1.threads = s.threads.set 1 { th with pc := Pc.done } ∧
          step s1 (arrive 1) = none ∧ step s1 (wake 1) = none ∧
          step s1 (enter 1) = none ∧ step s1 (depart 1) = none) ∧
      (∃ (s0 : System) (th0 : Thread), Reachable 1 [RED, RED, BLUE] s0 ∧
        s0.threads[1]? = some th0 ∧ th0.pc = Pc.woken ∧ s0.bakery.free_tables = 0) :=
  ⟨_, _, ⟨[arrive 0, arrive 1, depart 0, arrive 2, wake 1], rfl⟩, rfl, by decide, by decide,
    woken_without_table 1 [RED, RED, BLUE] _
      ⟨[arrive 0, arrive 1, depart 0, arrive 2, wake 1], rfl⟩ 1 _ rfl (by decide) (by decide)⟩

theorem take_table_queue_size {b b' : BakeryState} {th th' : Thread} (c : CustomerColor)
    (h : take_table b th = some (b', th')) : queue_size_of b' c = queue_size_of b c := by
  unfold take_table at h
  simp only [] at h
  split at h
  · simp only [Option.some.injEq, Prod.mk.injEq] at h
    obtain ⟨hb, _⟩ := h
    subst hb
    unfold count_incr
    cases c <;> simp only [queue_size_of] <;> split <;> rfl
  · simp at h

theorem depart_section_queue_size {b b' : BakeryState} {th th' : Thread} (c : CustomerColor)
    (h : depart_section b th = some (b', th')) : queue_size_of b' c = queue_size_of b c := by
  unfold depart_section at h
  simp only [] at h
  split at h
  · simp only [Option.some.injEq, Prod.mk.injEq] at h
    obtain ⟨hb, _⟩ := h
    subst hb
    cases c <;> simp only [queue_size_of]
    · rw [(try_balance_entry_queues _).2.2.2.1]
      unfold count_decr
      split <;> rfl
    · rw [(try_balance_entry_queues _).2.2.2.2.2.2.2]
      unfold count_decr
      split <;> rfl
  · simp at h

theorem enqueue_customer_queue_size (b : BakeryState) (ptr : Nat) (c d : CustomerColor) :
    queue_size_of (enqueue_customer b ptr d) c
      = queue_size_of b c + (if d = c then 1 else 0) := by
  cases c <;> cases d <;> simp [queue_size_of, enqueue_customer]

theorem sem_wait_color_queue_size {b b' : BakeryState} {d : CustomerColor} (c : CustomerColor)
    (h : sem_wait_color b d = some b') : queue_size_of b' c = queue_size_of b c := by
  unfold sem_wait_color at h
  split_ifs at h <;> simp at h <;> subst h <;> cases c <;> rfl

theorem step_queue_size {s s1 : System} {a : Action} (c : CustomerColor)
    (h : step s a = some s1) :
    queue_size_of s1.bakery c
      = queue_size_of s.bakery c + (if enqueues_now c s a = true then 1 else 0) := by
  cases a with
  | arrive i =>
    simp only [step] at h
    split at h
    · simp at h
    · rename_i th hth
      split at h
      · rename_i hpc
        obtain ⟨b', th', hr, hs⟩ := commit_some h
        subst hs
        simp only [enqueues_now, hth, hpc, decide_True, Bool.true_and]
        unfold arrive_section at hr
        split at hr
        · rename_i hg
          rw [take_table_queue_size c hr]
          simp [hg.1, hg.2]
        · rename_i hg
          simp only [Option.some.injEq, Prod.mk.injEq] at hr
          obtain ⟨hb, _⟩ := hr
          subst hb
          rw [enqueue_customer_queue_size]
          have hg' : (decide (s.bakery.free_tables > 0) &&
              can_enter s.bakery th.customer.color) = false := by
            cases hx : (decide (s.bakery.free_tables > 0) &&
              can_enter s.bakery th.customer.color)
            · rfl
            · exfalso
              apply hg
              simpa using hx
          rw [hg']
          by_cases hc : th.customer.color = c <;> simp [hc]
      · simp at h
  | wake i =>
    simp only [step] at h
    split at h
    · simp at h
    · rename_i th hth
      split at h
      · obtain ⟨b', th', hr, hs⟩ := commit_some h
        subst hs
        cases hsem : sem_wait_color s.bakery th.customer.color with
        | none => rw [hsem] at hr; simp at hr
        | some b1 =>
          rw [hsem] at hr
          simp only [Option.map_some', Option.some.injEq, Prod.mk.injEq] at hr
          obtain ⟨hb, _⟩ := hr
          subst hb
          rw [sem_wait_color_queue_size c hsem]
          simp [enqueues_now]
      · simp at h
  | enter i =>
    simp only [step] at h
    split at h
    · simp at h
    · rename_i th hth
      split at h
      · obtain ⟨b', th', hr, hs⟩ := commit_some h
        subst hs
        unfold woken_section at hr
        split at hr
        · rw [take_table_queue_size c hr]
          simp [enqueues_now]
        · simp only [Option.some.injEq, Prod.mk.injEq] at hr
          obtain ⟨hb, _⟩ := hr
          subst hb
          simp [enqueues_now]
      · simp at h
  | depart i =>
    simp only [step] at h
    split at h
    · simp at h
    · rename_i th hth
      split at h
      · obtain ⟨b', th', hr, hs⟩ := commit_some h
        subst hs
        rw [depart_section_queue_size c hr]
        simp [enqueues_now]
      · simp at h

theorem run_queue_size (c : CustomerColor) (schedule : List Action) (s s1 : System)
    (h : run s schedule = some s1) :
    queue_size_of s1.bakery c = queue_size_of s.bakery c + (enqueue_calls c s schedule : Int) := by
  induction schedule generalizing s with
  | nil =>
    simp only [run, Option.some.injEq] at h
    subst h
    simp [enqueue_calls]
  | cons a rest ih =>
    simp only [run] at h
    split at h
    · simp at h
    · rename_i s2 hs2
      rw [ih s2 h, step_queue_size c hs2]
      simp only [enqueue_calls, hs2]
      push_cast
      split <;> omega

/-- C26: no step of the machine dequeues: along any step the queue size of each
colour stays or grows by one (it grows exactly when the step enqueues a customer
of that colour), and in every reachable state `red_queue_size` and
`blue_queue_size` equal the number of customers of that colour enqueued so far
along the run, whatever became of them since. -/
theorem queue_sizes_count_enqueues (T : Int) (colors : List CustomerColor)
    (schedule : List Action) (s : System) (c : CustomerColor)
    (h : run (initial T colors) schedule = some s) :
    queue_size_of s.bakery c = (enqueue_calls c (initial T colors) schedule : Int) ∧
    (∀ (a : Action) (s1 : System), step s a = some s1 →
      queue_size_of s.bakery c ≤ queue_size_of s1.bakery c ∧
      queue_size_of s1.bakery c
        = queue_size_of s.bakery c + (if enqueues_now c s a = true then 1 else 0)) := by
  constructor
  · rw [run_queue_size c schedule _ s h]
    cases c <;> simp [queue_size_of, initial, init_bakery, init_bakery_on]
  · intro a s1 hs
    have := step_queue_size c hs
    refine ⟨?_, this⟩
    rw [this]
    split <;> omega

/-- Witness of `queue_sizes_count_enqueues`: one table, RED#2 enqueued, released,
woken and turned away; the red queue size is still 1. -/
theorem queue_sizes_count_enqueues_witness :
    ∃ s : System,
      run (initial 1 [RED, RED, BLUE]) [arrive 0, arrive 1, depart 0, arrive 2, wake 1, enter 1]
        = some s ∧
      s.bakery.red_queue_size = 1 ∧
      queue_size_of s.bakery RED
        = (enqueue_calls RED (initial 1 [RED, RED, BLUE])
            [arrive 0, arrive 1, depart 0, arrive 2, wake 1, enter 1] : Int) ∧
      (∀ (a : Action) (s1 : System), step s a = some s1 →
        queue_size_of s.bakery RED ≤ queue_size_of s1.bakery RED ∧
        queue_size_of s1.bakery RED
          = queue_size_of s.bakery RED + (if enqueues_now RED s a = true then 1 else 0)) :=
  ⟨_, rfl, by decide,
    queue_sizes_count_enqueues 1 [RED, RED, BLUE]
      [arrive 0, arrive 1, depart 0, arrive 2, wake 1, enter 1] _ RED rfl⟩

/-! ## Overflow of the unchecked queue of `src_ds.c` -/

theorem run_queue_ops_enqueues (c : CustomerColor) (ps : List Nat) (b : BakeryState) :
    run_queue_ops c b (ps.map QueueOp.enqueue)
      = (ps.foldl (fun acc p => enqueue_customer acc p c) b, []) := by
  induction ps generalizing b with
  | nil => rfl
  | cons p rest ih =>
    simp only [List.map_cons, run_queue_ops, List.foldl_cons]
    exact ih _

theorem run_queue_ops_append_enqueue (c : CustomerColor) (ps : List Nat) (p : Nat)
    (b : BakeryState) :
    (run_queue_ops c b ((ps ++ [p]).map QueueOp.enqueue)).1
      = enqueue_customer (run_queue_ops c b (ps.map QueueOp.enqueue)).1 p c := by
  rw [run_queue_ops_enqueues, run_queue_ops_enqueues, List.foldl_append]
  rfl

theorem within_capacity_enqueues (ps waiting : List Nat)
    (h : waiting.length + ps.length ≤ MAX_CUSTOMERS) :
    within_capacity waiting (ps.map QueueOp.enqueue) = true := by
  induction ps generalizing waiting with
  | nil =>
    simp only [List.map_nil, within_capacity, decide_eq_true_eq]
    simpa using h
  | cons p rest ih =>
    simp only [List.length_cons] at h
    simp only [List.map_cons, within_capacity, Bool.and_eq_true, decide_eq_true_eq]
    refine ⟨by omega, ih _ ?_⟩
    rw [List.length_append, List.length_singleton]
    omega

theorem fifo_spec_enqueues (ps waiting : List Nat) :
    fifo_spec waiting (ps.map QueueOp.enqueue) = (waiting ++ ps, []) := by
  induction ps generalizing waiting with
  | nil => simp [fifo_spec]
  | cons p rest ih =>
    simp only [List.map_cons, fifo_spec]
    rw [ih]
    simp

theorem enqueues_keep_front (c : CustomerColor) (ps : List Nat) (b : BakeryState) :
    queue_front_of (ps.foldl (fun acc p => enqueue_customer acc p c) b) c
      = queue_front_of b c := by
  induction ps generalizing b with
  | nil => rfl
  | cons p rest ih =>
    rw [List.foldl_cons, ih]
    cases c <;> simp [queue_front_of, enqueue_customer]

/-- C29: `enqueue_customer` checks no capacity.  Starting from the queue state
set by `init_bakery`, after `MAX_CUSTOMERS + 1` consecutive `enqueue_customer`
calls for distinct red customers `ps`, `red_queue_size` is `MAX_CUSTOMERS + 1`,
`red_queue_rear` is `0`, slot `red_queue[0]` holds the last enqueued customer,
and the next `dequeue_customer(RED)` returns that last customer, not the
earliest one. -/
theorem overflow_overwrites_oldest (b0 : BakeryState) (T : Int) (ps : List Nat)
    (hq : b0.red_queue.length = MAX_CUSTOMERS) (hlen : ps.length = MAX_CUSTOMERS + 1)
    (hd : ps.Nodup) :
    ∃ b : BakeryState,
      b = (run_queue_ops RED (init_bakery_on b0 T) (ps.map QueueOp.enqueue)).1 ∧
      b.red_queue_size = (MAX_CUSTOMERS : Int) + 1 ∧ b.red_queue_rear = 0 ∧
      b.red_queue[0]? = some ps[MAX_CUSTOMERS]? ∧
      (dequeue_customer b RED).1 = ps[MAX_CUSTOMERS]? ∧
      (dequeue_customer b RED).1 ≠ ps[0]? := by
  have hM : MAX_CUSTOMERS = 100 := rfl
  have hsplit : ps = ps.take MAX_CUSTOMERS ++ ps.drop MAX_CUSTOMERS :=
    (List.take_append_drop _ _).symm
  have htake : (ps.take MAX_CUSTOMERS).length = MAX_CUSTOMERS := by
    rw [List.length_take, hlen]
    omega
  have hdrop : (ps.drop MAX_CUSTOMERS).length = 1 := by
    rw [List.length_drop, hlen]
    omega
  obtain ⟨last, hlast⟩ : ∃ last, ps.drop MAX_CUSTOMERS = [last] := by
    cases hdr : ps.drop MAX_CUSTOMERS with
    | nil => rw [hdr] at hdrop; simp at hdrop
    | cons x xs =>
      cases xs with
      | nil => exact ⟨x, rfl⟩
      | cons y ys => rw [hdr] at hdrop; simp at hdrop
  have hps : ps = ps.take MAX_CUSTOMERS ++ [last] := by rw [← hlast]; exact hsplit
  have hget : ps[MAX_CUSTOMERS]? = some last := by
    rw [← List.head?_drop, hlast]
    rfl
  have hfirst : ∃ first, ps[0]? = some first ∧ first ≠ last := by
    have h0 : 0 < ps.length := by rw [hlen]; omega
    have h100 : MAX_CUSTOMERS < ps.length := by rw [hlen]; omega
    refine ⟨ps[0], List.getElem?_eq_getElem h0, ?_⟩
    intro e
    have e2 : ps[MAX_CUSTOMERS] = last := by
      have := List.getElem?_eq_getElem h100
      rw [hget] at this
      exact (Option.some.inj this).symm
    rw [← e2] at e
    have := hd.getElem_inj_iff.mp e
    rw [hM] at this
    omega
  -- the first `MAX_CUSTOMERS` calls fill the buffer in order
  obtain ⟨_, hrep⟩ := run_queue_ops_refines RED ((ps.take MAX_CUSTOMERS).map QueueOp.enqueue)
    (init_bakery_on b0 T) [] (init_bakery_on_rep b0 T RED hq)
    (within_capacity_enqueues _ [] (by rw [htake]; simp))
  rw [fifo_spec_enqueues] at hrep
  simp only [List.nil_append] at hrep
  obtain ⟨f, r, hf, _, hr, hr100, hmod, hsize, _, hqlen, _⟩ := hrep
  have hfront : queue_front_of
      (run_queue_ops RED (init_bakery_on b0 T) ((ps.take MAX_CUSTOMERS).map QueueOp.enqueue)).1
      RED = 0 := by
    rw [run_queue_ops_enqueues, enqueues_keep_front]
    rfl
  have hf0 : f = 0 := by
    rw [hfront] at hf
    exact_mod_cast hf.symm
  subst hf0
  rw [htake] at hmod hsize
  have hr0 : r % MAX_CUSTOMERS = 0 := by
    rw [hmod, hM]
  simp only [queue_front_of, queue_rear_of, queue_size_of, queue_of] at hfront hr hsize hqlen
  refine ⟨_, rfl, ?_⟩
  rw [hps, run_queue_ops_append_enqueue, ← hps, hget]
  obtain ⟨first, hfirst1, hfirst2⟩ := hfirst
  rw [hfirst1]
  generalize (run_queue_ops RED (init_bakery_on b0 T)
    ((ps.take MAX_CUSTOMERS).map QueueOp.enqueue)).1 = b100 at *
  have hrear : Int.tmod (b100.red_queue_rear + 1) (MAX_CUSTOMERS : Int) = 0 := by
    rw [hr, tmod_cast_succ, hr0]
    rfl
  have hpos : (0 : Nat) < b100.red_queue.length := by
    rw [hqlen, hM]
    omega
  have hsz : b100.red_queue_size + 1 > 0 := by
    rw [hsize]
    omega
  have hslot : (b100.red_queue.set 0 (some last))[0]? = some (some last) := by
    rw [List.getElem?_set]
    simp [hpos]
  refine ⟨?_, ?_, ?_, ?_, ?_⟩
  · simp only [enqueue_customer, if_true]
    rw [hsize]
  · simp only [enqueue_customer, if_true]
    exact hrear
  · simp only [enqueue_customer, if_true, hrear]
    exact hslot
  · simp only [dequeue_customer, enqueue_customer, if_true, true_and, hsz, hrear, hfront]
    rw [List.getD_eq_getElem?_getD]
    show ((b100.red_queue.set 0 (some last))[0]?).getD none = some last
    rw [hslot]
    rfl
  · simp only [dequeue_customer, enqueue_customer, if_true, true_and, hsz, hrear, hfront]
    rw [List.getD_eq_getElem?_getD]
    show ((b100.red_queue.set 0 (some last))[0]?).getD none ≠ some first
    rw [hslot]
    intro e
    exact hfirst2 (Option.some.inj e).symm

/-- Witness of `overflow_overwrites_oldest`: the customers with handles 0..100. -/
theorem overflow_overwrites_oldest_witness :
    bakery_zero.red_queue.length = MAX_CUSTOMERS ∧
    (List.range 101).length = MAX_CUSTOMERS + 1 ∧ (List.range 101).Nodup ∧
    ∃ b : BakeryState,
      b = (run_queue_ops RED (init_bakery_on bakery_zero 5)
            ((List.range 101).map QueueOp.enqueue)).1 ∧
      b.red_queue_size = (MAX_CUSTOMERS : Int) + 1 ∧ b.red_queue_rear = 0 ∧
      b.red_queue[0]? = some (List.range 101)[MAX_CUSTOMERS]? ∧
      (dequeue_customer b RED).1 = (List.range 101)[MAX_CUSTOMERS]? ∧
      (dequeue_customer b RED).1 ≠ (List.range 101)[0]? :=
  ⟨by decide, by decide, List.nodup_range 101,
    overflow_overwrites_oldest bakery_zero 5 (List.range 101) (by decide) (by decide)
      (List.nodup_range 101)⟩

namespace GUI01

/-! ## The bounded queue of `src_GUI01.c` -/

theorem tmod_queue_cast (r : Nat) :
    Int.tmod (r : Int) (MAX_QUEUE_SIZE : Int) = ((r % MAX_QUEUE_SIZE : Nat) : Int) := by
  rw [Int.tmod_eq_emod (Int.natCast_nonneg r) (Int.natCast_nonneg _)]
  exact (Int.natCast_mod r MAX_QUEUE_SIZE).symm

theorem enqueue_full (q : Queue) (customer_id : Int) (h : (MAX_QUEUE_SIZE : Int) ≤ q.size) :
    enqueue q customer_id = q := by
  unfold enqueue
  rw [if_neg (by omega)]

theorem dequeue_empty (q : Queue) (h : q.size ≤ 0) : dequeue q = (-1, q) := by
  unfold dequeue
  rw [if_neg (by omega)]

theorem start_rep (ids : List Int) (hlen : ids.length = MAX_QUEUE_SIZE) :
    StoredRep { customer_ids := ids, front := 0, rear := -1, size := 0 } [] := by
  refine ⟨0, 0, rfl, by decide, rfl, by decide, by decide, fun _ => rfl, rfl, by decide,
    hlen, ?_⟩
  intro j hj
  simp at hj

theorem enqueue_rep (q : Queue) (stored : List Int) (customer_id : Int)
    (hrep : StoredRep q stored) :
    StoredRep (enqueue q customer_id)
      (if stored.length < MAX_QUEUE_SIZE then stored ++ [customer_id] else stored) := by
  obtain ⟨f, r, hf, hf20, hr, hr20, hmod, hr0, hsize, hlen, hqlen, helts⟩ := hrep
  have hM : MAX_QUEUE_SIZE = 20 := rfl
  have hf20' : f < 20 := hf20
  have hr20' : r ≤ 20 := hr20
  have hmod' : r % 20 = (f + stored.length) % 20 := hmod
  have hlen' : stored.length ≤ 20 := hlen
  by_cases hcap : stored.length < MAX_QUEUE_SIZE
  · have hcap' : stored.length < 20 := hcap
    rw [if_pos hcap]
    have hlt : q.size < (MAX_QUEUE_SIZE : Int) := by
      rw [hsize]
      exact_mod_cast hcap
    unfold enqueue
    rw [if_pos hlt]
    simp only []
    rw [hr, tmod_queue_cast, Int.toNat_natCast]
    refine ⟨f, r % MAX_QUEUE_SIZE + 1, hf, hf20, by push_cast; rfl, ?_, ?_, ?_, ?_, ?_, ?_, ?_⟩
    · rw [hM]; omega
    · rw [List.length_append, List.length_singleton, hM]
      omega
    · intro h0
      omega
    · show q.size + 1 = _
      rw [hsize, List.length_append, List.length_singleton]
      push_cast
      rfl
    · rw [List.length_append, List.length_singleton]
      exact hcap
    · show (q.customer_ids.set (r % MAX_QUEUE_SIZE) customer_id).length = MAX_QUEUE_SIZE
      rw [List.length_set, hqlen]
    · intro j hj
      rw [List.length_append, List.length_singleton] at hj
      show (q.customer_ids.set (r % MAX_QUEUE_SIZE) customer_id)[(f + j) % MAX_QUEUE_SIZE]? = _
      rw [List.getElem?_set]
      by_cases hjl : j = stored.length
      · subst hjl
        rw [if_pos hmod]
        have : r % MAX_QUEUE_SIZE < q.customer_ids.length := by
          rw [hqlen, hM]; omega
        rw [if_pos this]
        simp
      · have hjlt : j < stored.length := by omega
        have hidx : ¬ r % MAX_QUEUE_SIZE = (f + j) % MAX_QUEUE_SIZE := by
          rw [hM]; omega
        rw [if_neg hidx, helts j hjlt, List.getElem?_append_left hjlt]
  · rw [if_neg hcap]
    have hge : (MAX_QUEUE_SIZE : Int) ≤ q.size := by
      rw [hsize]
      have : MAX_QUEUE_SIZE ≤ stored.length := by omega
      exact_mod_cast this
    rw [enqueue_full q customer_id hge]
    exact ⟨f, r, hf, hf20, hr, hr20, hmod, hr0, hsize, hlen, hqlen, helts⟩

theorem dequeue_rep (q : Queue) (stored : List Int) (hrep : StoredRep q stored) :
    (dequeue q).1 = stored.headD (-1) ∧ StoredRep (dequeue q).2 stored.tail := by
  obtain ⟨f, r, hf, hf20, hr, hr20, hmod, hr0, hsize, hlen, hqlen, helts⟩ := hrep
  have hM : MAX_QUEUE_SIZE = 20 := rfl
  have hf20' : f < 20 := hf20
  have hr20' : r ≤ 20 := hr20
  cases stored with
  | nil =>
    have h0 : q.size ≤ 0 := by rw [hsize]; simp
    rw [dequeue_empty q h0]
    exact ⟨rfl, f, r, hf, hf20, hr, hr20, hmod, hr0, hsize, hlen, hqlen, helts⟩
  | cons x rest =>
    have hpos : q.size > 0 := by
      rw [hsize]; simp only [List.length_cons]; push_cast; omega
    have h0 := helts 0 (by simp)
    have hf0 : (f + 0) % MAX_QUEUE_SIZE = f := by rw [hM]; omega
    rw [hf0] at h0
    simp only [List.getElem?_cons_zero] at h0
    simp only [List.length_cons] at hmod hsize hlen hr0
    have hmod' : r % 20 = (f + (rest.length + 1)) % 20 := hmod
    have hlen' : rest.length + 1 ≤ 20 := hlen
    have e : (f : Int) + 1 = ((f + 1 : Nat) : Int) := by push_cast; rfl
    unfold dequeue
    rw [if_pos hpos]
    simp only [List.headD_cons, List.tail_cons]
    rw [hf, Int.toNat_natCast, e, tmod_queue_cast]
    refine ⟨?_, (f + 1) % MAX_QUEUE_SIZE, r, rfl, ?_, hr, hr20, ?_, ?_, ?_, ?_, hqlen, ?_⟩
    · rw [List.getD_eq_getElem?_getD, h0]
      rfl
    · rw [hM]; omega
    · rw [hM]; omega
    · intro hr00
      have := hr0 hr00
      omega
    · show q.size - 1 = _
      rw [hsize]; push_cast; omega
    · omega
    · intro j hj
      have := helts (j + 1) (by simp only [List.length_cons]; omega)
      simp only [List.getElem?_cons_succ] at this
      show q.customer_ids[((f + 1) % MAX_QUEUE_SIZE + j) % MAX_QUEUE_SIZE]? = _
      rw [← this]
      congr 1
      rw [hM]; omega

theorem run_calls_refines (calls : List QueueCall) (q : Queue) (stored : List Int)
    (hrep : StoredRep q stored) :
    (run_calls q calls).2 = (bounded_fifo_spec stored calls).2 ∧
      StoredRep (run_calls q calls).1 (bounded_fifo_spec stored calls).1 := by
  induction calls generalizing q stored with
  | nil => exact ⟨rfl, hrep⟩
  | cons call rest ih =>
    cases call with
    | enqueue customer_id =>
      have h1 := enqueue_rep q stored customer_id hrep
      simp only [run_calls, bounded_fifo_spec]
      split
      · rename_i hc
        rw [if_pos hc] at h1
        exact ih _ _ h1
      · rename_i hc
        rw [if_neg hc] at h1
        exact ih _ _ h1
    | dequeue =>
      obtain ⟨h1, h2⟩ := dequeue_rep q stored hrep
      obtain ⟨h3, h4⟩ := ih _ _ h2
      simp only [run_calls, bounded_fifo_spec]
      exact ⟨by rw [h1, h3], h4⟩

theorem rep_inv (q : Queue) (stored : List Int) (hrep : StoredRep q stored) : QueueInv q := by
  obtain ⟨f, r, hf, hf20, hr, hr20, hmod, hr0, hsize, hlen, _, _⟩ := hrep
  have hf20' : f < 20 := hf20
  have hr20' : r ≤ 20 := hr20
  have hmod' : r % 20 = (f + stored.length) % 20 := hmod
  have hlen' : stored.length ≤ 20 := hlen
  have hM : (MAX_QUEUE_SIZE : Int) = 20 := rfl
  refine ⟨by rw [hsize]; exact Int.natCast_nonneg _, ?_, by rw [hf]; exact Int.natCast_nonneg _,
    ?_, ?_⟩
  · rw [hsize, hM]; omega
  · rw [hf, hM]; omega
  · intro hpos
    rw [hsize] at hpos
    rw [hf, hsize, hM]
    have hr1 : r ≠ 0 := by
      intro h
      have := hr0 h
      omega
    omega

/-- C28: for every sequence of `enqueue` and `dequeue` calls on a queue started
at `front = 0`, `rear = -1`, `size = 0`, the queue keeps `0 ≤ size ≤
MAX_QUEUE_SIZE`, `0 ≤ front < MAX_QUEUE_SIZE` and `rear = (front + size - 1) mod
MAX_QUEUE_SIZE` whenever `size > 0`, its size is the number of stored ids, and
every `dequeue` returns what the bounded FIFO specification returns: the oldest
id still stored, or `-1` on the empty queue.  An `enqueue` on a full queue and a
`dequeue` on an empty queue leave the queue unchanged. -/
theorem bounded_queue_is_fifo (ids : List Int) (calls : List QueueCall)
    (hlen : ids.length = MAX_QUEUE_SIZE) :
    QueueInv (run_calls { customer_ids := ids, front := 0, rear := -1, size := 0 } calls).1 ∧
    (run_calls { customer_ids := ids, front := 0, rear := -1, size := 0 } calls).2
      = (bounded_fifo_spec [] calls).2 ∧
    (run_calls { customer_ids := ids, front := 0, rear := -1, size := 0 } calls).1.size
      = ((bounded_fifo_spec [] calls).1.length : Int) ∧
    (∀ (slots : List Int) (f r customer_id : Int),
      enqueue { customer_ids := slots, front := f, rear := r, size := (MAX_QUEUE_SIZE : Int) }
          customer_id
        = { customer_ids := slots, front := f, rear := r, size := (MAX_QUEUE_SIZE : Int) }) ∧
    (∀ (slots : List Int) (f r : Int),
      dequeue { customer_ids := slots, front := f, rear := r, size := 0 }
        = (-1, { customer_ids := slots, front := f, rear := r, size := 0 })) := by
  obtain ⟨h1, h2⟩ := run_calls_refines calls _ [] (start_rep ids hlen)
  refine ⟨rep_inv _ _ h2, h1, ?_, ?_, ?_⟩
  · obtain ⟨_, _, _, _, _, _, _, _, hsize, _, _, _⟩ := h2
    exact hsize
  · intro slots f r customer_id
    exact enqueue_full _ customer_id (le_refl _)
  · intro slots f r
    exact dequeue_empty _ (le_refl _)

/-- Witness of `bounded_queue_is_fifo`: two ids enqueued on the initial queue,
then three dequeues. -/
theorem bounded_queue_is_fifo_witness :
    empty_queue.customer_ids.length = MAX_QUEUE_SIZE ∧
    (run_calls empty_queue
        [QueueCall.enqueue 7, QueueCall.enqueue 4, QueueCall.dequeue, QueueCall.dequeue,
          QueueCall.dequeue]).2 = [7, 4, -1] ∧
    QueueInv (run_calls empty_queue
        [QueueCall.enqueue 7, QueueCall.enqueue 4, QueueCall.dequeue, QueueCall.dequeue,
          QueueCall.dequeue]).1 ∧
    (run_calls empty_queue
        [QueueCall.enqueue 7, QueueCall.enqueue 4, QueueCall.dequeue, QueueCall.dequeue,
          QueueCall.dequeue]).2
      = (bounded_fifo_spec []
          [QueueCall.enqueue 7, QueueCall.enqueue 4, QueueCall.dequeue, QueueCall.dequeue,
            QueueCall.dequeue]).2 ∧
    (run_calls empty_queue
        [QueueCall.enqueue 7, QueueCall.enqueue 4, QueueCall.dequeue, QueueCall.dequeue,
          QueueCall.dequeue]).1.size
      = ((bounded_fifo_spec []
          [QueueCall.enqueue 7, QueueCall.enqueue 4, QueueCall.dequeue, QueueCall.dequeue,
            QueueCall.dequeue]).1.length : Int) ∧
    (∀ (slots : List Int) (f r customer_id : Int),
      enqueue { customer_ids := slots, front := f, rear := r, size := (MAX_QUEUE_SIZE : Int) }
          customer_id
        = { customer_ids := slots, front := f, rear := r, size := (MAX_QUEUE_SIZE : Int) }) ∧
    (∀ (slots : List Int) (f r : Int),
      dequeue { customer_ids := slots, front := f, rear := r, size := 0 }
        = (-1, { customer_ids := slots, front := f, rear := r, size := 0 })) :=
  ⟨by decide, by decide,
    bounded_queue_is_fifo empty_queue.customer_ids
      [QueueCall.enqueue 7, QueueCall.enqueue 4, QueueCall.dequeue, QueueCall.dequeue,
        QueueCall.dequeue] (by decide)⟩

end GUI01

namespace Final

/-! ## The step machine of `Final.c` and `tested.c` -/

theorem fin_set_changes (l : List Thread) (i : Nat) (th th' : Thread)
    (hth : l[i]? = some th) (hne : th' ≠ th) : l.set i th' ≠ l := by
  intro e
  have hlen : i < l.length := (List.getElem?_eq_some_iff.mp hth).1
  have h1 : (l.set i th')[i]? = some th' := List.getElem?_set_self hlen
  rw [e, hth] at h1
  exact hne (Option.some.inj h1).symm

theorem attempt_red_cases (g : Gate) :
    (attempt g CustomerColor.RED
        = ({ red_inside := g.red_inside + 1, blue_inside := g.blue_inside }, true) ∧
      (g.red_inside < g.blue_inside ∨ (g.red_inside = 0 ∧ g.blue_inside = 0))) ∨
    (attempt g CustomerColor.RED = (g, false) ∧
      ¬ (g.red_inside < g.blue_inside ∨ (g.red_inside = 0 ∧ g.blue_inside = 0))) := by
  simp only [attempt, red_customer_attempt]
  by_cases h1 : g.red_inside < g.blue_inside
  · left
    rw [if_pos h1]
    exact ⟨rfl, Or.inl h1⟩
  · rw [if_neg h1]
    by_cases h2 : g.red_inside = 0 ∧ g.blue_inside = 0
    · left
      rw [if_pos h2]
      exact ⟨rfl, Or.inr h2⟩
    · right
      rw [if_neg h2]
      refine ⟨rfl, ?_⟩
      rintro (h | h)
      · exact h1 h
      · exact h2 h

theorem attempt_blue_cases (g : Gate) :
    (attempt g CustomerColor.BLUE
        = ({ red_inside := g.red_inside, blue_inside := g.blue_inside + 1 }, true) ∧
      (g.blue_inside < g.red_inside ∨ (g.red_inside = 0 ∧ g.blue_inside = 0))) ∨
    (attempt g CustomerColor.BLUE = (g, false) ∧
      ¬ (g.blue_inside < g.red_inside ∨ (g.red_inside = 0 ∧ g.blue_inside = 0))) := by
  simp only [attempt, blue_customer_attempt]
  by_cases h1 : g.blue_inside < g.red_inside
  · left
    rw [if_pos h1]
    exact ⟨rfl, Or.inl h1⟩
  · rw [if_neg h1]
    by_cases h2 : g.red_inside = 0 ∧ g.blue_inside = 0
    · left
      rw [if_pos h2]
      exact ⟨rfl, Or.inr h2⟩
    · right
      rw [if_neg h2]
      refine ⟨rfl, ?_⟩
      rintro (h | h)
      · exact h1 h
      · exact h2 h

theorem fin_inv_update {tables : Nat} {s s1 : State} {i : Nat} {th th' : Thread}
    (hinv : Inv tables s) (hth : s.threads[i]? = some th)
    (hthreads : s1.threads = s.threads.set i th')
    (hred : s1.gate.red_inside = s.gate.red_inside
      - (if inside_in CustomerColor.RED th then 1 else 0)
      + (if inside_in CustomerColor.RED th' then 1 else 0))
    (hblue : s1.gate.blue_inside = s.gate.blue_inside
      - (if inside_in CustomerColor.BLUE th then 1 else 0)
      + (if inside_in CustomerColor.BLUE th' then 1 else 0))
    (hred_le : s1.gate.red_inside ≤ 1) (hblue_le : s1.gate.blue_inside ≤ 1)
    (hsem : (s1.table_sem : Int) = (s.table_sem : Int)
      + (if holds_permit th then 1 else 0) - (if holds_permit th' then 1 else 0)) :
    Inv tables s1 := by
  constructor
  · rw [hred, hthreads, countP_set_int _ _ _ _ _ hth, hinv.red]
  · rw [hblue, hthreads, countP_set_int _ _ _ _ _ hth, hinv.blue]
  · exact hred_le
  · exact hblue_le
  · have h1 := countP_set_int holds_permit s.threads i th' th hth
    have h2 := hinv.permits
    rw [hthreads]
    have h3 : ((s1.table_sem + (s.threads.set i th').countP holds_permit : Nat) : Int)
        = (tables : Int) := by
      push_cast
      rw [h1, hsem, ← h2]
      push_cast
      omega
    exact_mod_cast h3

theorem fin_step_inv {tables : Nat} {s s1 : State} {a : Action} (hinv : Inv tables s)
    (h : step s a = some s1) : Inv tables s1 := by
  have hr := hinv.red_le
  have hb := hinv.blue_le
  have hr0 : 0 ≤ s.gate.red_inside := by rw [hinv.red]; exact Int.natCast_nonneg _
  have hb0 : 0 ≤ s.gate.blue_inside := by rw [hinv.blue]; exact Int.natCast_nonneg _
  cases a with
  | attempt i =>
    simp only [step] at h
    split at h
    · simp at h
    · rename_i th hth
      split at h
      · rename_i hpc
        simp only [Option.some.injEq] at h
        subst h
        obtain ⟨c, pc⟩ := th
        simp only at hpc
        subst hpc
        cases c
        · rcases attempt_red_cases s.gate with ⟨e, hc⟩ | ⟨e, _⟩
          · rw [e]
            refine fin_inv_update hinv hth rfl ?_ ?_ ?_ hb ?_ <;>
              simp [inside_in, holds_permit]
            omega
          · rw [e]
            refine fin_inv_update hinv hth rfl ?_ ?_ hr hb ?_ <;>
              simp [inside_in, holds_permit]
        · rcases attempt_blue_cases s.gate with ⟨e, hc⟩ | ⟨e, _⟩
          · rw [e]
            refine fin_inv_update hinv hth rfl ?_ ?_ hr ?_ ?_ <;>
              simp [inside_in, holds_permit]
            omega
          · rw [e]
            refine fin_inv_update hinv hth rfl ?_ ?_ hr hb ?_ <;>
              simp [inside_in, holds_permit]
      · simp at h
  | take i =>
    simp only [step] at h
    split at h
    · simp at h
    · rename_i th hth
      split at h
      · rename_i hpc
        simp only [Option.some.injEq] at h
        subst h
        obtain ⟨c, pc⟩ := th
        simp only at hpc
        obtain ⟨hpc1, hpos⟩ := hpc
        subst hpc1
        refine fin_inv_update hinv hth rfl ?_ ?_ hr hb ?_ <;>
          simp [inside_in, holds_permit]
        omega
      · simp at h
  | depart i =>
    simp only [step] at h
    split at h
    · simp at h
    · rename_i th hth
      split at h
      · rename_i hpc
        simp only [Option.some.injEq] at h
        subst h
        obtain ⟨c, pc⟩ := th
        simp only at hpc
        subst hpc
        cases c <;>
          refine fin_inv_update hinv hth rfl ?_ ?_ ?_ ?_ ?_ <;>
          simp [inside_in, holds_permit, depart_section] <;> omega
      · simp at h
  | release i =>
    simp only [step] at h
    split at h
    · simp at h
    · rename_i th hth
      split at h
      · rename_i hpc
        simp only [Option.some.injEq] at h
        subst h
        obtain ⟨c, pc⟩ := th
        simp only at hpc
        subst hpc
        refine fin_inv_update hinv hth rfl ?_ ?_ hr hb ?_ <;>
          simp [inside_in, holds_permit]
      · simp at h


theorem fin_run_inv {tables : Nat} {s s1 : State} {schedule : List Action}
    (hinv : Inv tables s) (h : run s schedule = some s1) : Inv tables s1 := by
  induction schedule generalizing s with
  | nil =>
    simp only [run, Option.some.injEq] at h
    subst h
    exact hinv
  | cons a rest ih =>
    simp only [run] at h
    split at h
    · simp at h
    · rename_i s2 hs2
      exact ih (fin_step_inv hinv hs2) h

theorem fin_initial_countP (p : Thread → Bool) (hp : ∀ c, p { color := c, pc := Pc.polling } = false)
    (colors : List CustomerColor) :
    (colors.map (fun c => ({ color := c, pc := Pc.polling } : Thread))).countP p = 0 := by
  induction colors with
  | nil => rfl
  | cons c cs ih =>
    simp only [List.map_cons, List.countP_cons, ih, hp]
    simp

theorem fin_initial_inv (tables : Nat) (colors : List CustomerColor) :
    Inv tables (initial tables colors) := by
  constructor
  · show (0 : Int) = _
    simp only [initial]
    rw [fin_initial_countP _ (fun c => by simp [inside_in])]
    rfl
  · show (0 : Int) = _
    simp only [initial]
    rw [fin_initial_countP _ (fun c => by simp [inside_in])]
    rfl
  · show (0 : Int) ≤ 1
    decide
  · show (0 : Int) ≤ 1
    decide
  · simp only [initial]
    rw [fin_initial_countP _ (fun c => by simp [holds_permit])]
    rfl

theorem fin_reachable_inv {tables : Nat} {colors : List CustomerColor} {s : State}
    (h : Reachable tables colors s) : Inv tables s := by
  obtain ⟨schedule, hs⟩ := h
  exact fin_run_inv (fin_initial_inv tables colors) hs

/-- C23: in every reachable state of `Final.c` and `tested.c`, for any customers
and any number of tables, `0 ≤ red_inside ≤ 1` and `0 ≤ blue_inside ≤ 1`: at most
one customer of each colour, hence at most two customers, are inside at the
same time. -/
theorem at_most_one_per_colour (tables : Nat) (colors : List CustomerColor) (s : State)
    (h : Reachable tables colors s) :
    0 ≤ s.gate.red_inside ∧ s.gate.red_inside ≤ 1 ∧
    0 ≤ s.gate.blue_inside ∧ s.gate.blue_inside ≤ 1 ∧
    s.gate.red_inside + s.gate.blue_inside ≤ 2 ∧
    s.gate.red_inside = (s.threads.countP (inside_in CustomerColor.RED) : Int) ∧
    s.gate.blue_inside = (s.threads.countP (inside_in CustomerColor.BLUE) : Int) := by
  have hinv := fin_reachable_inv h
  have hr := hinv.red_le
  have hb := hinv.blue_le
  have hr0 : 0 ≤ s.gate.red_inside := by rw [hinv.red]; exact Int.natCast_nonneg _
  have hb0 : 0 ≤ s.gate.blue_inside := by rw [hinv.blue]; exact Int.natCast_nonneg _
  exact ⟨hr0, hr, hb0, hb, by omega, hinv.red, hinv.blue⟩

/-- Witness of `at_most_one_per_colour`: five tables, three red and two blue
customers, one of each colour inside and the others polling. -/
theorem at_most_one_per_colour_witness :
    ∃ s : State, Reachable 5 [RED, RED, RED, BLUE, BLUE] s ∧
      run (initial 5 [RED, RED, RED, BLUE, BLUE])
        [Action.attempt 0, Action.attempt 1, Action.attempt 3, Action.attempt 4,
          Action.attempt 2, Action.take 0] = some s ∧
      s.gate.red_inside = 1 ∧ s.gate.blue_inside = 1 ∧
      0 ≤ s.gate.red_inside ∧ s.gate.red_inside ≤ 1 ∧
      0 ≤ s.gate.blue_inside ∧ s.gate.blue_inside ≤ 1 ∧
      s.gate.red_inside + s.gate.blue_inside ≤ 2 ∧
      s.gate.red_inside = (s.threads.countP (inside_in CustomerColor.RED) : Int) ∧
      s.gate.blue_inside = (s.threads.countP (inside_in CustomerColor.BLUE) : Int) :=
  ⟨_, ⟨[Action.attempt 0, Action.attempt 1, Action.attempt 3, Action.attempt 4,
      Action.attempt 2, Action.take 0], rfl⟩, rfl, by decide, by decide,
    at_most_one_per_colour 5 [RED, RED, RED, BLUE, BLUE] _
      ⟨[Action.attempt 0, Action.attempt 1, Action.attempt 3, Action.attempt 4,
        Action.attempt 2, Action.take 0], rfl⟩⟩

theorem fin_no_inside_of_counts {s : State} (c : CustomerColor)
    (h0 : s.threads.countP (inside_in c) = 0) (i : Nat) (th : Thread)
    (hth : s.threads[i]? = some th) (hc : th.color = c) :
    th.pc ≠ Pc.admitted ∧ th.pc ≠ Pc.eating := by
  have hmem := List.getElem?_mem hth
  have := (List.countP_eq_zero.mp h0) th hmem
  simp only [inside_in, hc, decide_True, Bool.and_true, Bool.or_eq_true, decide_eq_true_eq,
    not_or] at this
  exact this

/-- C25: with at least one table, in every reachable state in which some
customer has not finished a progress step is enabled (a successful admission, a
customer obtaining a table, a departure or the release of a table permit); and
whenever `red_inside = 0` and `blue_inside = 0`, the next pass of any customer
still polling admits it. -/
theorem no_deadlock (tables : Nat) (htab : 1 ≤ tables) (colors : List CustomerColor)
    (s : State) (h : Reachable tables colors s) :
    ((∃ (i : Nat) (th : Thread), s.threads[i]? = some th ∧ th.pc ≠ Pc.done) → Progress s) ∧
    (s.gate.red_inside = 0 → s.gate.blue_inside = 0 →
      ∀ (i : Nat) (th : Thread), s.threads[i]? = some th → th.pc = Pc.polling →
        ∃ s1 : State, step s (Action.attempt i) = some s1 ∧
          s1.threads = s.threads.set i { th with pc := Pc.admitted }) := by
  have hinv := fin_reachable_inv h
  have hadmit : s.gate.red_inside = 0 → s.gate.blue_inside = 0 →
      ∀ (i : Nat) (th : Thread), s.threads[i]? = some th → th.pc = Pc.polling →
        ∃ s1 : State, step s (Action.attempt i) = some s1 ∧
          s1.threads = s.threads.set i { th with pc := Pc.admitted } := by
    intro hr hb i th hth hpc
    simp only [step, hth, hpc, if_true]
    refine ⟨_, rfl, ?_⟩
    cases hc : th.color
    · rcases attempt_red_cases s.gate with ⟨e, _⟩ | ⟨_, hn⟩
      · simp [e]
      · exact absurd (Or.inr ⟨hr, hb⟩) hn
    · rcases attempt_blue_cases s.gate with ⟨e, _⟩ | ⟨_, hn⟩
      · simp [e]
      · exact absurd (Or.inr ⟨hr, hb⟩) hn
  refine ⟨?_, hadmit⟩
  rintro ⟨i, th, hth, hnd⟩
  by_cases he : ∃ (j : Nat) (tj : Thread), s.threads[j]? = some tj ∧ tj.pc = Pc.eating
  · obtain ⟨j, tj, htj, hpc⟩ := he
    have hs : ∃ s1 : State, step s (Action.depart j) = some s1 ∧
        s1.threads = s.threads.set j { tj with pc := Pc.leaving } := by
      simp only [step, htj, hpc, if_true]
      exact ⟨_, rfl, rfl⟩
    obtain ⟨s1, hs1, hthr⟩ := hs
    refine ⟨Action.depart j, s1, hs1, ?_⟩
    rw [hthr]
    exact fin_set_changes _ _ tj _ htj (by
      intro e
      have := congrArg Thread.pc e
      rw [hpc] at this
      cases this)
  by_cases hl : ∃ (j : Nat) (tj : Thread), s.threads[j]? = some tj ∧ tj.pc = Pc.leaving
  · obtain ⟨j, tj, htj, hpc⟩ := hl
    have hs : ∃ s1 : State, step s (Action.release j) = some s1 ∧
        s1.threads = s.threads.set j { tj with pc := Pc.done } := by
      simp only [step, htj, hpc, if_true]
      exact ⟨_, rfl, rfl⟩
    obtain ⟨s1, hs1, hthr⟩ := hs
    refine ⟨Action.release j, s1, hs1, ?_⟩
    rw [hthr]
    exact fin_set_changes _ _ tj _ htj (by
      intro e
      have := congrArg Thread.pc e
      rw [hpc] at this
      cases this)
  have hperm0 : s.threads.countP holds_permit = 0 := by
    rw [List.countP_eq_zero]
    intro x hx
    obtain ⟨j, hj⟩ := List.getElem?_of_mem hx
    simp only [holds_permit, Bool.or_eq_true, decide_eq_true_eq, not_or]
    exact ⟨fun e => he ⟨j, x, hj, e⟩, fun e => hl ⟨j, x, hj, e⟩⟩
  have hsem : 0 < s.table_sem := by
    have := hinv.permits
    omega
  by_cases ha : ∃ (j : Nat) (tj : Thread), s.threads[j]? = some tj ∧ tj.pc = Pc.admitted
  · obtain ⟨j, tj, htj, hpc⟩ := ha
    have hs : ∃ s1 : State, step s (Action.take j) = some s1 ∧
        s1.threads = s.threads.set j { tj with pc := Pc.eating } := by
      simp only [step, htj, hpc, hsem, and_self, if_true]
      exact ⟨_, rfl, rfl⟩
    obtain ⟨s1, hs1, hthr⟩ := hs
    refine ⟨Action.take j, s1, hs1, ?_⟩
    rw [hthr]
    exact fin_set_changes _ _ tj _ htj (by
      intro e
      have := congrArg Thread.pc e
      rw [hpc] at this
      cases this)
  have hin0 : ∀ c, s.threads.countP (inside_in c) = 0 := by
    intro c
    rw [List.countP_eq_zero]
    intro x hx
    obtain ⟨j, hj⟩ := List.getElem?_of_mem hx
    simp only [inside_in, Bool.and_eq_true, Bool.or_eq_true, decide_eq_true_eq, not_and]
    rintro (e | e)
    · exact absurd ⟨j, x, hj, e⟩ ha
    · exact absurd ⟨j, x, hj, e⟩ he
  have hr : s.gate.red_inside = 0 := by rw [hinv.red, hin0]; rfl
  have hb : s.gate.blue_inside = 0 := by rw [hinv.blue, hin0]; rfl
  have hpoll : th.pc = Pc.polling := by
    cases hpc : th.pc
    · rfl
    · exact absurd ⟨i, th, hth, hpc⟩ ha
    · exact absurd ⟨i, th, hth, hpc⟩ he
    · exact absurd ⟨i, th, hth, hpc⟩ hl
    · exact absurd hpc hnd
  obtain ⟨s1, hs1, hthreads⟩ := hadmit hr hb i th hth hpoll
  refine ⟨Action.attempt i, s1, hs1, ?_⟩
  rw [hthreads]
  exact fin_set_changes _ _ th _ hth (by
    intro e
    have := congrArg Thread.pc e
    rw [hpoll] at this
    cases this)

/-- Witness of `no_deadlock`: one table, two red customers and one blue; RED#0
has left, BLUE#2 is seated and RED#1 is polling. -/
theorem no_deadlock_witness :
    (1 : Nat) ≤ 1 ∧
    ∃ s : State, Reachable 1 [RED, RED, BLUE] s ∧
      run (initial 1 [RED, RED, BLUE])
        [Action.attempt 0, Action.attempt 1, Action.attempt 2, Action.take 0,
          Action.depart 0, Action.release 0, Action.take 2] = some s ∧
      (∃ (i : Nat) (th : Thread), s.threads[i]? = some th ∧ th.pc ≠ Pc.done) ∧
      ((∃ (i : Nat) (th : Thread), s.threads[i]? = some th ∧ th.pc ≠ Pc.done) →
        Progress s) ∧
      (s.gate.red_inside = 0 → s.gate.blue_inside = 0 →
        ∀ (i : Nat) (th : Thread), s.threads[i]? = some th → th.pc = Pc.polling →
          ∃ s1 : State, step s (Action.attempt i) = some s1 ∧
            s1.threads = s.threads.set i { th with pc := Pc.admitted }) :=
  ⟨le_refl 1, _, ⟨[Action.attempt 0, Action.attempt 1, Action.attempt 2, Action.take 0,
      Action.depart 0, Action.release 0, Action.take 2], rfl⟩, rfl,
    ⟨1, _, rfl, by decide⟩,
    no_deadlock 1 (le_refl 1) [RED, RED, BLUE] _
      ⟨[Action.attempt 0, Action.attempt 1, Action.attempt 2, Action.take 0,
        Action.depart 0, Action.release 0, Action.take 2], rfl⟩⟩

end Final

namespace Tested

/-! ## `get_positive_integer` of `tested.c` -/

theorem fgets_take_left (room : Nat) (stdin : List Nat) :
    (fgets_take room stdin).2.length ≤ stdin.length := by
  induction room generalizing stdin with
  | zero => simp [fgets_take]
  | succ n ih =>
    cases stdin with
    | nil => simp [fgets_take]
    | cons c rest =>
      simp only [fgets_take]
      split
      · simp
      · have := ih rest
        simp only [List.length_cons]
        omega

theorem fgets_consumes (stdin input rest : List Nat) (h : fgets 100 stdin = some (input, rest)) :
    rest.length < stdin.length := by
  cases stdin with
  | nil => simp [fgets] at h
  | cons c tl =>
    simp only [fgets, Option.some.injEq] at h
    have h2 : rest = (fgets_take (100 - 1) (c :: tl)).2 := by rw [h]
    rw [h2]
    show (fgets_take (98 + 1) (c :: tl)).2.length < (c :: tl).length
    simp only [fgets_take]
    split
    · simp
    · have := fgets_take_left 98 tl
      simp only [List.length_cons]
      omega

theorem loop_total (atoi : List Nat → Int) (fuel : Nat) (stdin : List Nat)
    (h : stdin.length < fuel) :
    ∃ (v : Int) (n : Nat) (left : List Nat),
      get_positive_integer_loop atoi fuel stdin = some (v, n, left) ∧ 1 ≤ v := by
  induction fuel generalizing stdin with
  | zero => omega
  | succ k ih =>
    simp only [get_positive_integer_loop]
    cases hf : fgets 100 stdin with
    | none => exact ⟨1, 0, stdin, rfl, le_refl 1⟩
    | some r =>
      obtain ⟨input, rest⟩ := r
      simp only []
      by_cases hv : atoi input > 0
      · rw [if_pos hv]
        exact ⟨atoi input, 0, rest, rfl, by omega⟩
      · rw [if_neg hv]
        have hlt := fgets_consumes stdin input rest hf
        obtain ⟨v, n, left, hl, hv1⟩ := ih rest (by omega)
        rw [hl]
        exact ⟨v, n + 1, left, rfl, hv1⟩

theorem fgets_take_line (line rest : List Nat) (room : Nat) (hnl : 10 ∉ line)
    (hroom : line.length + 1 ≤ room) :
    fgets_take room (line ++ 10 :: rest) = (line ++ [10], rest) := by
  induction line generalizing room with
  | nil =>
    cases room with
    | zero => simp at hroom
    | succ n => simp [fgets_take]
  | cons c tl ih =>
    cases room with
    | zero => simp at hroom
    | succ n =>
      have hc : c ≠ 10 := by
        intro e
        apply hnl
        rw [e]
        exact List.mem_cons_self _ _
      have htl : 10 ∉ tl := fun hm => hnl (List.mem_cons_of_mem _ hm)
      simp only [List.length_cons] at hroom
      have e := ih n htl (by omega)
      show fgets_take (n + 1) (c :: (tl ++ 10 :: rest)) = (c :: (tl ++ [10]), rest)
      simp only [fgets_take, if_neg hc, e]

theorem fgets_line (line : List Nat) (lines : List (List Nat)) (hnl : 10 ∉ line)
    (hlen : line.length + 1 ≤ 99) :
    fgets 100 (stream_of_lines (line :: lines)) = some (line ++ [10], stream_of_lines lines) := by
  simp only [stream_of_lines]
  cases hl : line ++ 10 :: stream_of_lines lines with
  | nil => simp at hl
  | cons c tl =>
    simp only [fgets]
    rw [← hl, fgets_take_line line _ (100 - 1) hnl (by omega)]

theorem loop_on_lines (atoi : List Nat → Int) (lines : List (List Nat)) (fuel : Nat)
    (hlines : ∀ line ∈ lines, 10 ∉ line ∧ line.length + 1 ≤ 99)
    (hfuel : lines.length < fuel) :
    ∃ left : List Nat,
      get_positive_integer_loop atoi fuel (stream_of_lines lines)
        = some ((first_positive_line atoi lines).1, (first_positive_line atoi lines).2, left) := by
  induction lines generalizing fuel with
  | nil =>
    cases fuel with
    | zero => simp at hfuel
    | succ k => exact ⟨[], rfl⟩
  | cons line rest ih =>
    cases fuel with
    | zero => simp at hfuel
    | succ k =>
      obtain ⟨hnl, hlen⟩ := hlines line (List.mem_cons_self _ _)
      simp only [get_positive_integer_loop, fgets_line line rest hnl hlen, first_positive_line]
      by_cases hv : atoi (line ++ [10]) > 0
      · rw [if_pos hv, if_pos hv]
        exact ⟨_, rfl⟩
      · rw [if_neg hv, if_neg hv]
        simp only [List.length_cons] at hfuel
        obtain ⟨left, hl⟩ := ih k (fun l hl => hlines l (List.mem_cons_of_mem _ hl)) (by omega)
        rw [hl]
        exact ⟨left, rfl⟩

theorem lines_le_stream (lines : List (List Nat)) :
    lines.length ≤ (stream_of_lines lines).length := by
  induction lines with
  | nil => simp [stream_of_lines]
  | cons line rest ih =>
    simp only [stream_of_lines, List.length_cons, List.length_append]
    omega

/-- C22 as stated fails: on the single input line made of 98 spaces followed by
`-5`, whose value is `-5`, `fgets` stores the first 99 characters (value 0) and
then the rest `5`, so `get_positive_integer` answers one complaint and returns
5, where the claim has the line ignored and 1 returned at end of input. -/
theorem long_line_is_split :
    atoi_c (List.replicate 98 32 ++ [45, 53] ++ [10]) = -5 ∧
    first_positive_line atoi_c [List.replicate 98 32 ++ [45, 53]] = (1, 1) ∧
    fgets 100 (stream_of_lines [List.replicate 98 32 ++ [45, 53]])
      = some (List.replicate 98 32 ++ [45], [53, 10]) ∧
    get_positive_integer atoi_c (stream_of_lines [List.replicate 98 32 ++ [45, 53]])
      = some (5, 1, []) := by
  refine ⟨by decide, by decide, by decide, by decide⟩

/-- C22 as the code behaves: for every input `get_positive_integer` returns,
and returns a value `≥ 1`, which is the table count `main` passes to `sem_init`;
when every input line, newline included, has at most 99 characters (so that
one `fgets` call reads one whole line), it returns the `atoi` value of the
first line whose value is positive, after one complaint for each earlier line,
or 1 when the input ends before such a line. -/
theorem get_positive_integer_spec (atoi : List Nat → Int) (stdin : List Nat)
    (lines : List (List Nat))
    (hlines : ∀ line ∈ lines, 10 ∉ line ∧ line.length + 1 ≤ 99) :
    (∃ (v : Int) (n : Nat) (left : List Nat),
      get_positive_integer atoi stdin = some (v, n, left) ∧ 1 ≤ v ∧
        main_TABLES atoi stdin = some v) ∧
    (∃ left : List Nat,
      get_positive_integer atoi (stream_of_lines lines)
        = some ((first_positive_line atoi lines).1, (first_positive_line atoi lines).2,
            left)) := by
  constructor
  · obtain ⟨v, n, left, hl, hv⟩ := loop_total atoi (stdin.length + 1) stdin (by omega)
    refine ⟨v, n, left, hl, hv, ?_⟩
    simp only [main_TABLES, get_positive_integer, hl, Option.map_some']
  · exact loop_on_lines atoi lines _ hlines (by have := lines_le_stream lines; omega)

/-- Witness of `get_positive_integer_spec`: the input lines `0`, `-3`, `a`, ` 42`,
`7`; the value 42 is returned after three complaints. -/
theorem get_positive_integer_spec_witness :
    (∀ line ∈ [[48], [45, 51], [97], [32, 52, 50], [55]],
      10 ∉ line ∧ line.length + 1 ≤ 99) ∧
    first_positive_line atoi_c [[48], [45, 51], [97], [32, 52, 50], [55]] = (42, 3) ∧
    (∃ (v : Int) (n : Nat) (left : List Nat),
      get_positive_integer atoi_c
          (stream_of_lines [[48], [45, 51], [97], [32, 52, 50], [55]]) = some (v, n, left) ∧
        1 ≤ v ∧
        main_TABLES atoi_c (stream_of_lines [[48], [45, 51], [97], [32, 52, 50], [55]])
          = some v) ∧
    (∃ left : List Nat,
      get_positive_integer atoi_c (stream_of_lines [[48], [45, 51], [97], [32, 52, 50], [55]])
        = some ((first_positive_line atoi_c [[48], [45, 51], [97], [32, 52, 50], [55]]).1,
            (first_positive_line atoi_c [[48], [45, 51], [97], [32, 52, 50], [55]]).2,
            left)) :=
  ⟨by decide, by decide,
    get_positive_integer_spec atoi_c _ [[48], [45, 51], [97], [32, 52, 50], [55]] (by decide)⟩

end Tested

end Bakery
